import Mathlib

/-!
Verification of the union-find (DSU) engine library.

The repository ships six engines sharing one interface: a sequential baseline
(`UnionFind`), a coarse-lock engine (`UnionFindParallelCoarse`), a fine-lock
engine (`UnionFindParallelFine`), and three lock-free engines over a packed
parent/rank word (`UnionFindParallelLockFree`,
`UnionFindParallelLockFreePlainWrite`, `UnionFindParallelLockFreeIPC`).

We embed each engine's operations as state-passing Lean functions over the
sequential interleaving of its code (the claims are stated for the sequential
embedding).  Recursion in `find` and the lock-free retry loops are modelled
with an explicit fuel parameter; `none` means the fuel ran out (a modelling
artifact: the C++ recursion is unbounded), while `some` carries the C++
result.  Bounds violations, which the lock-free engines signal with
`std::out_of_range` and the locked engines with a failing `assert`, are
modelled as an `OutOfBounds` error value.

This first section develops the theory of parent-pointer arrays shared by all
engines: steps along `parent`, reachability of a root, the forest invariant,
and root counting.
-/

namespace DSU

/-- One step of the parent relation of a separated-layout parent array:
`parentStep p i` is `parent[i]`.  Out-of-range indices are treated as fixed
points, which is never exercised by the bounds-checked operations. -/
def parentStep (p : Array Nat) (i : Nat) : Nat := p.getD i i

/-- `k`-fold iteration of the parent step. -/
def parentIter (p : Array Nat) : Nat → Nat → Nat
  | 0, i => i
  | k + 1, i => parentIter p k (parentStep p i)

/-- A root of the forest: a self-parent entry (separated layout). -/
def IsRoot (p : Array Nat) (i : Nat) : Prop := parentStep p i = i

instance (p : Array Nat) : DecidablePred (IsRoot p) := fun i =>
  decidable_of_iff (parentStep p i = i) Iff.rfl

/-- Following parent links from `i` reaches the root `r` in finitely many
steps. -/
def reachesRoot (p : Array Nat) (i r : Nat) : Prop :=
  ∃ k, parentIter p k i = r ∧ IsRoot p r

/-- The global forest invariant: every element reaches a root in finitely
many steps. -/
def Forest (p : Array Nat) : Prop := ∀ i, ∃ r, reachesRoot p i r

/-- Two elements lie in the same set iff they reach the same root. -/
def sameRoot (p : Array Nat) (a b : Nat) : Prop :=
  ∃ r, reachesRoot p a r ∧ reachesRoot p b r

/-- Number of roots (= number of sets) of a separated-layout parent array. -/
def numRoots (p : Array Nat) : Nat :=
  ((Finset.range p.size).filter (fun i => IsRoot p i)).card

/-- All parent entries are in bounds. -/
def ParentInBounds (p : Array Nat) : Prop :=
  ∀ i, i < p.size → parentStep p i < p.size

theorem parentIter_succ (p : Array Nat) (k i : Nat) :
    parentIter p (k + 1) i = parentIter p k (parentStep p i) := rfl

theorem parentIter_add (p : Array Nat) (k m i : Nat) :
    parentIter p (k + m) i = parentIter p m (parentIter p k i) := by
  induction k generalizing i with
  | zero => simp [parentIter]
  | succ k ih =>
      have : k + 1 + m = (k + m) + 1 := by omega
      rw [this, parentIter_succ, parentIter_succ, ih]

theorem parentIter_of_isRoot {p : Array Nat} {r : Nat} (h : IsRoot p r) :
    ∀ k, parentIter p k r = r := by
  intro k
  induction k with
  | zero => rfl
  | succ k ih => rw [parentIter_succ, h, ih]

theorem reachesRoot_refl {p : Array Nat} {r : Nat} (h : IsRoot p r) :
    reachesRoot p r r := ⟨0, rfl, h⟩

theorem reachesRoot_isRoot {p : Array Nat} {i r : Nat}
    (h : reachesRoot p i r) : IsRoot p r := h.choose_spec.2

theorem reachesRoot_step {p : Array Nat} {i j r : Nat}
    (hij : parentStep p i = j) (h : reachesRoot p j r) : reachesRoot p i r := by
  obtain ⟨k, hk, hr⟩ := h
  exact ⟨k + 1, by rw [parentIter_succ, hij, hk], hr⟩

theorem reachesRoot_tail {p : Array Nat} {i r : Nat}
    (h : reachesRoot p i r) (hne : i ≠ r) : reachesRoot p (parentStep p i) r := by
  obtain ⟨k, hk, hr⟩ := h
  cases k with
  | zero => exact absurd hk hne
  | succ k => exact ⟨k, by rw [parentIter_succ] at hk; exact hk, hr⟩

theorem reachesRoot_of_root {p : Array Nat} {r ρ : Nat} (hr : IsRoot p r)
    (h : reachesRoot p r ρ) : ρ = r := by
  obtain ⟨k, hk, _⟩ := h
  rw [parentIter_of_isRoot hr] at hk
  exact hk.symm

theorem reachesRoot_unique {p : Array Nat} {i r₁ r₂ : Nat}
    (h₁ : reachesRoot p i r₁) (h₂ : reachesRoot p i r₂) : r₁ = r₂ := by
  obtain ⟨k₁, hk₁, hr₁⟩ := h₁
  obtain ⟨k₂, hk₂, hr₂⟩ := h₂
  rcases Nat.le_total k₁ k₂ with h | h
  · have : parentIter p (k₁ + (k₂ - k₁)) i = r₂ := by
      rw [Nat.add_sub_cancel' h]; exact hk₂
    rw [parentIter_add, hk₁, parentIter_of_isRoot hr₁] at this
    exact this
  · have : parentIter p (k₂ + (k₁ - k₂)) i = r₁ := by
      rw [Nat.add_sub_cancel' h]; exact hk₁
    rw [parentIter_add, hk₂, parentIter_of_isRoot hr₂] at this
    exact this.symm

theorem sameRoot_refl {p : Array Nat} (hf : Forest p) (a : Nat) :
    sameRoot p a a := by
  obtain ⟨r, hr⟩ := hf a
  exact ⟨r, hr, hr⟩

theorem sameRoot_symm {p : Array Nat} {a b : Nat} (h : sameRoot p a b) :
    sameRoot p b a := by
  obtain ⟨r, h₁, h₂⟩ := h
  exact ⟨r, h₂, h₁⟩

theorem sameRoot_trans {p : Array Nat} {a b c : Nat}
    (h₁ : sameRoot p a b) (h₂ : sameRoot p b c) : sameRoot p a c := by
  obtain ⟨r, ha, hb⟩ := h₁
  obtain ⟨s, hb', hc⟩ := h₂
  rw [reachesRoot_unique hb hb'] at ha
  exact ⟨s, ha, hc⟩

theorem getD_oob {p : Array Nat} {i : Nat} (h : p.size ≤ i) (d : Nat) :
    p.getD i d = d := by
  simp [Array.getD, Nat.not_lt.mpr h]

theorem isRoot_oob {p : Array Nat} {i : Nat} (h : p.size ≤ i) : IsRoot p i :=
  getD_oob h i

theorem getD_setD_self {p : Array Nat} {x : Nat} (hx : x < p.size) (v d : Nat) :
    (p.setD x v).getD x d = v := by
  simp [Array.getD, Array.size_setD, hx, Array.setD, Array.getElem_set]

theorem getD_setD_other {p : Array Nat} {x i : Nat} (hne : i ≠ x) (v d : Nat) :
    (p.setD x v).getD i d = p.getD i d := by
  by_cases hi : i < p.size
  · by_cases hx : x < p.size
    · simp [Array.getD, Array.size_setD, hi, Array.setD, hx,
        Array.getElem_set, hne.symm]
    · simp [Array.setD, hx]
  · have h1 : (p.setD x v).size ≤ i := by
      rw [Array.size_setD]; omega
    rw [getD_oob h1, getD_oob (Nat.not_lt.mp hi)]

theorem parentStep_setD_self {p : Array Nat} {x : Nat} (hx : x < p.size)
    (v : Nat) : parentStep (p.setD x v) x = v := getD_setD_self hx v x

theorem parentStep_setD_other {p : Array Nat} {x i : Nat} (hne : i ≠ x)
    (v : Nat) : parentStep (p.setD x v) i = parentStep p i :=
  getD_setD_other hne v i

/-- Which entries are roots after a single parent write. -/
theorem isRoot_setD {p : Array Nat} {x : Nat} (hx : x < p.size) (v y : Nat) :
    IsRoot (p.setD x v) y ↔ (if y = x then v = x else IsRoot p y) := by
  by_cases hy : y = x
  · subst hy
    rw [if_pos rfl]
    exact ⟨fun h => by rwa [IsRoot, parentStep_setD_self hx] at h,
           fun h => by rw [IsRoot, parentStep_setD_self hx]; exact h⟩
  · rw [if_neg hy]
    exact ⟨fun h => by rwa [IsRoot, parentStep_setD_other hy] at h,
           fun h => by rw [IsRoot, parentStep_setD_other hy]; exact h⟩

theorem compress_aux_mp {p : Array Nat} {x r : Nat} (hx : x < p.size)
    (hr : reachesRoot p x r) :
    ∀ k i ρ, parentIter (p.setD x r) k i = ρ → IsRoot (p.setD x r) ρ →
      reachesRoot p i ρ := by
  have hrroot : IsRoot p r := reachesRoot_isRoot hr
  have hroot'r : IsRoot (p.setD x r) r := by
    by_cases hrx : r = x
    · rw [IsRoot, hrx, parentStep_setD_self hx]
    · rw [IsRoot, parentStep_setD_other hrx]
      exact hrroot
  intro k
  induction k with
  | zero =>
      intro i ρ hk hρ
      simp only [parentIter] at hk
      subst hk
      by_cases hxi : x = i
      · subst hxi
        rw [IsRoot, parentStep_setD_self hx] at hρ
        rw [hρ] at hr
        exact hr
      · rw [IsRoot, parentStep_setD_other (Ne.symm hxi)] at hρ
        exact reachesRoot_refl hρ
  | succ k ih =>
      intro i ρ hk hρ
      rw [parentIter_succ] at hk
      by_cases hxi : x = i
      · subst hxi
        rw [parentStep_setD_self hx, parentIter_of_isRoot hroot'r] at hk
        subst hk
        exact hr
      · rw [parentStep_setD_other (Ne.symm hxi)] at hk
        exact reachesRoot_step rfl (ih _ _ hk hρ)

theorem compress_aux_mpr {p : Array Nat} {x r : Nat} (hx : x < p.size)
    (hr : reachesRoot p x r) :
    ∀ k i ρ, parentIter p k i = ρ → IsRoot p ρ →
      reachesRoot (p.setD x r) i ρ := by
  have hrroot : IsRoot p r := reachesRoot_isRoot hr
  have hroot'r : IsRoot (p.setD x r) r := by
    by_cases hrx : r = x
    · rw [IsRoot, hrx, parentStep_setD_self hx]
    · rw [IsRoot, parentStep_setD_other hrx]
      exact hrroot
  intro k
  induction k with
  | zero =>
      intro i ρ hk hρ
      simp only [parentIter] at hk
      subst hk
      by_cases hxi : x = i
      · subst hxi
        have hrx : r = x := reachesRoot_of_root hρ hr
        refine ⟨0, rfl, ?_⟩
        rw [IsRoot, parentStep_setD_self hx]
        exact hrx
      · refine ⟨0, rfl, ?_⟩
        rw [IsRoot, parentStep_setD_other (Ne.symm hxi)]
        exact hρ
  | succ k ih =>
      intro i ρ hk hρ
      by_cases hxi : x = i
      · subst hxi
        have hreach : reachesRoot p x ρ := ⟨k + 1, hk, hρ⟩
        have hρr : ρ = r := reachesRoot_unique hreach hr
        rw [hρr]
        exact ⟨1, parentStep_setD_self hx r, hroot'r⟩
      · rw [parentIter_succ] at hk
        exact reachesRoot_step (parentStep_setD_other (Ne.symm hxi) r)
          (ih _ _ hk hρ)

/-- A path-compression write — re-pointing a node at a root it already
reaches — changes no reachability fact at all. -/
theorem reachesRoot_setD_compress {p : Array Nat} {x r : Nat}
    (hx : x < p.size) (hr : reachesRoot p x r) (i ρ : Nat) :
    reachesRoot (p.setD x r) i ρ ↔ reachesRoot p i ρ := by
  constructor
  · rintro ⟨k, hk, hρ⟩
    exact compress_aux_mp hx hr k i ρ hk hρ
  · rintro ⟨k, hk, hρ⟩
    exact compress_aux_mpr hx hr k i ρ hk hρ

theorem link_aux_mp {p : Array Nat} {x r : Nat} (hx : x < p.size)
    (hrootx : IsRoot p x) (hrootr : IsRoot p r) (hne : r ≠ x) :
    ∀ k i ρ, parentIter (p.setD x r) k i = ρ → IsRoot (p.setD x r) ρ →
      (reachesRoot p i ρ ∧ ρ ≠ x) ∨ (reachesRoot p i x ∧ ρ = r) := by
  have hroot'r : IsRoot (p.setD x r) r := by
    rw [IsRoot, parentStep_setD_other hne]; exact hrootr
  intro k
  induction k with
  | zero =>
      intro i ρ hk hρ
      simp only [parentIter] at hk
      subst hk
      by_cases hxi : x = i
      · subst hxi
        rw [IsRoot, parentStep_setD_self hx] at hρ
        exact absurd hρ hne
      · rw [IsRoot, parentStep_setD_other (Ne.symm hxi)] at hρ
        exact Or.inl ⟨reachesRoot_refl hρ, Ne.symm hxi⟩
  | succ k ih =>
      intro i ρ hk hρ
      rw [parentIter_succ] at hk
      by_cases hxi : x = i
      · subst hxi
        rw [parentStep_setD_self hx, parentIter_of_isRoot hroot'r] at hk
        subst hk
        exact Or.inr ⟨reachesRoot_refl hrootx, rfl⟩
      · rw [parentStep_setD_other (Ne.symm hxi)] at hk
        rcases ih _ _ hk hρ with ⟨h1, h2⟩ | ⟨h1, h2⟩
        · exact Or.inl ⟨reachesRoot_step rfl h1, h2⟩
        · exact Or.inr ⟨reachesRoot_step rfl h1, h2⟩

theorem link_aux_mpr_ne {p : Array Nat} {x r : Nat} (hx : x < p.size)
    (hrootx : IsRoot p x) (hrootr : IsRoot p r) (hne : r ≠ x) :
    ∀ k i ρ, parentIter p k i = ρ → IsRoot p ρ → ρ ≠ x →
      reachesRoot (p.setD x r) i ρ := by
  intro k
  induction k with
  | zero =>
      intro i ρ hk hρ hρx
      simp only [parentIter] at hk
      subst hk
      refine ⟨0, rfl, ?_⟩
      rw [IsRoot, parentStep_setD_other hρx]
      exact hρ
  | succ k ih =>
      intro i ρ hk hρ hρx
      rw [parentIter_succ] at hk
      by_cases hxi : x = i
      · exfalso
        subst hxi
        have hstep : parentStep p x = x := hrootx
        rw [hstep, parentIter_of_isRoot hrootx] at hk
        exact hρx hk.symm
      · exact reachesRoot_step (parentStep_setD_other (Ne.symm hxi) r)
          (ih _ _ hk hρ hρx)

theorem link_aux_mpr_eq {p : Array Nat} {x r : Nat} (hx : x < p.size)
    (hrootx : IsRoot p x) (hrootr : IsRoot p r) (hne : r ≠ x) :
    ∀ k i, parentIter p k i = x → reachesRoot (p.setD x r) i r := by
  have hroot'r : IsRoot (p.setD x r) r := by
    rw [IsRoot, parentStep_setD_other hne]; exact hrootr
  intro k
  induction k with
  | zero =>
      intro i hk
      simp only [parentIter] at hk
      subst hk
      exact ⟨1, parentStep_setD_self hx r, hroot'r⟩
  | succ k ih =>
      intro i hk
      rw [parentIter_succ] at hk
      by_cases hxi : x = i
      · subst hxi
        exact ⟨1, parentStep_setD_self hx r, hroot'r⟩
      · exact reachesRoot_step (parentStep_setD_other (Ne.symm hxi) r)
          (ih _ hk)

/-- A union link — re-pointing the root `x` at a different root `r` —
moves `x`'s class into `r`'s class and changes nothing else. -/
theorem reachesRoot_setD_link {p : Array Nat} {x r : Nat}
    (hx : x < p.size) (hrootx : IsRoot p x) (hrootr : IsRoot p r)
    (hne : r ≠ x) (i ρ : Nat) :
    reachesRoot (p.setD x r) i ρ ↔
      ((reachesRoot p i ρ ∧ ρ ≠ x) ∨ (reachesRoot p i x ∧ ρ = r)) := by
  constructor
  · rintro ⟨k, hk, hρ⟩
    exact link_aux_mp hx hrootx hrootr hne k i ρ hk hρ
  · rintro (⟨⟨k, hk, hρ⟩, hρx⟩ | ⟨⟨k, hk, _⟩, hρr⟩)
    · exact link_aux_mpr_ne hx hrootx hrootr hne k i ρ hk hρ hρx
    · subst hρr
      exact link_aux_mpr_eq hx hrootx hrootr hne k i hk

/-- A link write only coarsens the partition. -/
theorem sameRoot_mono_setD_link {p : Array Nat} {x r : Nat}
    (hx : x < p.size) (hrootx : IsRoot p x) (hrootr : IsRoot p r)
    (hne : r ≠ x) {u v : Nat} (h : sameRoot p u v) :
    sameRoot (p.setD x r) u v := by
  obtain ⟨ρ, hu, hv⟩ := h
  by_cases hρx : ρ = x
  · subst hρx
    exact ⟨r, (reachesRoot_setD_link hx hrootx hrootr hne u r).mpr
        (Or.inr ⟨hu, rfl⟩),
      (reachesRoot_setD_link hx hrootx hrootr hne v r).mpr (Or.inr ⟨hv, rfl⟩)⟩
  · exact ⟨ρ, (reachesRoot_setD_link hx hrootx hrootr hne u ρ).mpr
        (Or.inl ⟨hu, hρx⟩),
      (reachesRoot_setD_link hx hrootx hrootr hne v ρ).mpr (Or.inl ⟨hv, hρx⟩)⟩

/-- A link write preserves the forest invariant. -/
theorem forest_setD_link {p : Array Nat} {x r : Nat}
    (hx : x < p.size) (hrootx : IsRoot p x) (hrootr : IsRoot p r)
    (hne : r ≠ x) (hf : Forest p) : Forest (p.setD x r) := by
  intro i
  obtain ⟨ρ, hρ⟩ := hf i
  by_cases hρx : ρ = x
  · subst hρx
    exact ⟨r, (reachesRoot_setD_link hx hrootx hrootr hne i r).mpr
      (Or.inr ⟨hρ, rfl⟩)⟩
  · exact ⟨ρ, (reachesRoot_setD_link hx hrootx hrootr hne i ρ).mpr
      (Or.inl ⟨hρ, hρx⟩)⟩

/-- A compression write preserves the forest invariant. -/
theorem forest_setD_compress {p : Array Nat} {x r : Nat}
    (hx : x < p.size) (hr : reachesRoot p x r) (hf : Forest p) :
    Forest (p.setD x r) := by
  intro i
  obtain ⟨ρ, hρ⟩ := hf i
  exact ⟨ρ, (reachesRoot_setD_compress hx hr i ρ).mpr hρ⟩

/-- A compression write to a non-root node leaves the set of roots
unchanged. -/
theorem isRoot_setD_compress {p : Array Nat} {x r : Nat} (hx : x < p.size)
    (hnonroot : ¬ IsRoot p x) (hrootr : IsRoot p r) (y : Nat) :
    IsRoot (p.setD x r) y ↔ IsRoot p y := by
  have hrx : r ≠ x := fun h => hnonroot (h ▸ hrootr)
  rw [isRoot_setD hx]
  by_cases hyx : y = x
  · subst hyx
    rw [if_pos rfl]
    exact ⟨fun h => absurd h hrx, fun h => absurd h hnonroot⟩
  · rw [if_neg hyx]

theorem numRoots_congr {p q : Array Nat} (hsize : q.size = p.size)
    (h : ∀ y, IsRoot q y ↔ IsRoot p y) : numRoots q = numRoots p := by
  unfold numRoots
  rw [hsize]
  congr 1
  apply Finset.filter_congr
  intro y _
  exact h y

/-- A union link removes exactly one root. -/
theorem numRoots_setD_link {p : Array Nat} {x r : Nat} (hx : x < p.size)
    (hrootx : IsRoot p x) (hrootr : IsRoot p r) (hne : r ≠ x) :
    numRoots (p.setD x r) + 1 = numRoots p := by
  unfold numRoots
  rw [Array.size_setD]
  have hfilter : (Finset.range p.size).filter (fun i => IsRoot (p.setD x r) i)
      = ((Finset.range p.size).filter (fun i => IsRoot p i)).erase x := by
    ext y
    simp only [Finset.mem_filter, Finset.mem_erase, Finset.mem_range]
    constructor
    · rintro ⟨hy, hroot⟩
      rw [isRoot_setD hx] at hroot
      by_cases hyx : y = x
      · rw [if_pos hyx] at hroot
        exact absurd hroot hne
      · rw [if_neg hyx] at hroot
        exact ⟨hyx, hy, hroot⟩
    · rintro ⟨hyx, hy, hroot⟩
      refine ⟨hy, ?_⟩
      rw [isRoot_setD hx, if_neg hyx]
      exact hroot
  rw [hfilter]
  exact Finset.card_erase_add_one
    (Finset.mem_filter.mpr ⟨Finset.mem_range.mpr hx, hrootx⟩)

/-- In a forest the parent relation has no cycle other than the self-loop
at a root: a path that returns to its start can only start at a root. -/
theorem forest_no_cycle {p : Array Nat} (hf : Forest p) {i k : Nat}
    (hk : 0 < k) (hcyc : parentIter p k i = i) : IsRoot p i := by
  obtain ⟨r, m, hm, hroot⟩ := hf i
  have hper : ∀ j, parentIter p (j * k) i = i := by
    intro j
    induction j with
    | zero => rw [Nat.zero_mul]; simp [parentIter]
    | succ j ih =>
        rw [Nat.succ_mul, parentIter_add, ih, hcyc]
  have hle : m ≤ m * k := Nat.le_mul_of_pos_right m hk
  have h1 : parentIter p (m + (m * k - m)) i = i := by
    rw [Nat.add_sub_cancel' hle]
    exact hper m
  rw [parentIter_add, hm, parentIter_of_isRoot hroot] at h1
  rw [← h1]
  exact hroot

theorem parentInBounds_setD {p : Array Nat} {x v : Nat} (hv : v < p.size)
    (h : ParentInBounds p) : ParentInBounds (p.setD x v) := by
  intro i hi
  rw [Array.size_setD] at hi ⊢
  by_cases hix : i = x
  · subst hix
    rw [parentStep_setD_self hi]
    exact hv
  · rw [parentStep_setD_other hix]
    exact h i hi

theorem parentIter_lt_size {p : Array Nat} (h : ParentInBounds p) {i : Nat}
    (hi : i < p.size) (k : Nat) : parentIter p k i < p.size := by
  induction k generalizing i with
  | zero => exact hi
  | succ k ih =>
      rw [parentIter_succ]
      exact ih (h i hi)

theorem reachesRoot_lt_size {p : Array Nat} (h : ParentInBounds p)
    {i r : Nat} (hi : i < p.size) (hr : reachesRoot p i r) : r < p.size := by
  obtain ⟨k, hk, _⟩ := hr
  rw [← hk]
  exact parentIter_lt_size h hi k

/-- Establish the forest invariant from a decidable uniform-fuel check. -/
theorem forest_of_uniform {p : Array Nat} (k : Nat)
    (h : ∀ i, i < p.size → IsRoot p (parentIter p k i)) : Forest p := by
  intro i
  by_cases hi : i < p.size
  · exact ⟨parentIter p k i, ⟨k, rfl, h i hi⟩⟩
  · exact ⟨i, reachesRoot_refl (isRoot_oob (Nat.le_of_not_lt hi))⟩

/-! ## The shared operation ABI

Every engine declares `enum class OperationType { UNION_OP, FIND_OP,
SAMESET_OP }` and `struct Operation { OperationType type; int a; int b; }`.
We model the operation tag by its underlying integer (`UNION_OP = 0`,
`FIND_OP = 1`, `SAMESET_OP = 2`, matching both declaration order and the
operation-stream file format), so that an operation of an unexpected kind —
any other integer, producible in C++ by casting into the enum — is
representable, as required by the engines' `default:`/fall-through
branches. -/

def UNION_OP : Int := 0

def FIND_OP : Int := 1

def SAMESET_OP : Int := 2

/-- `struct Operation`: a tagged operation with operands `a` and `b`
(`b` ignored for `FIND_OP`). -/
structure Operation where
  type : Int
  a : Int
  b : Int
deriving DecidableEq

/-- Failure outcomes of an engine operation.  The lock-free engines throw
`std::out_of_range` on a bounds violation; the sequential, coarse-lock and
fine-lock engines guard the same precondition with `assert`, whose failure
(in an assertion-enabled build) likewise prevents a normal return.  Both are
modelled as `outOfBounds`.  `assertFailed` models an `assert(false)` on an
unexpected operation kind in the sequential/coarse/fine batch drivers. -/
inductive UFError where
  | outOfBounds
  | assertFailed
deriving DecidableEq

instance {ε α : Type} [DecidableEq ε] [DecidableEq α] :
    DecidableEq (Except ε α)
  | .error e, .error e' => decidable_of_iff (e = e') (by simp)
  | .error _, .ok _ => isFalse (by simp)
  | .ok _, .error _ => isFalse (by simp)
  | .ok a, .ok a' => decidable_of_iff (a = a') (by simp)

/-- The bounds precondition `0 ≤ a < n` on an `int` operand. -/
def inBounds (n : Nat) (a : Int) : Prop := 0 ≤ a ∧ a < (n : Int)

instance (n : Nat) (a : Int) : Decidable (inBounds n a) :=
  decidable_of_iff (0 ≤ a ∧ a < (n : Int)) Iff.rfl

theorem inBounds_toNat {n : Nat} {a : Int} (h : inBounds n a) : a.toNat < n := by
  obtain ⟨h0, h1⟩ := h
  omega

/-! ## The sequential engine (`UnionFind`, `src/src/union_find.cpp`)

State: two parallel arrays `parent` and `rank` plus the element count
`num_elements`.  The same code runs inside the coarse-lock engine
(`UnionFindParallelCoarse`, `src/src/union_find_parallel_coarse.cpp`), whose
bodies differ only by acquiring a `recursive_mutex`; under the sequential
embedding the lock is a no-op, so the coarse engine's embedding is defined
below as the same functions. -/

structure UnionFind where
  parent : Array Nat
  rank : Array Nat
  num_elements : Nat
deriving DecidableEq

namespace UnionFind

/-- The constructor `UnionFind(int n)`: `parent = iota`, `rank` all zero. -/
def init (n : Nat) : UnionFind :=
  ⟨Array.range n, Array.mkArray n 0, n⟩

/-- The recursive body of `find` with path compression:
`if (parent[a] != a) parent[a] = find(parent[a]); return parent[a];`.
The explicit fuel bounds the recursion depth; `none` means fuel ran out. -/
def findAux : Nat → Array Nat → Nat → Option (Array Nat × Nat)
  | 0, _, _ => none
  | fuel + 1, p, a =>
    if parentStep p a = a then some (p, a)
    else
      match findAux fuel p (parentStep p a) with
      | none => none
      | some (p', r) => some (p'.setD a r, r)

/-- `int find(int a)`: asserts `0 ≤ a < num_elements`, then runs the
recursive find. -/
def find (fuel : Nat) (s : UnionFind) (a : Int) :
    Option (Except UFError (UnionFind × Int)) :=
  if inBounds s.num_elements a then
    match findAux fuel s.parent a.toNat with
    | none => none
    | some (p', r) => some (.ok ({ s with parent := p' }, (r : Int)))
  else some (.error .outOfBounds)

/-- `bool unionSets(int a, int b)`: asserts bounds, computes both roots,
returns false if equal, otherwise links by rank (ties: `rootA` keeps the
root role, `parent[rootB] = rootA`, `++rank[rootA]`). -/
def unionSets (fuel : Nat) (s : UnionFind) (a b : Int) :
    Option (Except UFError (UnionFind × Bool)) :=
  if inBounds s.num_elements a ∧ inBounds s.num_elements b then
    match findAux fuel s.parent a.toNat with
    | none => none
    | some (p₁, rootA) =>
      match findAux fuel p₁ b.toNat with
      | none => none
      | some (p₂, rootB) =>
        if rootA = rootB then some (.ok ({ s with parent := p₂ }, false))
        else if s.rank.getD rootA 0 < s.rank.getD rootB 0 then
          some (.ok ({ s with parent := p₂.setD rootA rootB }, true))
        else if s.rank.getD rootB 0 < s.rank.getD rootA 0 then
          some (.ok ({ s with parent := p₂.setD rootB rootA }, true))
        else
          let rk := s.rank.setD rootA (s.rank.getD rootA 0 + 1)
          some (.ok ({ s with parent := p₂.setD rootB rootA, rank := rk },
            true))
  else some (.error .outOfBounds)

/-- `bool sameSet(int a, int b)`: asserts bounds, then `find(a) == find(b)`. -/
def sameSet (fuel : Nat) (s : UnionFind) (a b : Int) :
    Option (Except UFError (UnionFind × Bool)) :=
  if inBounds s.num_elements a ∧ inBounds s.num_elements b then
    match findAux fuel s.parent a.toNat with
    | none => none
    | some (p₁, rootA) =>
      match findAux fuel p₁ b.toNat with
      | none => none
      | some (p₂, rootB) =>
        some (.ok ({ s with parent := p₂ }, decide (rootA = rootB)))
  else some (.error .outOfBounds)

/-- `int size()`. -/
def size (s : UnionFind) : Nat := s.num_elements

/-- `void processOperations(ops, results)`: sequential loop over the batch.
Each iteration asserts `op.a` in bounds, dispatches on the kind (asserting
`op.b` for `UNION_OP`/`SAMESET_OP`), and records the result; the `default:`
case is an `assert(false)`.  A failing assertion aborts the batch. -/
def processOperations (fuel : Nat) :
    UnionFind → List Operation → Option (Except UFError (UnionFind × List Int))
  | s, [] => some (.ok (s, []))
  | s, op :: rest =>
    if inBounds s.num_elements op.a then
      if op.type = UNION_OP then
        if inBounds s.num_elements op.b then
          match unionSets fuel s op.a op.b with
          | none => none
          | some (.error e) => some (.error e)
          | some (.ok (s', occurred)) =>
            match processOperations fuel s' rest with
            | none => none
            | some (.error e) => some (.error e)
            | some (.ok (s'', outs)) =>
              some (.ok (s'', (if occurred then 1 else 0) :: outs))
        else some (.error .outOfBounds)
      else if op.type = FIND_OP then
        match find fuel s op.a with
        | none => none
        | some (.error e) => some (.error e)
        | some (.ok (s', r)) =>
          match processOperations fuel s' rest with
          | none => none
          | some (.error e) => some (.error e)
          | some (.ok (s'', outs)) => some (.ok (s'', r :: outs))
      else if op.type = SAMESET_OP then
        if inBounds s.num_elements op.b then
          match sameSet fuel s op.a op.b with
          | none => none
          | some (.error e) => some (.error e)
          | some (.ok (s', same)) =>
            match processOperations fuel s' rest with
            | none => none
            | some (.error e) => some (.error e)
            | some (.ok (s'', outs)) =>
              some (.ok (s'', (if same then 1 else 0) :: outs))
        else some (.error .outOfBounds)
      else some (.error .assertFailed)
    else some (.error .outOfBounds)

/-- Well-formedness of a sequential/coarse/fine engine state: array sizes
match `num_elements`, parent entries are in bounds, and the parent relation
is a forest. -/
def WF (s : UnionFind) : Prop :=
  s.parent.size = s.num_elements ∧ s.rank.size = s.num_elements ∧
    ParentInBounds s.parent ∧ Forest s.parent

theorem parentStep_range (n : Nat) {i : Nat} (hi : i < n) :
    parentStep (Array.range n) i = i := by
  unfold parentStep
  simp [Array.getD, Array.size_range, hi, Array.getElem_range]

theorem WF_init_seq (n : Nat) : WF (init n) := by
  refine ⟨?_, ?_, ?_, ?_⟩
  · show (Array.range n).size = n
    exact Array.size_range
  · show (Array.mkArray n 0).size = n
    exact Array.size_mkArray n 0
  · show ParentInBounds (Array.range n)
    intro i hi
    rw [Array.size_range] at hi ⊢
    rw [parentStep_range n hi]
    exact hi
  · show Forest (Array.range n)
    apply forest_of_uniform 0
    intro i hi
    rw [Array.size_range] at hi
    simp only [parentIter]
    exact parentStep_range n hi

/-- `find`'s recursive body returns the root reached from `a`, preserves
every reachability fact (compression is benign), preserves the set of
roots, the array size and bounds of entries. -/
theorem findAux_spec {fuel : Nat} :
    ∀ {p p' : Array Nat} {a r : Nat},
      ParentInBounds p → a < p.size → findAux fuel p a = some (p', r) →
      reachesRoot p a r ∧
      (∀ i ρ, reachesRoot p' i ρ ↔ reachesRoot p i ρ) ∧
      (∀ y, IsRoot p' y ↔ IsRoot p y) ∧
      p'.size = p.size ∧ ParentInBounds p' := by
  induction fuel with
  | zero =>
      intro p p' a r _ _ h
      exact absurd h (by simp [findAux])
  | succ fuel ih =>
      intro p p' a r hpib ha h
      rw [findAux] at h
      by_cases hroot : parentStep p a = a
      · rw [if_pos hroot] at h
        have h1 : p' = p ∧ r = a := by
          injection h with h2
          injection h2 with h3 h4
          exact ⟨h3.symm, h4.symm⟩
        obtain ⟨rfl, rfl⟩ := h1
        exact ⟨reachesRoot_refl hroot, fun _ _ => Iff.rfl, fun _ => Iff.rfl,
          rfl, hpib⟩
      · rw [if_neg hroot] at h
        cases hrec : findAux fuel p (parentStep p a) with
        | none => rw [hrec] at h; exact absurd h (by simp)
        | some pr =>
            obtain ⟨p₁, r₁⟩ := pr
            rw [hrec] at h
            have h1 : p' = p₁.setD a r₁ ∧ r₁ = r := by
              injection h with h2
              injection h2 with h3 h4
              exact ⟨h3.symm, h4⟩
            obtain ⟨rfl, rfl⟩ := h1
            have hj : parentStep p a < p.size := hpib a ha
            obtain ⟨hreach, hpres, hrootset, hsize, hpib₁⟩ := ih hpib hj hrec
            have hreach_a : reachesRoot p a r₁ := reachesRoot_step rfl hreach
            have hreach₁ : reachesRoot p₁ a r₁ := (hpres a r₁).mpr hreach_a
            have ha₁ : a < p₁.size := by rw [hsize]; exact ha
            have hnonroot₁ : ¬ IsRoot p₁ a := fun hh => hroot ((hrootset a).mp hh)
            have hrootr₁ : IsRoot p₁ r₁ := reachesRoot_isRoot hreach₁
            have hr₁lt : r₁ < p.size := reachesRoot_lt_size hpib ha hreach_a
            refine ⟨hreach_a, ?_, ?_, ?_, ?_⟩
            · intro i ρ
              rw [reachesRoot_setD_compress ha₁ hreach₁ i ρ]
              exact hpres i ρ
            · intro y
              rw [isRoot_setD_compress ha₁ hnonroot₁ hrootr₁ y]
              exact hrootset y
            · rw [Array.size_setD]
              exact hsize
            · exact parentInBounds_setD (by rw [hsize]; exact hr₁lt) hpib₁

/-- Specification of the public `find`. -/
theorem find_spec_seq {fuel : Nat} {s s' : UnionFind} {a r : Int}
    (hwf : WF s) (h : find fuel s a = some (.ok (s', r))) :
    inBounds s.num_elements a ∧
    ∃ rn : Nat, r = (rn : Int) ∧ reachesRoot s.parent a.toNat rn ∧
      WF s' ∧ s'.num_elements = s.num_elements ∧ s'.rank = s.rank ∧
      (∀ i ρ, reachesRoot s'.parent i ρ ↔ reachesRoot s.parent i ρ) ∧
      (∀ y, IsRoot s'.parent y ↔ IsRoot s.parent y) := by
  obtain ⟨hps, hrs, hpib, hforest⟩ := hwf
  rw [find] at h
  by_cases hb : inBounds s.num_elements a
  · rw [if_pos hb] at h
    cases hfa : findAux fuel s.parent a.toNat with
    | none => rw [hfa] at h; exact absurd h (by simp)
    | some pr =>
        obtain ⟨p', rn⟩ := pr
        rw [hfa] at h
        dsimp only [] at h
        have h1 : s' = { s with parent := p' } ∧ (rn : Int) = r := by
          injection h with h2
          injection h2 with h3
          injection h3 with h4 h5
          exact ⟨h4.symm, h5⟩
        obtain ⟨rfl, rfl⟩ := h1
        have halt : a.toNat < s.parent.size := by
          rw [hps]; exact inBounds_toNat hb
        obtain ⟨hreach, hpres, hrootset, hsize, hpib'⟩ :=
          findAux_spec hpib halt hfa
        refine ⟨hb, rn, rfl, hreach, ⟨?_, hrs, hpib', ?_⟩, rfl, rfl,
          hpres, hrootset⟩
        · show p'.size = s.num_elements
          rw [hsize]; exact hps
        · show Forest p'
          intro i
          obtain ⟨ρ, hρ⟩ := hforest i
          exact ⟨ρ, (hpres i ρ).mpr hρ⟩
  · rw [if_neg hb] at h
    exact absurd h (by simp)

/-- Specification of the public `unionSets`. -/
theorem unionSets_spec_seq {fuel : Nat} {s s' : UnionFind} {a b : Int} {ret : Bool}
    (hwf : WF s) (h : unionSets fuel s a b = some (.ok (s', ret))) :
    inBounds s.num_elements a ∧ inBounds s.num_elements b ∧
    WF s' ∧ s'.num_elements = s.num_elements ∧
    ∃ rA rB : Nat,
      reachesRoot s.parent a.toNat rA ∧ reachesRoot s.parent b.toNat rB ∧
      ((ret = false ∧ rA = rB ∧ s'.rank = s.rank ∧
          (∀ i ρ, reachesRoot s'.parent i ρ ↔ reachesRoot s.parent i ρ) ∧
          numRoots s'.parent = numRoots s.parent) ∨
       (ret = true ∧ rA ≠ rB ∧
          numRoots s'.parent + 1 = numRoots s.parent ∧
          (∀ u v, sameRoot s.parent u v → sameRoot s'.parent u v) ∧
          sameRoot s'.parent a.toNat b.toNat ∧
          ((s.rank.getD rA 0 < s.rank.getD rB 0 ∧
              parentStep s'.parent rA = rB ∧ s'.rank = s.rank) ∨
           (s.rank.getD rB 0 < s.rank.getD rA 0 ∧
              parentStep s'.parent rB = rA ∧ s'.rank = s.rank) ∨
           (s.rank.getD rA 0 = s.rank.getD rB 0 ∧
              parentStep s'.parent rB = rA ∧
              s'.rank = s.rank.setD rA (s.rank.getD rA 0 + 1))))) := by
  obtain ⟨hps, hrs, hpib, hforest⟩ := hwf
  rw [unionSets] at h
  by_cases hab : inBounds s.num_elements a ∧ inBounds s.num_elements b
  · rw [if_pos hab] at h
    obtain ⟨ha, hb⟩ := hab
    cases hfa : findAux fuel s.parent a.toNat with
    | none => rw [hfa] at h; exact absurd h (by simp)
    | some prA =>
      obtain ⟨p₁, rA⟩ := prA
      rw [hfa] at h
      dsimp only [] at h
      have haLT : a.toNat < s.parent.size := by
        rw [hps]; exact inBounds_toNat ha
      obtain ⟨hreachA, hpresA, hrootsetA, hsizeA, hpibA⟩ :=
        findAux_spec hpib haLT hfa
      cases hfb : findAux fuel p₁ b.toNat with
      | none => rw [hfb] at h; exact absurd h (by simp)
      | some prB =>
        obtain ⟨p₂, rB⟩ := prB
        rw [hfb] at h
        dsimp only [] at h
        have hbLT : b.toNat < p₁.size := by
          rw [hsizeA, hps]; exact inBounds_toNat hb
        obtain ⟨hreachB₁, hpresB, hrootsetB, hsizeB, hpibB⟩ :=
          findAux_spec hpibA hbLT hfb
        have hreachB : reachesRoot s.parent b.toNat rB :=
          (hpresA _ _).mp hreachB₁
        have hpres₂ : ∀ i ρ, reachesRoot p₂ i ρ ↔ reachesRoot s.parent i ρ :=
          fun i ρ => (hpresB i ρ).trans (hpresA i ρ)
        have hrootset₂ : ∀ y, IsRoot p₂ y ↔ IsRoot s.parent y :=
          fun y => (hrootsetB y).trans (hrootsetA y)
        have hsize₂ : p₂.size = s.parent.size := by rw [hsizeB, hsizeA]
        have hrootA : IsRoot p₂ rA :=
          (hrootset₂ rA).mpr (reachesRoot_isRoot hreachA)
        have hrootB : IsRoot p₂ rB :=
          (hrootset₂ rB).mpr (reachesRoot_isRoot hreachB)
        have hrAlt : rA < p₂.size := by
          rw [hsize₂]; exact reachesRoot_lt_size hpib haLT hreachA
        have hrBlt : rB < p₂.size := by
          rw [hsize₂]
          exact reachesRoot_lt_size hpib (by rw [hps]; exact inBounds_toNat hb)
            hreachB
        have hforest₂ : Forest p₂ := by
          intro i
          obtain ⟨ρ, hρ⟩ := hforest i
          exact ⟨ρ, (hpres₂ i ρ).mpr hρ⟩
        by_cases hAB : rA = rB
        · rw [if_pos hAB] at h
          have h1 : s' = { s with parent := p₂ } ∧ false = ret := by
            injection h with h2
            injection h2 with h3
            injection h3 with h4 h5
            exact ⟨h4.symm, h5⟩
          obtain ⟨rfl, rfl⟩ := h1
          refine ⟨ha, hb, ⟨?_, hrs, hpibB, hforest₂⟩, rfl, rA, rB,
            hreachA, hreachB, Or.inl ⟨rfl, hAB, rfl, hpres₂, ?_⟩⟩
          · show p₂.size = s.num_elements
            rw [hsize₂]; exact hps
          · exact numRoots_congr hsize₂ hrootset₂
        · rw [if_neg hAB] at h
          by_cases hr1 : s.rank.getD rA 0 < s.rank.getD rB 0
          · rw [if_pos hr1] at h
            have h1 : s' = { s with parent := p₂.setD rA rB } ∧ true = ret := by
              injection h with h2
              injection h2 with h3
              injection h3 with h4 h5
              exact ⟨h4.symm, h5⟩
            obtain ⟨rfl, rfl⟩ := h1
            have hneBA : rB ≠ rA := fun hh => hAB hh.symm
            refine ⟨ha, hb, ⟨?_, hrs,
              parentInBounds_setD hrBlt hpibB,
              forest_setD_link hrAlt hrootA hrootB hneBA hforest₂⟩, rfl,
              rA, rB, hreachA, hreachB, Or.inr ⟨rfl, hAB, ?_, ?_, ?_,
              Or.inl ⟨hr1, parentStep_setD_self hrAlt rB, rfl⟩⟩⟩
            · show (p₂.setD rA rB).size = s.num_elements
              rw [Array.size_setD, hsize₂]; exact hps
            · rw [numRoots_setD_link hrAlt hrootA hrootB hneBA]
              exact numRoots_congr hsize₂ hrootset₂
            · intro u v huv
              apply sameRoot_mono_setD_link hrAlt hrootA hrootB hneBA
              obtain ⟨ρ, hu, hv⟩ := huv
              exact ⟨ρ, (hpres₂ u ρ).mpr hu, (hpres₂ v ρ).mpr hv⟩
            · refine ⟨rB, ?_, ?_⟩
              · exact (reachesRoot_setD_link hrAlt hrootA hrootB hneBA _ _).mpr
                  (Or.inr ⟨(hpres₂ _ _).mpr hreachA, rfl⟩)
              · exact (reachesRoot_setD_link hrAlt hrootA hrootB hneBA _ _).mpr
                  (Or.inl ⟨(hpres₂ _ _).mpr hreachB, hneBA⟩)
          · rw [if_neg hr1] at h
            by_cases hr2 : s.rank.getD rB 0 < s.rank.getD rA 0
            · rw [if_pos hr2] at h
              have h1 : s' = { s with parent := p₂.setD rB rA } ∧
                  true = ret := by
                injection h with h2
                injection h2 with h3
                injection h3 with h4 h5
                exact ⟨h4.symm, h5⟩
              obtain ⟨rfl, rfl⟩ := h1
              refine ⟨ha, hb, ⟨?_, hrs,
                parentInBounds_setD hrAlt hpibB,
                forest_setD_link hrBlt hrootB hrootA hAB hforest₂⟩, rfl,
                rA, rB, hreachA, hreachB, Or.inr ⟨rfl, hAB, ?_, ?_, ?_,
                Or.inr (Or.inl ⟨hr2, parentStep_setD_self hrBlt rA, rfl⟩)⟩⟩
              · show (p₂.setD rB rA).size = s.num_elements
                rw [Array.size_setD, hsize₂]; exact hps
              · rw [numRoots_setD_link hrBlt hrootB hrootA hAB]
                exact numRoots_congr hsize₂ hrootset₂
              · intro u v huv
                apply sameRoot_mono_setD_link hrBlt hrootB hrootA hAB
                obtain ⟨ρ, hu, hv⟩ := huv
                exact ⟨ρ, (hpres₂ u ρ).mpr hu, (hpres₂ v ρ).mpr hv⟩
              · refine ⟨rA, ?_, ?_⟩
                · exact (reachesRoot_setD_link hrBlt hrootB hrootA hAB _ _).mpr
                    (Or.inl ⟨(hpres₂ _ _).mpr hreachA, hAB⟩)
                · exact (reachesRoot_setD_link hrBlt hrootB hrootA hAB _ _).mpr
                    (Or.inr ⟨(hpres₂ _ _).mpr hreachB, rfl⟩)
            · rw [if_neg hr2] at h
              have hreq : s.rank.getD rA 0 = s.rank.getD rB 0 := by omega
              have h1 : s' = UnionFind.mk (p₂.setD rB rA)
                  (s.rank.setD rA (s.rank.getD rA 0 + 1)) s.num_elements ∧
                  true = ret := by
                injection h with h2
                injection h2 with h3
                injection h3 with h4 h5
                exact ⟨h4.symm, h5⟩
              obtain ⟨rfl, rfl⟩ := h1
              refine ⟨ha, hb, ⟨?_, ?_,
                parentInBounds_setD hrAlt hpibB,
                forest_setD_link hrBlt hrootB hrootA hAB hforest₂⟩, rfl,
                rA, rB, hreachA, hreachB, Or.inr ⟨rfl, hAB, ?_, ?_, ?_,
                Or.inr (Or.inr ⟨hreq, parentStep_setD_self hrBlt rA, rfl⟩)⟩⟩
              · show (p₂.setD rB rA).size = s.num_elements
                rw [Array.size_setD, hsize₂]; exact hps
              · show (s.rank.setD rA (s.rank.getD rA 0 + 1)).size =
                  s.num_elements
                rw [Array.size_setD]; exact hrs
              · rw [numRoots_setD_link hrBlt hrootB hrootA hAB]
                exact numRoots_congr hsize₂ hrootset₂
              · intro u v huv
                apply sameRoot_mono_setD_link hrBlt hrootB hrootA hAB
                obtain ⟨ρ, hu, hv⟩ := huv
                exact ⟨ρ, (hpres₂ u ρ).mpr hu, (hpres₂ v ρ).mpr hv⟩
              · refine ⟨rA, ?_, ?_⟩
                · exact (reachesRoot_setD_link hrBlt hrootB hrootA hAB _ _).mpr
                    (Or.inl ⟨(hpres₂ _ _).mpr hreachA, hAB⟩)
                · exact (reachesRoot_setD_link hrBlt hrootB hrootA hAB _ _).mpr
                    (Or.inr ⟨(hpres₂ _ _).mpr hreachB, rfl⟩)
  · rw [if_neg hab] at h
    exact absurd h (by simp)

/-- Specification of the public `sameSet`. -/
theorem sameSet_spec_seq {fuel : Nat} {s s' : UnionFind} {a b : Int} {ret : Bool}
    (hwf : WF s) (h : sameSet fuel s a b = some (.ok (s', ret))) :
    inBounds s.num_elements a ∧ inBounds s.num_elements b ∧
    WF s' ∧ s'.num_elements = s.num_elements ∧ s'.rank = s.rank ∧
    (∀ i ρ, reachesRoot s'.parent i ρ ↔ reachesRoot s.parent i ρ) ∧
    (∀ y, IsRoot s'.parent y ↔ IsRoot s.parent y) ∧
    (ret = true ↔ sameRoot s.parent a.toNat b.toNat) := by
  obtain ⟨hps, hrs, hpib, hforest⟩ := hwf
  rw [sameSet] at h
  by_cases hab : inBounds s.num_elements a ∧ inBounds s.num_elements b
  · rw [if_pos hab] at h
    obtain ⟨ha, hb⟩ := hab
    cases hfa : findAux fuel s.parent a.toNat with
    | none => rw [hfa] at h; exact absurd h (by simp)
    | some prA =>
      obtain ⟨p₁, rA⟩ := prA
      rw [hfa] at h
      dsimp only [] at h
      have haLT : a.toNat < s.parent.size := by
        rw [hps]; exact inBounds_toNat ha
      obtain ⟨hreachA, hpresA, hrootsetA, hsizeA, hpibA⟩ :=
        findAux_spec hpib haLT hfa
      cases hfb : findAux fuel p₁ b.toNat with
      | none => rw [hfb] at h; exact absurd h (by simp)
      | some prB =>
        obtain ⟨p₂, rB⟩ := prB
        rw [hfb] at h
        dsimp only [] at h
        have hbLT : b.toNat < p₁.size := by
          rw [hsizeA, hps]; exact inBounds_toNat hb
        obtain ⟨hreachB₁, hpresB, hrootsetB, hsizeB, hpibB⟩ :=
          findAux_spec hpibA hbLT hfb
        have hreachB : reachesRoot s.parent b.toNat rB :=
          (hpresA _ _).mp hreachB₁
        have hpres₂ : ∀ i ρ, reachesRoot p₂ i ρ ↔ reachesRoot s.parent i ρ :=
          fun i ρ => (hpresB i ρ).trans (hpresA i ρ)
        have hrootset₂ : ∀ y, IsRoot p₂ y ↔ IsRoot s.parent y :=
          fun y => (hrootsetB y).trans (hrootsetA y)
        have hsize₂ : p₂.size = s.parent.size := by rw [hsizeB, hsizeA]
        have h1 : s' = { s with parent := p₂ } ∧ decide (rA = rB) = ret := by
          injection h with h2
          injection h2 with h3
          injection h3 with h4 h5
          exact ⟨h4.symm, h5⟩
        obtain ⟨rfl, rfl⟩ := h1
        refine ⟨ha, hb, ⟨?_, hrs, hpibB, ?_⟩, rfl, rfl, hpres₂, hrootset₂, ?_⟩
        · show p₂.size = s.num_elements
          rw [hsize₂]; exact hps
        · show Forest p₂
          intro i
          obtain ⟨ρ, hρ⟩ := hforest i
          exact ⟨ρ, (hpres₂ i ρ).mpr hρ⟩
        · constructor
          · intro hd
            have : rA = rB := by simpa using hd
            exact ⟨rA, hreachA, this ▸ hreachB⟩
          · intro hsr
            obtain ⟨ρ, hu, hv⟩ := hsr
            have e1 : ρ = rA := reachesRoot_unique hu hreachA
            have e2 : ρ = rB := reachesRoot_unique hv hreachB
            simp [← e1, ← e2]
  · rw [if_neg hab] at h
    exact absurd h (by simp)

end UnionFind

/-! ## The coarse-lock engine (`UnionFindParallelCoarse`,
`src/src/union_find_parallel_coarse.cpp`)

Its state is the same `parent`/`rank`/`num_elements` triple plus one
`recursive_mutex`, and each operation body is the sequential engine's body
executed under the lock.  The sequential embedding erases the lock, so each
operation coincides with the sequential engine's embedding. -/

namespace UnionFindParallelCoarse

def find (fuel : Nat) (s : UnionFind) (a : Int) :
    Option (Except UFError (UnionFind × Int)) := UnionFind.find fuel s a

def unionSets (fuel : Nat) (s : UnionFind) (a b : Int) :
    Option (Except UFError (UnionFind × Bool)) := UnionFind.unionSets fuel s a b

def sameSet (fuel : Nat) (s : UnionFind) (a b : Int) :
    Option (Except UFError (UnionFind × Bool)) := UnionFind.sameSet fuel s a b

def size (s : UnionFind) : Nat := s.num_elements

def processOperations (fuel : Nat) (s : UnionFind) (ops : List Operation) :
    Option (Except UFError (UnionFind × List Int)) :=
  UnionFind.processOperations fuel s ops

end UnionFindParallelCoarse

/-! ## The fine-lock engine (`UnionFindParallelFine`,
`src/src/union_find_parallel_fine.cpp`)

State: `parent`/`rank`/`num_elements` plus one mutex per element; the
sequential embedding erases the locks, so the state type is shared with the
sequential engine.  `find` is the iterative two-pass version: walk to the
root, then re-walk the path writing the root into each visited node.
`unionSets` re-derives the roots without compression while holding the two
root locks and retries if they changed; sequentially nothing can change
between the find and the verification, so the retry branch is unreachable
(it is modelled as `none`, the same as divergence). -/

namespace UnionFindParallelFine

/-- The lock-free root walk (`while (parent[root] != root) root = ...`),
also used verbatim by `find_root_no_compression`. -/
def rootAux : Nat → Array Nat → Nat → Option Nat
  | 0, p, cur => if parentStep p cur = cur then some cur else none
  | fuel + 1, p, cur =>
    if parentStep p cur = cur then some cur
    else rootAux fuel p (parentStep p cur)

/-- Pass 2 of `find`: `while (current != root) { next = parent[current];
parent[current] = root; current = next; }`. -/
def compressTo : Nat → Array Nat → Nat → Nat → Option (Array Nat)
  | 0, p, cur, root => if cur = root then some p else none
  | fuel + 1, p, cur, root =>
    if cur = root then some p
    else compressTo fuel (p.setD cur root) (parentStep p cur) root

/-- The body of `find` on an in-bounds index: both passes. -/
def findN (fuel : Nat) (p : Array Nat) (a : Nat) : Option (Array Nat × Nat) :=
  match rootAux fuel p a with
  | none => none
  | some root =>
    match compressTo fuel p a root with
    | none => none
    | some p' => some (p', root)

/-- `int find(int a)`: asserts bounds, then the two-pass walk. -/
def find (fuel : Nat) (s : UnionFind) (a : Int) :
    Option (Except UFError (UnionFind × Int)) :=
  if inBounds s.num_elements a then
    match findN fuel s.parent a.toNat with
    | none => none
    | some (p', root) => some (.ok ({ s with parent := p' }, (root : Int)))
  else some (.error .outOfBounds)

/-- `int find_root_no_compression(int a) const`. -/
def find_root_no_compression (fuel : Nat) (s : UnionFind) (a : Nat) :
    Option Nat := rootAux fuel s.parent a

/-- `bool unionSets(int a, int b)`: find both roots, return false if equal,
lock the two roots in index order (a sequential no-op), re-derive both roots
without compression, retry if the verification fails (sequentially
unreachable, modelled as `none`), else union by rank exactly as the
sequential engine. -/
def unionSets (fuel : Nat) (s : UnionFind) (a b : Int) :
    Option (Except UFError (UnionFind × Bool)) :=
  if inBounds s.num_elements a ∧ inBounds s.num_elements b then
    match findN fuel s.parent a.toNat with
    | none => none
    | some (p₁, rootA) =>
      match findN fuel p₁ b.toNat with
      | none => none
      | some (p₂, rootB) =>
        if rootA = rootB then some (.ok ({ s with parent := p₂ }, false))
        else
          match rootAux fuel p₂ a.toNat with
          | none => none
          | some currentRootA =>
            match rootAux fuel p₂ b.toNat with
            | none => none
            | some currentRootB =>
              if currentRootA ≠ rootA ∨ currentRootB ≠ rootB ∨
                  currentRootA = currentRootB then
                none
              else if s.rank.getD rootA 0 < s.rank.getD rootB 0 then
                some (.ok ({ s with parent := p₂.setD rootA rootB }, true))
              else if s.rank.getD rootB 0 < s.rank.getD rootA 0 then
                some (.ok ({ s with parent := p₂.setD rootB rootA }, true))
              else
                let rk := s.rank.setD rootA (s.rank.getD rootA 0 + 1)
                some (.ok (UnionFind.mk (p₂.setD rootB rootA) rk
                  s.num_elements, true))
  else some (.error .outOfBounds)

/-- `bool sameSet(int a, int b)`: asserts bounds, then
`find(a) == find(b)` with the best-effort find. -/
def sameSet (fuel : Nat) (s : UnionFind) (a b : Int) :
    Option (Except UFError (UnionFind × Bool)) :=
  if inBounds s.num_elements a ∧ inBounds s.num_elements b then
    match findN fuel s.parent a.toNat with
    | none => none
    | some (p₁, rootA) =>
      match findN fuel p₁ b.toNat with
      | none => none
      | some (p₂, rootB) =>
        some (.ok ({ s with parent := p₂ }, decide (rootA = rootB)))
  else some (.error .outOfBounds)

def size (s : UnionFind) : Nat := s.num_elements

/-- `processOperations`: the same assert-guarded dispatch loop as the
sequential engine, invoking this engine's operations. -/
def processOperations (fuel : Nat) :
    UnionFind → List Operation → Option (Except UFError (UnionFind × List Int))
  | s, [] => some (.ok (s, []))
  | s, op :: rest =>
    if inBounds s.num_elements op.a then
      if op.type = UNION_OP then
        if inBounds s.num_elements op.b then
          match unionSets fuel s op.a op.b with
          | none => none
          | some (.error e) => some (.error e)
          | some (.ok (s', occurred)) =>
            match processOperations fuel s' rest with
            | none => none
            | some (.error e) => some (.error e)
            | some (.ok (s'', outs)) =>
              some (.ok (s'', (if occurred then 1 else 0) :: outs))
        else some (.error .outOfBounds)
      else if op.type = FIND_OP then
        match find fuel s op.a with
        | none => none
        | some (.error e) => some (.error e)
        | some (.ok (s', r)) =>
          match processOperations fuel s' rest with
          | none => none
          | some (.error e) => some (.error e)
          | some (.ok (s'', outs)) => some (.ok (s'', r :: outs))
      else if op.type = SAMESET_OP then
        if inBounds s.num_elements op.b then
          match sameSet fuel s op.a op.b with
          | none => none
          | some (.error e) => some (.error e)
          | some (.ok (s', same)) =>
            match processOperations fuel s' rest with
            | none => none
            | some (.error e) => some (.error e)
            | some (.ok (s'', outs)) =>
              some (.ok (s'', (if same then 1 else 0) :: outs))
        else some (.error .outOfBounds)
      else some (.error .assertFailed)
    else some (.error .outOfBounds)

theorem rootAux_spec {fuel : Nat} :
    ∀ {p : Array Nat} {cur r : Nat}, rootAux fuel p cur = some r →
      reachesRoot p cur r := by
  induction fuel with
  | zero =>
      intro p cur r h
      rw [rootAux] at h
      by_cases hc : parentStep p cur = cur
      · rw [if_pos hc] at h
        injection h with h1
        subst h1
        exact reachesRoot_refl hc
      · rw [if_neg hc] at h
        exact absurd h (by simp)
  | succ fuel ih =>
      intro p cur r h
      rw [rootAux] at h
      by_cases hc : parentStep p cur = cur
      · rw [if_pos hc] at h
        injection h with h1
        subst h1
        exact reachesRoot_refl hc
      · rw [if_neg hc] at h
        exact reachesRoot_step rfl (ih h)

theorem compressTo_spec {fuel : Nat} :
    ∀ {p p' : Array Nat} {cur root : Nat},
      ParentInBounds p → cur < p.size → reachesRoot p cur root →
      compressTo fuel p cur root = some p' →
      (∀ i ρ, reachesRoot p' i ρ ↔ reachesRoot p i ρ) ∧
      (∀ y, IsRoot p' y ↔ IsRoot p y) ∧
      p'.size = p.size ∧ ParentInBounds p' := by
  induction fuel with
  | zero =>
      intro p p' cur root hpib hcur hreach h
      rw [compressTo] at h
      by_cases hc : cur = root
      · rw [if_pos hc] at h
        injection h with h1
        subst h1
        exact ⟨fun _ _ => Iff.rfl, fun _ => Iff.rfl, rfl, hpib⟩
      · rw [if_neg hc] at h
        exact absurd h (by simp)
  | succ fuel ih =>
      intro p p' cur root hpib hcur hreach h
      rw [compressTo] at h
      by_cases hc : cur = root
      · rw [if_pos hc] at h
        injection h with h1
        subst h1
        exact ⟨fun _ _ => Iff.rfl, fun _ => Iff.rfl, rfl, hpib⟩
      · rw [if_neg hc] at h
        have hrootroot : IsRoot p root := reachesRoot_isRoot hreach
        have hrootlt : root < p.size := reachesRoot_lt_size hpib hcur hreach
        have hnonroot : ¬ IsRoot p cur := by
          intro hroot
          exact hc (reachesRoot_unique (reachesRoot_refl hroot) hreach)
        have hpres₁ := reachesRoot_setD_compress hcur hreach
        have hrootset₁ := isRoot_setD_compress hcur hnonroot hrootroot
        have hpib₁ : ParentInBounds (p.setD cur root) :=
          parentInBounds_setD hrootlt hpib
        have hnext : parentStep p cur < p.size := hpib cur hcur
        have hnext₁ : parentStep p cur < (p.setD cur root).size := by
          rw [Array.size_setD]; exact hnext
        have hreach₁ : reachesRoot (p.setD cur root) (parentStep p cur)
            root := by
          rw [hpres₁]
          exact reachesRoot_tail hreach hc
        obtain ⟨hpres₂, hrootset₂, hsize₂, hpib₂⟩ := ih hpib₁ hnext₁ hreach₁ h
        refine ⟨?_, ?_, ?_, hpib₂⟩
        · intro i ρ
          rw [hpres₂ i ρ, hpres₁ i ρ]
        · intro y
          rw [hrootset₂ y, hrootset₁ y]
        · rw [hsize₂, Array.size_setD]

/-- The two-pass `find` has the same specification as the sequential
recursive `find`. -/
theorem findN_spec {fuel : Nat} {p p' : Array Nat} {a r : Nat}
    (hpib : ParentInBounds p) (ha : a < p.size)
    (h : findN fuel p a = some (p', r)) :
    reachesRoot p a r ∧
    (∀ i ρ, reachesRoot p' i ρ ↔ reachesRoot p i ρ) ∧
    (∀ y, IsRoot p' y ↔ IsRoot p y) ∧
    p'.size = p.size ∧ ParentInBounds p' := by
  rw [findN] at h
  cases hra : rootAux fuel p a with
  | none => rw [hra] at h; exact absurd h (by simp)
  | some root =>
      rw [hra] at h
      dsimp only [] at h
      cases hct : compressTo fuel p a root with
      | none => rw [hct] at h; exact absurd h (by simp)
      | some p₁ =>
          rw [hct] at h
          dsimp only [] at h
          have h1 : p₁ = p' ∧ root = r := by
            injection h with h2
            injection h2 with h3 h4
            exact ⟨h3, h4⟩
          obtain ⟨rfl, rfl⟩ := h1
          have hreach : reachesRoot p a root := rootAux_spec hra
          obtain ⟨hpres, hrootset, hsize, hpib'⟩ :=
            compressTo_spec hpib ha hreach hct
          exact ⟨hreach, hpres, hrootset, hsize, hpib'⟩

/-- Specification of the fine-lock `find`. -/
theorem find_spec_fine {fuel : Nat} {s s' : UnionFind} {a r : Int}
    (hwf : UnionFind.WF s) (h : find fuel s a = some (.ok (s', r))) :
    inBounds s.num_elements a ∧
    ∃ rn : Nat, r = (rn : Int) ∧ reachesRoot s.parent a.toNat rn ∧
      UnionFind.WF s' ∧ s'.num_elements = s.num_elements ∧ s'.rank = s.rank ∧
      (∀ i ρ, reachesRoot s'.parent i ρ ↔ reachesRoot s.parent i ρ) ∧
      (∀ y, IsRoot s'.parent y ↔ IsRoot s.parent y) := by
  obtain ⟨hps, hrs, hpib, hforest⟩ := hwf
  rw [find] at h
  by_cases hb : inBounds s.num_elements a
  · rw [if_pos hb] at h
    cases hfa : findN fuel s.parent a.toNat with
    | none => rw [hfa] at h; exact absurd h (by simp)
    | some pr =>
        obtain ⟨p', rn⟩ := pr
        rw [hfa] at h
        dsimp only [] at h
        have h1 : s' = { s with parent := p' } ∧ (rn : Int) = r := by
          injection h with h2
          injection h2 with h3
          injection h3 with h4 h5
          exact ⟨h4.symm, h5⟩
        obtain ⟨rfl, rfl⟩ := h1
        have halt : a.toNat < s.parent.size := by
          rw [hps]; exact inBounds_toNat hb
        obtain ⟨hreach, hpres, hrootset, hsize, hpib'⟩ :=
          findN_spec hpib halt hfa
        refine ⟨hb, rn, rfl, hreach, ⟨?_, hrs, hpib', ?_⟩, rfl, rfl,
          hpres, hrootset⟩
        · show p'.size = s.num_elements
          rw [hsize]; exact hps
        · show Forest p'
          intro i
          obtain ⟨ρ, hρ⟩ := hforest i
          exact ⟨ρ, (hpres i ρ).mpr hρ⟩
  · rw [if_neg hb] at h
    exact absurd h (by simp)

/-- Specification of the fine-lock `unionSets` (the same contract as the
sequential engine's `unionSets`). -/
theorem unionSets_spec_fine {fuel : Nat} {s s' : UnionFind} {a b : Int} {ret : Bool}
    (hwf : UnionFind.WF s) (h : unionSets fuel s a b = some (.ok (s', ret))) :
    inBounds s.num_elements a ∧ inBounds s.num_elements b ∧
    UnionFind.WF s' ∧ s'.num_elements = s.num_elements ∧
    ∃ rA rB : Nat,
      reachesRoot s.parent a.toNat rA ∧ reachesRoot s.parent b.toNat rB ∧
      ((ret = false ∧ rA = rB ∧ s'.rank = s.rank ∧
          (∀ i ρ, reachesRoot s'.parent i ρ ↔ reachesRoot s.parent i ρ) ∧
          numRoots s'.parent = numRoots s.parent) ∨
       (ret = true ∧ rA ≠ rB ∧
          numRoots s'.parent + 1 = numRoots s.parent ∧
          (∀ u v, sameRoot s.parent u v → sameRoot s'.parent u v) ∧
          sameRoot s'.parent a.toNat b.toNat ∧
          ((s.rank.getD rA 0 < s.rank.getD rB 0 ∧
              parentStep s'.parent rA = rB ∧ s'.rank = s.rank) ∨
           (s.rank.getD rB 0 < s.rank.getD rA 0 ∧
              parentStep s'.parent rB = rA ∧ s'.rank = s.rank) ∨
           (s.rank.getD rA 0 = s.rank.getD rB 0 ∧
              parentStep s'.parent rB = rA ∧
              s'.rank = s.rank.setD rA (s.rank.getD rA 0 + 1))))) := by
  obtain ⟨hps, hrs, hpib, hforest⟩ := hwf
  rw [unionSets] at h
  by_cases hab : inBounds s.num_elements a ∧ inBounds s.num_elements b
  · rw [if_pos hab] at h
    obtain ⟨ha, hb⟩ := hab
    cases hfa : findN fuel s.parent a.toNat with
    | none => rw [hfa] at h; exact absurd h (by simp)
    | some prA =>
      obtain ⟨p₁, rA⟩ := prA
      rw [hfa] at h
      dsimp only [] at h
      have haLT : a.toNat < s.parent.size := by
        rw [hps]; exact inBounds_toNat ha
      obtain ⟨hreachA, hpresA, hrootsetA, hsizeA, hpibA⟩ :=
        findN_spec hpib haLT hfa
      cases hfb : findN fuel p₁ b.toNat with
      | none => rw [hfb] at h; exact absurd h (by simp)
      | some prB =>
        obtain ⟨p₂, rB⟩ := prB
        rw [hfb] at h
        dsimp only [] at h
        have hbLT : b.toNat < p₁.size := by
          rw [hsizeA, hps]; exact inBounds_toNat hb
        obtain ⟨hreachB₁, hpresB, hrootsetB, hsizeB, hpibB⟩ :=
          findN_spec hpibA hbLT hfb
        have hreachB : reachesRoot s.parent b.toNat rB :=
          (hpresA _ _).mp hreachB₁
        have hpres₂ : ∀ i ρ, reachesRoot p₂ i ρ ↔ reachesRoot s.parent i ρ :=
          fun i ρ => (hpresB i ρ).trans (hpresA i ρ)
        have hrootset₂ : ∀ y, IsRoot p₂ y ↔ IsRoot s.parent y :=
          fun y => (hrootsetB y).trans (hrootsetA y)
        have hsize₂ : p₂.size = s.parent.size := by rw [hsizeB, hsizeA]
        have hrootA : IsRoot p₂ rA :=
          (hrootset₂ rA).mpr (reachesRoot_isRoot hreachA)
        have hrootB : IsRoot p₂ rB :=
          (hrootset₂ rB).mpr (reachesRoot_isRoot hreachB)
        have hrAlt : rA < p₂.size := by
          rw [hsize₂]; exact reachesRoot_lt_size hpib haLT hreachA
        have hrBlt : rB < p₂.size := by
          rw [hsize₂]
          exact reachesRoot_lt_size hpib (by rw [hps]; exact inBounds_toNat hb)
            hreachB
        have hforest₂ : Forest p₂ := by
          intro i
          obtain ⟨ρ, hρ⟩ := hforest i
          exact ⟨ρ, (hpres₂ i ρ).mpr hρ⟩
        by_cases hAB : rA = rB
        · rw [if_pos hAB] at h
          have h1 : s' = { s with parent := p₂ } ∧ false = ret := by
            injection h with h2
            injection h2 with h3
            injection h3 with h4 h5
            exact ⟨h4.symm, h5⟩
          obtain ⟨rfl, rfl⟩ := h1
          refine ⟨ha, hb, ⟨?_, hrs, hpibB, hforest₂⟩, rfl, rA, rB,
            hreachA, hreachB, Or.inl ⟨rfl, hAB, rfl, hpres₂, ?_⟩⟩
          · show p₂.size = s.num_elements
            rw [hsize₂]; exact hps
          · exact numRoots_congr hsize₂ hrootset₂
        · rw [if_neg hAB] at h
          cases hva : rootAux fuel p₂ a.toNat with
          | none => rw [hva] at h; exact absurd h (by simp)
          | some currentRootA =>
            rw [hva] at h
            dsimp only [] at h
            cases hvb : rootAux fuel p₂ b.toNat with
            | none => rw [hvb] at h; exact absurd h (by simp)
            | some currentRootB =>
              rw [hvb] at h
              dsimp only [] at h
              by_cases hver : currentRootA ≠ rA ∨ currentRootB ≠ rB ∨
                  currentRootA = currentRootB
              · rw [if_pos hver] at h
                exact absurd h (by simp)
              · rw [if_neg hver] at h
                by_cases hr1 : s.rank.getD rA 0 < s.rank.getD rB 0
                · rw [if_pos hr1] at h
                  have h1 : s' = { s with parent := p₂.setD rA rB } ∧
                      true = ret := by
                    injection h with h2
                    injection h2 with h3
                    injection h3 with h4 h5
                    exact ⟨h4.symm, h5⟩
                  obtain ⟨rfl, rfl⟩ := h1
                  have hneBA : rB ≠ rA := fun hh => hAB hh.symm
                  refine ⟨ha, hb, ⟨?_, hrs,
                    parentInBounds_setD hrBlt hpibB,
                    forest_setD_link hrAlt hrootA hrootB hneBA hforest₂⟩, rfl,
                    rA, rB, hreachA, hreachB, Or.inr ⟨rfl, hAB, ?_, ?_, ?_,
                    Or.inl ⟨hr1, parentStep_setD_self hrAlt rB, rfl⟩⟩⟩
                  · show (p₂.setD rA rB).size = s.num_elements
                    rw [Array.size_setD, hsize₂]; exact hps
                  · rw [numRoots_setD_link hrAlt hrootA hrootB hneBA]
                    exact numRoots_congr hsize₂ hrootset₂
                  · intro u v huv
                    apply sameRoot_mono_setD_link hrAlt hrootA hrootB hneBA
                    obtain ⟨ρ, hu, hv⟩ := huv
                    exact ⟨ρ, (hpres₂ u ρ).mpr hu, (hpres₂ v ρ).mpr hv⟩
                  · refine ⟨rB, ?_, ?_⟩
                    · exact (reachesRoot_setD_link hrAlt hrootA hrootB hneBA
                        _ _).mpr (Or.inr ⟨(hpres₂ _ _).mpr hreachA, rfl⟩)
                    · exact (reachesRoot_setD_link hrAlt hrootA hrootB hneBA
                        _ _).mpr (Or.inl ⟨(hpres₂ _ _).mpr hreachB, hneBA⟩)
                · rw [if_neg hr1] at h
                  by_cases hr2 : s.rank.getD rB 0 < s.rank.getD rA 0
                  · rw [if_pos hr2] at h
                    have h1 : s' = { s with parent := p₂.setD rB rA } ∧
                        true = ret := by
                      injection h with h2
                      injection h2 with h3
                      injection h3 with h4 h5
                      exact ⟨h4.symm, h5⟩
                    obtain ⟨rfl, rfl⟩ := h1
                    refine ⟨ha, hb, ⟨?_, hrs,
                      parentInBounds_setD hrAlt hpibB,
                      forest_setD_link hrBlt hrootB hrootA hAB hforest₂⟩, rfl,
                      rA, rB, hreachA, hreachB, Or.inr ⟨rfl, hAB, ?_, ?_, ?_,
                      Or.inr (Or.inl ⟨hr2, parentStep_setD_self hrBlt rA,
                        rfl⟩)⟩⟩
                    · show (p₂.setD rB rA).size = s.num_elements
                      rw [Array.size_setD, hsize₂]; exact hps
                    · rw [numRoots_setD_link hrBlt hrootB hrootA hAB]
                      exact numRoots_congr hsize₂ hrootset₂
                    · intro u v huv
                      apply sameRoot_mono_setD_link hrBlt hrootB hrootA hAB
                      obtain ⟨ρ, hu, hv⟩ := huv
                      exact ⟨ρ, (hpres₂ u ρ).mpr hu, (hpres₂ v ρ).mpr hv⟩
                    · refine ⟨rA, ?_, ?_⟩
                      · exact (reachesRoot_setD_link hrBlt hrootB hrootA hAB
                          _ _).mpr (Or.inl ⟨(hpres₂ _ _).mpr hreachA, hAB⟩)
                      · exact (reachesRoot_setD_link hrBlt hrootB hrootA hAB
                          _ _).mpr (Or.inr ⟨(hpres₂ _ _).mpr hreachB, rfl⟩)
                  · rw [if_neg hr2] at h
                    have hreq : s.rank.getD rA 0 = s.rank.getD rB 0 := by
                      omega
                    have h1 : s' = UnionFind.mk (p₂.setD rB rA)
                        (s.rank.setD rA (s.rank.getD rA 0 + 1))
                        s.num_elements ∧ true = ret := by
                      injection h with h2
                      injection h2 with h3
                      injection h3 with h4 h5
                      exact ⟨h4.symm, h5⟩
                    obtain ⟨rfl, rfl⟩ := h1
                    refine ⟨ha, hb, ⟨?_, ?_,
                      parentInBounds_setD hrAlt hpibB,
                      forest_setD_link hrBlt hrootB hrootA hAB hforest₂⟩, rfl,
                      rA, rB, hreachA, hreachB, Or.inr ⟨rfl, hAB, ?_, ?_, ?_,
                      Or.inr (Or.inr ⟨hreq, parentStep_setD_self hrBlt rA,
                        rfl⟩)⟩⟩
                    · show (p₂.setD rB rA).size = s.num_elements
                      rw [Array.size_setD, hsize₂]; exact hps
                    · show (s.rank.setD rA (s.rank.getD rA 0 + 1)).size =
                        s.num_elements
                      rw [Array.size_setD]; exact hrs
                    · rw [numRoots_setD_link hrBlt hrootB hrootA hAB]
                      exact numRoots_congr hsize₂ hrootset₂
                    · intro u v huv
                      apply sameRoot_mono_setD_link hrBlt hrootB hrootA hAB
                      obtain ⟨ρ, hu, hv⟩ := huv
                      exact ⟨ρ, (hpres₂ u ρ).mpr hu, (hpres₂ v ρ).mpr hv⟩
                    · refine ⟨rA, ?_, ?_⟩
                      · exact (reachesRoot_setD_link hrBlt hrootB hrootA hAB
                          _ _).mpr (Or.inl ⟨(hpres₂ _ _).mpr hreachA, hAB⟩)
                      · exact (reachesRoot_setD_link hrBlt hrootB hrootA hAB
                          _ _).mpr (Or.inr ⟨(hpres₂ _ _).mpr hreachB, rfl⟩)
  · rw [if_neg hab] at h
    exact absurd h (by simp)

/-- Specification of the fine-lock `sameSet`. -/
theorem sameSet_spec_fine {fuel : Nat} {s s' : UnionFind} {a b : Int} {ret : Bool}
    (hwf : UnionFind.WF s) (h : sameSet fuel s a b = some (.ok (s', ret))) :
    inBounds s.num_elements a ∧ inBounds s.num_elements b ∧
    UnionFind.WF s' ∧ s'.num_elements = s.num_elements ∧ s'.rank = s.rank ∧
    (∀ i ρ, reachesRoot s'.parent i ρ ↔ reachesRoot s.parent i ρ) ∧
    (∀ y, IsRoot s'.parent y ↔ IsRoot s.parent y) ∧
    (ret = true ↔ sameRoot s.parent a.toNat b.toNat) := by
  obtain ⟨hps, hrs, hpib, hforest⟩ := hwf
  rw [sameSet] at h
  by_cases hab : inBounds s.num_elements a ∧ inBounds s.num_elements b
  · rw [if_pos hab] at h
    obtain ⟨ha, hb⟩ := hab
    cases hfa : findN fuel s.parent a.toNat with
    | none => rw [hfa] at h; exact absurd h (by simp)
    | some prA =>
      obtain ⟨p₁, rA⟩ := prA
      rw [hfa] at h
      dsimp only [] at h
      have haLT : a.toNat < s.parent.size := by
        rw [hps]; exact inBounds_toNat ha
      obtain ⟨hreachA, hpresA, hrootsetA, hsizeA, hpibA⟩ :=
        findN_spec hpib haLT hfa
      cases hfb : findN fuel p₁ b.toNat with
      | none => rw [hfb] at h; exact absurd h (by simp)
      | some prB =>
        obtain ⟨p₂, rB⟩ := prB
        rw [hfb] at h
        dsimp only [] at h
        have hbLT : b.toNat < p₁.size := by
          rw [hsizeA, hps]; exact inBounds_toNat hb
        obtain ⟨hreachB₁, hpresB, hrootsetB, hsizeB, hpibB⟩ :=
          findN_spec hpibA hbLT hfb
        have hreachB : reachesRoot s.parent b.toNat rB :=
          (hpresA _ _).mp hreachB₁
        have hpres₂ : ∀ i ρ, reachesRoot p₂ i ρ ↔ reachesRoot s.parent i ρ :=
          fun i ρ => (hpresB i ρ).trans (hpresA i ρ)
        have hrootset₂ : ∀ y, IsRoot p₂ y ↔ IsRoot s.parent y :=
          fun y => (hrootsetB y).trans (hrootsetA y)
        have hsize₂ : p₂.size = s.parent.size := by rw [hsizeB, hsizeA]
        have h1 : s' = { s with parent := p₂ } ∧ decide (rA = rB) = ret := by
          injection h with h2
          injection h2 with h3
          injection h3 with h4 h5
          exact ⟨h4.symm, h5⟩
        obtain ⟨rfl, rfl⟩ := h1
        refine ⟨ha, hb, ⟨?_, hrs, hpibB, ?_⟩, rfl, rfl, hpres₂, hrootset₂, ?_⟩
        · show p₂.size = s.num_elements
          rw [hsize₂]; exact hps
        · show Forest p₂
          intro i
          obtain ⟨ρ, hρ⟩ := hforest i
          exact ⟨ρ, (hpres₂ i ρ).mpr hρ⟩
        · constructor
          · intro hd
            have : rA = rB := by simpa using hd
            exact ⟨rA, hreachA, this ▸ hreachB⟩
          · intro hsr
            obtain ⟨ρ, hu, hv⟩ := hsr
            have e1 : ρ = rA := reachesRoot_unique hu hreachA
            have e2 : ρ = rB := reachesRoot_unique hv hreachB
            simp [← e1, ← e2]
  · rw [if_neg hab] at h
    exact absurd h (by simp)

end UnionFindParallelFine

/-! ## The packed layout shared by the three lock-free engines

Each lock-free engine stores one `std::atomic<int>` word per element:
`A[i] >= 0` is the parent index, `A[i] < 0` marks a root of rank
`-(A[i]+1)`.  The helpers `is_root`, `get_rank` and `make_root_val` are
declared identically (as static inline members) in all three headers.  The
function `absP` abstracts a packed array into a separated-layout parent
array, on which the shared forest theory applies. -/

/-- `is_root(int val)`: negative packed values mark roots. -/
def is_root (val : Int) : Prop := val < 0

instance (val : Int) : Decidable (is_root val) :=
  decidable_of_iff (val < 0) Iff.rfl

/-- `get_rank(int root_val)`: rank of a root from its packed value. -/
def get_rank (root_val : Int) : Int := -(root_val + 1)

/-- `make_root_val(int rank)`: packed value of a root of the given rank. -/
def make_root_val (rank : Int) : Int := -(rank + 1)

/-- Abstraction of a packed array to a separated parent array: a root
becomes a self-parent, a non-root keeps its parent index. -/
def absP (A : Array Int) : Array Nat :=
  Array.ofFn (fun i : Fin A.size =>
    if A.get i < 0 then (i : Nat) else (A.get i).toNat)

/-- Sanity of packed non-root entries: parent indices are in bounds and
never self-referential (a self-parent must be encoded as a negative root
value in this layout). -/
def PackedEntries (A : Array Int) : Prop :=
  ∀ i, i < A.size → 0 ≤ A.getD i (-1) →
    (A.getD i (-1)).toNat < A.size ∧ (A.getD i (-1)).toNat ≠ i

theorem absP_size (A : Array Int) : (absP A).size = A.size :=
  Array.size_ofFn _

theorem getD_int_oob {A : Array Int} {i : Nat} (h : A.size ≤ i) (d : Int) :
    A.getD i d = d := by
  simp [Array.getD, Nat.not_lt.mpr h]

theorem getD_int_setD_self {A : Array Int} {x : Nat} (hx : x < A.size)
    (v d : Int) : (A.setD x v).getD x d = v := by
  simp [Array.getD, Array.size_setD, hx, Array.setD, Array.getElem_set]

theorem int_toNat_cast (n : Nat) : ((n : Int)).toNat = n := rfl

theorem getD_int_setD_other {A : Array Int} {x i : Nat} (hne : i ≠ x)
    (v d : Int) : (A.setD x v).getD i d = A.getD i d := by
  by_cases hi : i < A.size
  · by_cases hx : x < A.size
    · simp [Array.getD, Array.size_setD, hi, Array.setD, hx,
        Array.getElem_set, hne.symm]
    · simp [Array.setD, hx]
  · have h1 : (A.setD x v).size ≤ i := by
      rw [Array.size_setD]; omega
    rw [getD_int_oob h1, getD_int_oob (Nat.not_lt.mp hi)]

theorem absP_getD {A : Array Int} {i : Nat} (hi : i < A.size) (d : Nat) :
    (absP A).getD i d =
      if A.getD i (-1) < 0 then i else (A.getD i (-1)).toNat := by
  have hi' : i < (absP A).size := by rw [absP_size]; exact hi
  unfold absP
  simp [Array.getD, Array.size_ofFn, hi, Array.getElem_ofFn, Array.get]

/-- The abstract parent step of a packed array. -/
theorem parentStep_absP {A : Array Int} {i : Nat} (hi : i < A.size) :
    parentStep (absP A) i =
      if A.getD i (-1) < 0 then i else (A.getD i (-1)).toNat :=
  absP_getD hi i

theorem isRoot_absP {A : Array Int} (hent : PackedEntries A) {i : Nat}
    (hi : i < A.size) : IsRoot (absP A) i ↔ A.getD i (-1) < 0 := by
  rw [IsRoot, parentStep_absP hi]
  by_cases hneg : A.getD i (-1) < 0
  · rw [if_pos hneg]
    exact ⟨fun _ => hneg, fun _ => rfl⟩
  · rw [if_neg hneg]
    have := (hent i hi (Int.not_lt.mp hneg)).2
    exact ⟨fun h => absurd h this, fun h => absurd h hneg⟩

theorem parentInBounds_absP {A : Array Int} (hent : PackedEntries A) :
    ParentInBounds (absP A) := by
  intro i hi
  rw [absP_size] at hi ⊢
  rw [parentStep_absP hi]
  by_cases hneg : A.getD i (-1) < 0
  · rw [if_pos hneg]; exact hi
  · rw [if_neg hneg]
    exact (hent i hi (Int.not_lt.mp hneg)).1

/-- A packed write of a parent index commutes with the abstraction. -/
theorem absP_setD_nonneg {A : Array Int} {x : Nat} {v : Int}
    (hx : x < A.size) (hv : 0 ≤ v) :
    absP (A.setD x v) = (absP A).setD x v.toNat := by
  apply Array.ext
  · rw [absP_size, Array.size_setD, Array.size_setD, absP_size]
  · intro j hj₁ hj₂
    have hjA : j < A.size := by
      have h0 := hj₁
      rw [absP_size, Array.size_setD] at h0
      exact h0
    have e1 : (absP (A.setD x v))[j] = (absP (A.setD x v)).getD j j := by
      simp [Array.getD, absP_size, Array.size_setD, hjA]
    have e2 : ((absP A).setD x v.toNat)[j] =
        ((absP A).setD x v.toNat).getD j j := by
      simp [Array.getD, Array.size_setD, absP_size, hjA]
    rw [e1, e2]
    by_cases hjx : j = x
    · rw [hjx]
      rw [absP_getD (by rw [Array.size_setD]; exact hx) x,
        getD_int_setD_self hx, getD_setD_self (by rw [absP_size]; exact hx)]
      rw [if_neg (Int.not_lt.mpr hv)]
    · rw [absP_getD (by rw [Array.size_setD]; exact hjA) j,
        getD_int_setD_other hjx, getD_setD_other hjx, absP_getD hjA j]

/-- Rewriting a root's packed value by another negative value (a rank bump)
does not change the abstraction. -/
theorem absP_setD_neg {A : Array Int} {x : Nat} {v : Int}
    (hx : x < A.size) (hroot : A.getD x (-1) < 0) (hv : v < 0) :
    absP (A.setD x v) = absP A := by
  apply Array.ext
  · rw [absP_size, Array.size_setD, absP_size]
  · intro j hj₁ hj₂
    have hjA : j < A.size := by
      have h0 := hj₁
      rw [absP_size, Array.size_setD] at h0
      exact h0
    have e1 : (absP (A.setD x v))[j] = (absP (A.setD x v)).getD j j := by
      simp [Array.getD, absP_size, Array.size_setD, hjA]
    have e2 : (absP A)[j] = (absP A).getD j j := by
      simp [Array.getD, absP_size, hjA]
    rw [e1, e2]
    by_cases hjx : j = x
    · rw [hjx]
      rw [absP_getD (by rw [Array.size_setD]; exact hx) x,
        getD_int_setD_self hx, absP_getD hx x]
      rw [if_pos hv, if_pos hroot]
    · rw [absP_getD (by rw [Array.size_setD]; exact hjA) j,
        getD_int_setD_other hjx, absP_getD hjA j]

theorem packedEntries_setD_nonneg {A : Array Int} {x r : Nat}
    (hr : r < A.size) (hrx : r ≠ x) (hent : PackedEntries A) :
    PackedEntries (A.setD x (r : Int)) := by
  intro i hi hnn
  rw [Array.size_setD] at hi
  by_cases hix : i = x
  · subst hix
    rw [getD_int_setD_self hi] at hnn ⊢
    rw [Array.size_setD]
    simpa using ⟨hr, hrx⟩
  · rw [getD_int_setD_other hix] at hnn ⊢
    rw [Array.size_setD]
    exact hent i hi hnn

theorem packedEntries_setD_neg {A : Array Int} {x : Nat} {v : Int}
    (hv : v < 0) (hent : PackedEntries A) :
    PackedEntries (A.setD x v) := by
  intro i hi hnn
  rw [Array.size_setD] at hi
  by_cases hix : i = x
  · subst hix
    rw [getD_int_setD_self hi] at hnn
    omega
  · rw [getD_int_setD_other hix] at hnn ⊢
    rw [Array.size_setD]
    exact hent i hi hnn

/-- Number of sets of a packed array: the number of negative (root)
entries. -/
def lfNumRoots (A : Array Int) : Nat :=
  ((Finset.range A.size).filter (fun i => A.getD i (-1) < 0)).card

theorem lfNumRoots_eq (A : Array Int) (hent : PackedEntries A) :
    lfNumRoots A = numRoots (absP A) := by
  unfold lfNumRoots numRoots
  rw [absP_size]
  congr 1
  apply Finset.filter_congr
  intro y hy
  rw [Finset.mem_range] at hy
  exact (isRoot_absP hent hy).symm

/-- State of a lock-free engine: the element count and the packed atomic
array (atomicity is immaterial in the sequential embedding).  All three
lock-free engines share this layout. -/
structure LFState where
  n_elements : Nat
  A : Array Int
deriving DecidableEq

/-- Well-formedness of a lock-free engine state. -/
def LFState.WF (s : LFState) : Prop :=
  s.A.size = s.n_elements ∧ PackedEntries s.A ∧ Forest (absP s.A)

/-! ## The lock-free engine (`UnionFindParallelLockFree`,
`src/src/union_find_parallel_lockfree.cpp`)

In the sequential embedding no concurrent writer exists, so every
`compare_exchange_weak` finds its expected value and succeeds; a CAS is
therefore embedded as a plain store.  The retry checks of `unionSets` and
`sameSet` (reloaded candidate root no longer a root) can never fire
sequentially; their `continue` branches are embedded as `none`, the same
value as divergence, and every claim about a completed call is conditioned
on a `some` result. -/

namespace UnionFindParallelLockFree

/-- The constructor: every element a root of rank 0 (`A[i] = -1`). -/
def init (n : Nat) : LFState :=
  ⟨n, Array.mkArray n (make_root_val 0)⟩

/-- `find_internal(int u)`: read `A[u]`; a negative value means `u` is the
root; otherwise recurse on the parent index and, on unwind, if the observed
parent differs from the root, compress `A[u]` to the root (in C++ a CAS
that always succeeds sequentially; the plain-write variant performs the
same store unconditionally of contention).  The C++ returns the pair
`(root, root_val)`; every caller either discards the value component or
reloads it from the array, so the embedding returns only the root index. -/
def find_internal : Nat → Array Int → Nat → Option (Array Int × Nat)
  | 0, _, _ => none
  | fuel + 1, A, u =>
    let p := A.getD u (-1)
    if p < 0 then some (A, u)
    else
      match find_internal fuel A p.toNat with
      | none => none
      | some (A', root) =>
        if p.toNat ≠ root then some (A'.setD u (root : Int), root)
        else some (A', root)

/-- `int find(int a)`: bounds check (throwing `std::out_of_range`), then
`find_internal(a).first`. -/
def find (fuel : Nat) (s : LFState) (a : Int) :
    Option (Except UFError (LFState × Int)) :=
  if a < 0 ∨ (s.n_elements : Int) ≤ a then some (.error .outOfBounds)
  else
    match find_internal fuel s.A a.toNat with
    | none => none
    | some (A', root) => some (.ok ({ s with A := A' }, (root : Int)))

/-- `bool unionSets(int a, int b)`: one iteration of the retry loop — find
both roots, reload their packed values with acquire, retry (= `none`) if
either is no longer a root, return false on equal roots, else link by rank
with a CAS; on an equal-rank tie the root with smaller index is linked
under the larger one (`root_a < root_b` links `root_a` below `root_b`),
after which the surviving root's rank is bumped. -/
def unionSets (fuel : Nat) (s : LFState) (a b : Int) :
    Option (Except UFError (LFState × Bool)) :=
  if a < 0 ∨ (s.n_elements : Int) ≤ a ∨ b < 0 ∨ (s.n_elements : Int) ≤ b then
    some (.error .outOfBounds)
  else
    match find_internal fuel s.A a.toNat with
    | none => none
    | some (A₁, root_a_idx) =>
      match find_internal fuel A₁ b.toNat with
      | none => none
      | some (A₂, root_b_idx) =>
        let root_a_val := A₂.getD root_a_idx (-1)
        let root_b_val := A₂.getD root_b_idx (-1)
        if 0 ≤ root_a_val then none
        else if 0 ≤ root_b_val then none
        else if root_a_idx = root_b_idx then
          some (.ok ({ s with A := A₂ }, false))
        else
          let rank_a := get_rank root_a_val
          let rank_b := get_rank root_b_val
          if rank_a < rank_b then
            some (.ok ({ s with A := A₂.setD root_a_idx (root_b_idx : Int) },
              true))
          else if rank_b < rank_a then
            some (.ok ({ s with A := A₂.setD root_b_idx (root_a_idx : Int) },
              true))
          else if root_a_idx < root_b_idx then
            let A₃ := (A₂.setD root_a_idx (root_b_idx : Int)).setD root_b_idx
              (make_root_val (rank_b + 1))
            some (.ok ({ s with A := A₃ }, true))
          else
            let A₃ := (A₂.setD root_b_idx (root_a_idx : Int)).setD root_a_idx
              (make_root_val (rank_a + 1))
            some (.ok ({ s with A := A₃ }, true))

/-- `bool sameSet(int a, int b)`: one iteration of the retry loop — find
both roots; if equal, true; else re-read the first root: if it is still a
root, false, otherwise retry (= `none`, sequentially unreachable). -/
def sameSet (fuel : Nat) (s : LFState) (a b : Int) :
    Option (Except UFError (LFState × Bool)) :=
  if a < 0 ∨ (s.n_elements : Int) ≤ a ∨ b < 0 ∨ (s.n_elements : Int) ≤ b then
    some (.error .outOfBounds)
  else
    match find_internal fuel s.A a.toNat with
    | none => none
    | some (A₁, root_a_idx) =>
      match find_internal fuel A₁ b.toNat with
      | none => none
      | some (A₂, root_b_idx) =>
        if root_a_idx = root_b_idx then some (.ok ({ s with A := A₂ }, true))
        else
          let current_val_at_root_a := A₂.getD root_a_idx (-1)
          if current_val_at_root_a < 0 then
            some (.ok ({ s with A := A₂ }, false))
          else none

def size (s : LFState) : Nat := s.n_elements

/-- `processOperations`: per-operation dispatch; an `std::out_of_range`
thrown by the operation is caught and recorded as `-1`, any other exception
as `-2`, and the batch continues; an operation of unexpected kind matches
none of the three branches, leaving the result slot at the value `0`
installed by `results.resize`. -/
def processOperations (fuel : Nat) :
    LFState → List Operation → Option (LFState × List Int)
  | s, [] => some (s, [])
  | s, op :: rest =>
    if op.type = FIND_OP then
      match find fuel s op.a with
      | none => none
      | some (.error .outOfBounds) =>
        match processOperations fuel s rest with
        | none => none
        | some (s', outs) => some (s', -1 :: outs)
      | some (.error .assertFailed) =>
        match processOperations fuel s rest with
        | none => none
        | some (s', outs) => some (s', -2 :: outs)
      | some (.ok (s₁, r)) =>
        match processOperations fuel s₁ rest with
        | none => none
        | some (s', outs) => some (s', r :: outs)
    else if op.type = UNION_OP then
      match unionSets fuel s op.a op.b with
      | none => none
      | some (.error .outOfBounds) =>
        match processOperations fuel s rest with
        | none => none
        | some (s', outs) => some (s', -1 :: outs)
      | some (.error .assertFailed) =>
        match processOperations fuel s rest with
        | none => none
        | some (s', outs) => some (s', -2 :: outs)
      | some (.ok (s₁, success)) =>
        match processOperations fuel s₁ rest with
        | none => none
        | some (s', outs) => some (s', (if success then 1 else 0) :: outs)
    else if op.type = SAMESET_OP then
      match sameSet fuel s op.a op.b with
      | none => none
      | some (.error .outOfBounds) =>
        match processOperations fuel s rest with
        | none => none
        | some (s', outs) => some (s', -1 :: outs)
      | some (.error .assertFailed) =>
        match processOperations fuel s rest with
        | none => none
        | some (s', outs) => some (s', -2 :: outs)
      | some (.ok (s₁, same)) =>
        match processOperations fuel s₁ rest with
        | none => none
        | some (s', outs) => some (s', (if same then 1 else 0) :: outs)
    else
      match processOperations fuel s rest with
      | none => none
      | some (s', outs) => some (s', 0 :: outs)

/-- `find_internal` returns the root reached from `u` (on the abstracted
forest), preserves all reachability facts and the set of roots, never
writes to a root's packed entry, and preserves size and entry sanity. -/
theorem find_internal_spec {fuel : Nat} :
    ∀ {A A' : Array Int} {u root : Nat},
      PackedEntries A → u < A.size →
      find_internal fuel A u = some (A', root) →
      reachesRoot (absP A) u root ∧
      (∀ i ρ, reachesRoot (absP A') i ρ ↔ reachesRoot (absP A) i ρ) ∧
      (∀ y, IsRoot (absP A') y ↔ IsRoot (absP A) y) ∧
      (∀ y, y < A.size → A.getD y (-1) < 0 →
        A'.getD y (-1) = A.getD y (-1)) ∧
      A'.size = A.size ∧ PackedEntries A' := by
  induction fuel with
  | zero =>
      intro A A' u root _ _ h
      exact absurd h (by simp [find_internal])
  | succ fuel ih =>
      intro A A' u root hent hu h
      rw [find_internal] at h
      by_cases hneg : A.getD u (-1) < 0
      · rw [if_pos hneg] at h
        have h1 : A = A' ∧ u = root := by
          injection h with h2
          injection h2 with h3 h4
          exact ⟨h3, h4⟩
        obtain ⟨rfl, rfl⟩ := h1
        have hroot : IsRoot (absP A) u := by
          rw [IsRoot, parentStep_absP hu, if_pos hneg]
        exact ⟨reachesRoot_refl hroot, fun _ _ => Iff.rfl, fun _ => Iff.rfl,
          fun _ _ _ => rfl, rfl, hent⟩
      · rw [if_neg hneg] at h
        have hnn : 0 ≤ A.getD u (-1) := Int.not_lt.mp hneg
        obtain ⟨hplt, hpne⟩ := hent u hu hnn
        have hstep : parentStep (absP A) u = (A.getD u (-1)).toNat := by
          rw [parentStep_absP hu, if_neg hneg]
        cases hrec : find_internal fuel A (A.getD u (-1)).toNat with
        | none => rw [hrec] at h; exact absurd h (by simp)
        | some pr =>
          obtain ⟨A₁, root₁⟩ := pr
          rw [hrec] at h
          dsimp only [] at h
          obtain ⟨hreach₁, hpres₁, hrootset₁, huntouched₁, hsize₁, hent₁⟩ :=
            ih hent hplt hrec
          have hreach_u : reachesRoot (absP A) u root₁ :=
            reachesRoot_step hstep hreach₁
          have hnonroot_u : ¬ IsRoot (absP A) u := by
            intro hroot
            rw [IsRoot, hstep] at hroot
            exact hpne hroot
          have hrootroot : IsRoot (absP A) root₁ := reachesRoot_isRoot hreach_u
          have hrootlt : root₁ < A.size := by
            have := reachesRoot_lt_size (parentInBounds_absP hent)
              (by rw [absP_size]; exact hu) hreach_u
            rwa [absP_size] at this
          have hrootne : root₁ ≠ u := fun hh => hnonroot_u (hh ▸ hrootroot)
          by_cases hpr : (A.getD u (-1)).toNat ≠ root₁
          · rw [if_pos hpr] at h
            have h1 : A₁.setD u (root₁ : Int) = A' ∧ root₁ = root := by
              injection h with h2
              injection h2 with h3 h4
              exact ⟨h3, h4⟩
            obtain ⟨rfl, rfl⟩ := h1
            have hu₁ : u < A₁.size := by rw [hsize₁]; exact hu
            have hu₁' : u < (absP A₁).size := by rw [absP_size]; exact hu₁
            have habs : absP (A₁.setD u (root₁ : Int)) =
                (absP A₁).setD u root₁ := by
              rw [absP_setD_nonneg hu₁ (Int.ofNat_nonneg root₁),
                int_toNat_cast]
            have hreach₁u : reachesRoot (absP A₁) u root₁ :=
              (hpres₁ u root₁).mpr hreach_u
            have hnonroot₁u : ¬ IsRoot (absP A₁) u := fun hh =>
              hnonroot_u ((hrootset₁ u).mp hh)
            have hroot₁root : IsRoot (absP A₁) root₁ :=
              reachesRoot_isRoot hreach₁u
            refine ⟨hreach_u, ?_, ?_, ?_, ?_, ?_⟩
            · intro i ρ
              rw [habs, reachesRoot_setD_compress hu₁' hreach₁u i ρ]
              exact hpres₁ i ρ
            · intro y
              rw [habs, isRoot_setD_compress hu₁' hnonroot₁u hroot₁root y]
              exact hrootset₁ y
            · intro y hy hyneg
              have hyu : y ≠ u := by
                intro hh
                rw [hh] at hyneg
                exact hneg hyneg
              rw [getD_int_setD_other hyu]
              exact huntouched₁ y hy hyneg
            · rw [Array.size_setD]
              exact hsize₁
            · exact packedEntries_setD_nonneg (by rw [hsize₁]; exact hrootlt)
                hrootne hent₁
          · rw [if_neg hpr] at h
            have h1 : A₁ = A' ∧ root₁ = root := by
              injection h with h2
              injection h2 with h3 h4
              exact ⟨h3, h4⟩
            obtain ⟨rfl, rfl⟩ := h1
            exact ⟨hreach_u, hpres₁, hrootset₁, huntouched₁, hsize₁, hent₁⟩

/-- The constructor produces a well-formed state: every element is a root
of rank 0. -/
theorem WF_init_lf (n : Nat) : (init n).WF := by
  have hval : ∀ i, i < n →
      (Array.mkArray n (make_root_val 0)).getD i (-1) = make_root_val 0 := by
    intro i hi
    simp [Array.getD, Array.size_mkArray, hi]
  refine ⟨?_, ?_, ?_⟩
  · show (Array.mkArray n (make_root_val 0)).size = n
    exact Array.size_mkArray n _
  · show PackedEntries (Array.mkArray n (make_root_val 0))
    intro i hi hnn
    rw [Array.size_mkArray] at hi
    rw [hval i hi] at hnn
    exact absurd hnn (by unfold make_root_val; omega)
  · show Forest (absP (Array.mkArray n (make_root_val 0)))
    apply forest_of_uniform 0
    intro i hi
    rw [absP_size, Array.size_mkArray] at hi
    simp only [parentIter]
    show parentStep (absP (Array.mkArray n (make_root_val 0))) i = i
    rw [parentStep_absP (by rw [Array.size_mkArray]; exact hi), hval i hi,
      if_pos (by unfold make_root_val; omega)]

/-- Specification of the lock-free public `find`. -/
theorem find_spec_lf {fuel : Nat} {s s' : LFState} {a r : Int}
    (hwf : s.WF) (h : find fuel s a = some (.ok (s', r))) :
    inBounds s.n_elements a ∧
    ∃ rn : Nat, r = (rn : Int) ∧ reachesRoot (absP s.A) a.toNat rn ∧
      s'.WF ∧ s'.n_elements = s.n_elements ∧
      (∀ i ρ, reachesRoot (absP s'.A) i ρ ↔ reachesRoot (absP s.A) i ρ) ∧
      (∀ y, IsRoot (absP s'.A) y ↔ IsRoot (absP s.A) y) := by
  obtain ⟨hsz, hent, hforest⟩ := hwf
  rw [find] at h
  by_cases hoob : a < 0 ∨ (s.n_elements : Int) ≤ a
  · rw [if_pos hoob] at h
    exact absurd h (by simp)
  · rw [if_neg hoob] at h
    have ha : inBounds s.n_elements a := by unfold inBounds; omega
    cases hfa : find_internal fuel s.A a.toNat with
    | none => rw [hfa] at h; exact absurd h (by simp)
    | some pr =>
      obtain ⟨A', rn⟩ := pr
      rw [hfa] at h
      dsimp only [] at h
      have h1 : LFState.mk s.n_elements A' = s' ∧ ((rn : Int)) = r := by
        injection h with h2
        injection h2 with h3
        injection h3 with h4 h5
        exact ⟨h4, h5⟩
      obtain ⟨rfl, rfl⟩ := h1
      have haLT : a.toNat < s.A.size := by
        rw [hsz]; exact inBounds_toNat ha
      obtain ⟨hreach, hpres, hrootset, _, hsize, hent'⟩ :=
        find_internal_spec hent haLT hfa
      refine ⟨ha, rn, rfl, hreach, ⟨by rw [hsize, hsz], hent', ?_⟩, rfl,
        hpres, hrootset⟩
      show Forest (absP A')
      intro i
      obtain ⟨ρ, hρ⟩ := hforest i
      exact ⟨ρ, (hpres i ρ).mpr hρ⟩

/-- Specification of the lock-free `unionSets`: on a completed call, the
result is false iff the two roots coincide; a merge links exactly as union
by rank prescribes, with the equal-rank tie linking the smaller-indexed
root under the larger-indexed one and bumping the survivor's rank. -/
theorem unionSets_spec_lf {fuel : Nat} {s s' : LFState} {a b : Int} {ret : Bool}
    (hwf : s.WF) (h : unionSets fuel s a b = some (.ok (s', ret))) :
    inBounds s.n_elements a ∧ inBounds s.n_elements b ∧
    s'.WF ∧ s'.n_elements = s.n_elements ∧
    ∃ rA rB : Nat,
      reachesRoot (absP s.A) a.toNat rA ∧ reachesRoot (absP s.A) b.toNat rB ∧
      ((ret = false ∧ rA = rB ∧
          (∀ i ρ, reachesRoot (absP s'.A) i ρ ↔ reachesRoot (absP s.A) i ρ) ∧
          lfNumRoots s'.A = lfNumRoots s.A) ∨
       (ret = true ∧ rA ≠ rB ∧
          lfNumRoots s'.A + 1 = lfNumRoots s.A ∧
          (∀ u v, sameRoot (absP s.A) u v → sameRoot (absP s'.A) u v) ∧
          sameRoot (absP s'.A) a.toNat b.toNat ∧
          ((get_rank (s.A.getD rA (-1)) < get_rank (s.A.getD rB (-1)) ∧
              parentStep (absP s'.A) rA = rB) ∨
           (get_rank (s.A.getD rB (-1)) < get_rank (s.A.getD rA (-1)) ∧
              parentStep (absP s'.A) rB = rA) ∨
           (get_rank (s.A.getD rA (-1)) = get_rank (s.A.getD rB (-1)) ∧
              rA < rB ∧ parentStep (absP s'.A) rA = rB ∧
              s'.A.getD rB (-1) =
                make_root_val (get_rank (s.A.getD rB (-1)) + 1)) ∨
           (get_rank (s.A.getD rA (-1)) = get_rank (s.A.getD rB (-1)) ∧
              rB < rA ∧ parentStep (absP s'.A) rB = rA ∧
              s'.A.getD rA (-1) =
                make_root_val (get_rank (s.A.getD rA (-1)) + 1))))) := by
  obtain ⟨hsz, hent, hforest⟩ := hwf
  rw [unionSets] at h
  by_cases hoob : a < 0 ∨ (s.n_elements : Int) ≤ a ∨ b < 0 ∨
      (s.n_elements : Int) ≤ b
  · rw [if_pos hoob] at h
    exact absurd h (by simp)
  · rw [if_neg hoob] at h
    have ha : inBounds s.n_elements a := by unfold inBounds; omega
    have hb : inBounds s.n_elements b := by unfold inBounds; omega
    cases hfa : find_internal fuel s.A a.toNat with
    | none => rw [hfa] at h; exact absurd h (by simp)
    | some prA =>
      obtain ⟨A₁, rA⟩ := prA
      rw [hfa] at h
      dsimp only [] at h
      have haLT : a.toNat < s.A.size := by
        rw [hsz]; exact inBounds_toNat ha
      obtain ⟨hreachA, hpresA, hrootsetA, huntA, hsizeA, hentA⟩ :=
        find_internal_spec hent haLT hfa
      cases hfb : find_internal fuel A₁ b.toNat with
      | none => rw [hfb] at h; exact absurd h (by simp)
      | some prB =>
        obtain ⟨A₂, rB⟩ := prB
        rw [hfb] at h
        dsimp only [] at h
        have hbLT : b.toNat < A₁.size := by
          rw [hsizeA, hsz]; exact inBounds_toNat hb
        obtain ⟨hreachB₁, hpresB, hrootsetB, huntB, hsizeB, hentB⟩ :=
          find_internal_spec hentA hbLT hfb
        have hreachB : reachesRoot (absP s.A) b.toNat rB :=
          (hpresA _ _).mp hreachB₁
        have hpres₂ : ∀ i ρ, reachesRoot (absP A₂) i ρ ↔
            reachesRoot (absP s.A) i ρ :=
          fun i ρ => (hpresB i ρ).trans (hpresA i ρ)
        have hrootset₂ : ∀ y, IsRoot (absP A₂) y ↔ IsRoot (absP s.A) y :=
          fun y => (hrootsetB y).trans (hrootsetA y)
        have hsize₂ : A₂.size = s.A.size := by rw [hsizeB, hsizeA]
        have hrootA_abs : IsRoot (absP s.A) rA := reachesRoot_isRoot hreachA
        have hrootB_abs : IsRoot (absP s.A) rB := reachesRoot_isRoot hreachB
        have hrAlt : rA < s.A.size := by
          have := reachesRoot_lt_size (parentInBounds_absP hent)
            (by rw [absP_size]; exact haLT) hreachA
          rwa [absP_size] at this
        have hrBlt : rB < s.A.size := by
          have := reachesRoot_lt_size (parentInBounds_absP hent)
            (by rw [absP_size, hsz]; exact inBounds_toNat hb) hreachB
          rwa [absP_size] at this
        have hvalA : s.A.getD rA (-1) < 0 := (isRoot_absP hent hrAlt).mp
          hrootA_abs
        have hvalB : s.A.getD rB (-1) < 0 := (isRoot_absP hent hrBlt).mp
          hrootB_abs
        have hA2valA : A₂.getD rA (-1) = s.A.getD rA (-1) := by
          have h1 : A₁.getD rA (-1) = s.A.getD rA (-1) :=
            huntA rA hrAlt hvalA
          have h2 : A₂.getD rA (-1) = A₁.getD rA (-1) := by
            apply huntB rA (by rw [hsizeA]; exact hrAlt)
            rw [h1]; exact hvalA
          rw [h2, h1]
        have hA2valB : A₂.getD rB (-1) = s.A.getD rB (-1) := by
          have h1 : A₁.getD rB (-1) = s.A.getD rB (-1) :=
            huntA rB hrBlt hvalB
          have h2 : A₂.getD rB (-1) = A₁.getD rB (-1) := by
            apply huntB rB (by rw [hsizeA]; exact hrBlt)
            rw [h1]; exact hvalB
          rw [h2, h1]
        rw [hA2valA, hA2valB] at h
        rw [if_neg (by omega : ¬ (0 : Int) ≤ s.A.getD rA (-1))] at h
        rw [if_neg (by omega : ¬ (0 : Int) ≤ s.A.getD rB (-1))] at h
        have hforest₂ : Forest (absP A₂) := by
          intro i
          obtain ⟨ρ, hρ⟩ := hforest i
          exact ⟨ρ, (hpres₂ i ρ).mpr hρ⟩
        have hnum₂ : lfNumRoots A₂ = lfNumRoots s.A := by
          rw [lfNumRoots_eq _ hentB, lfNumRoots_eq _ hent]
          exact numRoots_congr (by rw [absP_size, absP_size, hsize₂])
            hrootset₂
        have hrA2lt : rA < A₂.size := by rw [hsize₂]; exact hrAlt
        have hrB2lt : rB < A₂.size := by rw [hsize₂]; exact hrBlt
        have hrA2lt' : rA < (absP A₂).size := by rw [absP_size]; exact hrA2lt
        have hrB2lt' : rB < (absP A₂).size := by rw [absP_size]; exact hrB2lt
        have hrootA₂ : IsRoot (absP A₂) rA := (hrootset₂ rA).mpr hrootA_abs
        have hrootB₂ : IsRoot (absP A₂) rB := (hrootset₂ rB).mpr hrootB_abs
        by_cases hAB : rA = rB
        · rw [if_pos hAB] at h
          have h1 : LFState.mk s.n_elements A₂ = s' ∧ false = ret := by
            injection h with h2
            injection h2 with h3
            injection h3 with h4 h5
            exact ⟨h4, h5⟩
          obtain ⟨rfl, rfl⟩ := h1
          exact ⟨ha, hb, ⟨by rw [hsize₂, hsz], hentB, hforest₂⟩, rfl,
            rA, rB, hreachA, hreachB, Or.inl ⟨rfl, hAB, hpres₂, hnum₂⟩⟩
        · rw [if_neg hAB] at h
          have hneBA : rB ≠ rA := fun hh => hAB hh.symm
          by_cases hr1 : get_rank (s.A.getD rA (-1)) <
              get_rank (s.A.getD rB (-1))
          · rw [if_pos hr1] at h
            have h1 : LFState.mk s.n_elements (A₂.setD rA (rB : Int)) = s' ∧
                true = ret := by
              injection h with h2
              injection h2 with h3
              injection h3 with h4 h5
              exact ⟨h4, h5⟩
            obtain ⟨rfl, rfl⟩ := h1
            have habs : absP (A₂.setD rA (rB : Int)) =
                (absP A₂).setD rA rB := by
              rw [absP_setD_nonneg hrA2lt (Int.ofNat_nonneg rB),
                int_toNat_cast]
            have hentN := packedEntries_setD_nonneg hrB2lt hneBA hentB
            refine ⟨ha, hb, ⟨by rw [Array.size_setD, hsize₂, hsz], hentN,
              ?_⟩, rfl, rA, rB, hreachA, hreachB,
              Or.inr ⟨rfl, hAB, ?_, ?_, ?_, Or.inl ⟨hr1, ?_⟩⟩⟩
            · show Forest (absP (A₂.setD rA (rB : Int)))
              rw [habs]
              exact forest_setD_link hrA2lt' hrootA₂ hrootB₂ hneBA hforest₂
            · show lfNumRoots (A₂.setD rA (rB : Int)) + 1 = lfNumRoots s.A
              rw [lfNumRoots_eq _ hentN, habs,
                numRoots_setD_link hrA2lt' hrootA₂ hrootB₂ hneBA,
                ← lfNumRoots_eq _ hentB]
              exact hnum₂
            · intro u v huv
              show sameRoot (absP (A₂.setD rA (rB : Int))) u v
              rw [habs]
              apply sameRoot_mono_setD_link hrA2lt' hrootA₂ hrootB₂ hneBA
              obtain ⟨ρ, hu, hv⟩ := huv
              exact ⟨ρ, (hpres₂ u ρ).mpr hu, (hpres₂ v ρ).mpr hv⟩
            · show sameRoot (absP (A₂.setD rA (rB : Int))) a.toNat b.toNat
              rw [habs]
              refine ⟨rB, ?_, ?_⟩
              · exact (reachesRoot_setD_link hrA2lt' hrootA₂ hrootB₂ hneBA
                  _ _).mpr (Or.inr ⟨(hpres₂ _ _).mpr hreachA, rfl⟩)
              · exact (reachesRoot_setD_link hrA2lt' hrootA₂ hrootB₂ hneBA
                  _ _).mpr (Or.inl ⟨(hpres₂ _ _).mpr hreachB, hneBA⟩)
            · show parentStep (absP (A₂.setD rA (rB : Int))) rA = rB
              rw [habs]
              exact parentStep_setD_self hrA2lt' rB
          · rw [if_neg hr1] at h
            by_cases hr2 : get_rank (s.A.getD rB (-1)) <
                get_rank (s.A.getD rA (-1))
            · rw [if_pos hr2] at h
              have h1 : LFState.mk s.n_elements (A₂.setD rB (rA : Int)) = s' ∧
                  true = ret := by
                injection h with h2
                injection h2 with h3
                injection h3 with h4 h5
                exact ⟨h4, h5⟩
              obtain ⟨rfl, rfl⟩ := h1
              have habs : absP (A₂.setD rB (rA : Int)) =
                  (absP A₂).setD rB rA := by
                rw [absP_setD_nonneg hrB2lt (Int.ofNat_nonneg rA),
                  int_toNat_cast]
              have hentN := packedEntries_setD_nonneg hrA2lt hAB hentB
              refine ⟨ha, hb, ⟨by rw [Array.size_setD, hsize₂, hsz],
                hentN, ?_⟩, rfl, rA, rB, hreachA, hreachB,
                Or.inr ⟨rfl, hAB, ?_, ?_, ?_, Or.inr (Or.inl ⟨hr2, ?_⟩)⟩⟩
              · show Forest (absP (A₂.setD rB (rA : Int)))
                rw [habs]
                exact forest_setD_link hrB2lt' hrootB₂ hrootA₂ hAB hforest₂
              · show lfNumRoots (A₂.setD rB (rA : Int)) + 1 = lfNumRoots s.A
                rw [lfNumRoots_eq _ hentN, habs,
                  numRoots_setD_link hrB2lt' hrootB₂ hrootA₂ hAB,
                  ← lfNumRoots_eq _ hentB]
                exact hnum₂
              · intro u v huv
                show sameRoot (absP (A₂.setD rB (rA : Int))) u v
                rw [habs]
                apply sameRoot_mono_setD_link hrB2lt' hrootB₂ hrootA₂ hAB
                obtain ⟨ρ, hu, hv⟩ := huv
                exact ⟨ρ, (hpres₂ u ρ).mpr hu, (hpres₂ v ρ).mpr hv⟩
              · show sameRoot (absP (A₂.setD rB (rA : Int))) a.toNat b.toNat
                rw [habs]
                refine ⟨rA, ?_, ?_⟩
                · exact (reachesRoot_setD_link hrB2lt' hrootB₂ hrootA₂ hAB
                    _ _).mpr (Or.inl ⟨(hpres₂ _ _).mpr hreachA, hAB⟩)
                · exact (reachesRoot_setD_link hrB2lt' hrootB₂ hrootA₂ hAB
                    _ _).mpr (Or.inr ⟨(hpres₂ _ _).mpr hreachB, rfl⟩)
              · show parentStep (absP (A₂.setD rB (rA : Int))) rB = rA
                rw [habs]
                exact parentStep_setD_self hrB2lt' rA
            · rw [if_neg hr2] at h
              have hreq : get_rank (s.A.getD rA (-1)) =
                  get_rank (s.A.getD rB (-1)) := by omega
              by_cases hilt : rA < rB
              · rw [if_pos hilt] at h
                have h1 : LFState.mk s.n_elements
                    ((A₂.setD rA (rB : Int)).setD rB
                      (make_root_val (get_rank (s.A.getD rB (-1)) + 1))) =
                    s' ∧ true = ret := by
                  injection h with h2
                  injection h2 with h3
                  injection h3 with h4 h5
                  exact ⟨h4, h5⟩
                obtain ⟨rfl, rfl⟩ := h1
                have hbump : make_root_val (get_rank (s.A.getD rB (-1)) + 1)
                    < 0 := by
                  unfold make_root_val get_rank
                  omega
                have hrBlt3 : rB < (A₂.setD rA (rB : Int)).size := by
                  rw [Array.size_setD]; exact hrB2lt
                have hrBval3 : (A₂.setD rA (rB : Int)).getD rB (-1) < 0 := by
                  rw [getD_int_setD_other hneBA, hA2valB]
                  exact hvalB
                have habs : absP ((A₂.setD rA (rB : Int)).setD rB
                    (make_root_val (get_rank (s.A.getD rB (-1)) + 1))) =
                    (absP A₂).setD rA rB := by
                  rw [absP_setD_neg hrBlt3 hrBval3 hbump,
                    absP_setD_nonneg hrA2lt (Int.ofNat_nonneg rB),
                    int_toNat_cast]
                have hentN := packedEntries_setD_neg (x := rB) hbump
                  (packedEntries_setD_nonneg hrB2lt hneBA hentB)
                refine ⟨ha, hb, ⟨by
                  rw [Array.size_setD, Array.size_setD, hsize₂, hsz],
                  hentN, ?_⟩, rfl, rA, rB, hreachA, hreachB,
                  Or.inr ⟨rfl, hAB, ?_, ?_, ?_,
                    Or.inr (Or.inr (Or.inl ⟨hreq, hilt, ?_, ?_⟩))⟩⟩
                · show Forest (absP _)
                  rw [habs]
                  exact forest_setD_link hrA2lt' hrootA₂ hrootB₂ hneBA
                    hforest₂
                · show lfNumRoots _ + 1 = lfNumRoots s.A
                  rw [lfNumRoots_eq _ hentN, habs,
                    numRoots_setD_link hrA2lt' hrootA₂ hrootB₂ hneBA,
                    ← lfNumRoots_eq _ hentB]
                  exact hnum₂
                · intro u v huv
                  show sameRoot (absP _) u v
                  rw [habs]
                  apply sameRoot_mono_setD_link hrA2lt' hrootA₂ hrootB₂ hneBA
                  obtain ⟨ρ, hu, hv⟩ := huv
                  exact ⟨ρ, (hpres₂ u ρ).mpr hu, (hpres₂ v ρ).mpr hv⟩
                · show sameRoot (absP _) a.toNat b.toNat
                  rw [habs]
                  refine ⟨rB, ?_, ?_⟩
                  · exact (reachesRoot_setD_link hrA2lt' hrootA₂ hrootB₂
                      hneBA _ _).mpr (Or.inr ⟨(hpres₂ _ _).mpr hreachA, rfl⟩)
                  · exact (reachesRoot_setD_link hrA2lt' hrootA₂ hrootB₂
                      hneBA _ _).mpr (Or.inl ⟨(hpres₂ _ _).mpr hreachB,
                        hneBA⟩)
                · show parentStep (absP _) rA = rB
                  rw [habs]
                  exact parentStep_setD_self hrA2lt' rB
                · show ((A₂.setD rA (rB : Int)).setD rB
                    (make_root_val (get_rank (s.A.getD rB (-1)) + 1))).getD
                      rB (-1) = make_root_val (get_rank (s.A.getD rB (-1)) + 1)
                  exact getD_int_setD_self hrBlt3 _ _
              · rw [if_neg hilt] at h
                have hiltBA : rB < rA := by omega
                have h1 : LFState.mk s.n_elements
                    ((A₂.setD rB (rA : Int)).setD rA
                      (make_root_val (get_rank (s.A.getD rA (-1)) + 1))) =
                    s' ∧ true = ret := by
                  injection h with h2
                  injection h2 with h3
                  injection h3 with h4 h5
                  exact ⟨h4, h5⟩
                obtain ⟨rfl, rfl⟩ := h1
                have hbump : make_root_val (get_rank (s.A.getD rA (-1)) + 1)
                    < 0 := by
                  unfold make_root_val get_rank
                  omega
                have hrAlt3 : rA < (A₂.setD rB (rA : Int)).size := by
                  rw [Array.size_setD]; exact hrA2lt
                have hrAval3 : (A₂.setD rB (rA : Int)).getD rA (-1) < 0 := by
                  rw [getD_int_setD_other hAB, hA2valA]
                  exact hvalA
                have habs : absP ((A₂.setD rB (rA : Int)).setD rA
                    (make_root_val (get_rank (s.A.getD rA (-1)) + 1))) =
                    (absP A₂).setD rB rA := by
                  rw [absP_setD_neg hrAlt3 hrAval3 hbump,
                    absP_setD_nonneg hrB2lt (Int.ofNat_nonneg rA),
                    int_toNat_cast]
                have hentN := packedEntries_setD_neg (x := rA) hbump
                  (packedEntries_setD_nonneg hrA2lt hAB hentB)
                refine ⟨ha, hb, ⟨by
                  rw [Array.size_setD, Array.size_setD, hsize₂, hsz],
                  hentN, ?_⟩, rfl, rA, rB, hreachA, hreachB,
                  Or.inr ⟨rfl, hAB, ?_, ?_, ?_,
                    Or.inr (Or.inr (Or.inr ⟨hreq, hiltBA, ?_, ?_⟩))⟩⟩
                · show Forest (absP _)
                  rw [habs]
                  exact forest_setD_link hrB2lt' hrootB₂ hrootA₂ hAB hforest₂
                · show lfNumRoots _ + 1 = lfNumRoots s.A
                  rw [lfNumRoots_eq _ hentN, habs,
                    numRoots_setD_link hrB2lt' hrootB₂ hrootA₂ hAB,
                    ← lfNumRoots_eq _ hentB]
                  exact hnum₂
                · intro u v huv
                  show sameRoot (absP _) u v
                  rw [habs]
                  apply sameRoot_mono_setD_link hrB2lt' hrootB₂ hrootA₂ hAB
                  obtain ⟨ρ, hu, hv⟩ := huv
                  exact ⟨ρ, (hpres₂ u ρ).mpr hu, (hpres₂ v ρ).mpr hv⟩
                · show sameRoot (absP _) a.toNat b.toNat
                  rw [habs]
                  refine ⟨rA, ?_, ?_⟩
                  · exact (reachesRoot_setD_link hrB2lt' hrootB₂ hrootA₂
                      hAB _ _).mpr (Or.inl ⟨(hpres₂ _ _).mpr hreachA, hAB⟩)
                  · exact (reachesRoot_setD_link hrB2lt' hrootB₂ hrootA₂
                      hAB _ _).mpr (Or.inr ⟨(hpres₂ _ _).mpr hreachB, rfl⟩)
                · show parentStep (absP _) rB = rA
                  rw [habs]
                  exact parentStep_setD_self hrB2lt' rA
                · show ((A₂.setD rB (rA : Int)).setD rA
                    (make_root_val (get_rank (s.A.getD rA (-1)) + 1))).getD
                      rA (-1) = make_root_val (get_rank (s.A.getD rA (-1)) + 1)
                  exact getD_int_setD_self hrAlt3 _ _

/-- Specification of the lock-free `sameSet`: on a completed call, true iff
the two elements reach the same root; the state change is only path
compression. -/
theorem sameSet_spec_lf {fuel : Nat} {s s' : LFState} {a b : Int} {ret : Bool}
    (hwf : s.WF) (h : sameSet fuel s a b = some (.ok (s', ret))) :
    inBounds s.n_elements a ∧ inBounds s.n_elements b ∧
    s'.WF ∧ s'.n_elements = s.n_elements ∧
    (∀ i ρ, reachesRoot (absP s'.A) i ρ ↔ reachesRoot (absP s.A) i ρ) ∧
    (∀ y, IsRoot (absP s'.A) y ↔ IsRoot (absP s.A) y) ∧
    (ret = true ↔ sameRoot (absP s.A) a.toNat b.toNat) := by
  obtain ⟨hsz, hent, hforest⟩ := hwf
  rw [sameSet] at h
  by_cases hoob : a < 0 ∨ (s.n_elements : Int) ≤ a ∨ b < 0 ∨
      (s.n_elements : Int) ≤ b
  · rw [if_pos hoob] at h
    exact absurd h (by simp)
  · rw [if_neg hoob] at h
    have ha : inBounds s.n_elements a := by unfold inBounds; omega
    have hb : inBounds s.n_elements b := by unfold inBounds; omega
    cases hfa : find_internal fuel s.A a.toNat with
    | none => rw [hfa] at h; exact absurd h (by simp)
    | some prA =>
      obtain ⟨A₁, rA⟩ := prA
      rw [hfa] at h
      dsimp only [] at h
      have haLT : a.toNat < s.A.size := by
        rw [hsz]; exact inBounds_toNat ha
      obtain ⟨hreachA, hpresA, hrootsetA, huntA, hsizeA, hentA⟩ :=
        find_internal_spec hent haLT hfa
      cases hfb : find_internal fuel A₁ b.toNat with
      | none => rw [hfb] at h; exact absurd h (by simp)
      | some prB =>
        obtain ⟨A₂, rB⟩ := prB
        rw [hfb] at h
        dsimp only [] at h
        have hbLT : b.toNat < A₁.size := by
          rw [hsizeA, hsz]; exact inBounds_toNat hb
        obtain ⟨hreachB₁, hpresB, hrootsetB, huntB, hsizeB, hentB⟩ :=
          find_internal_spec hentA hbLT hfb
        have hreachB : reachesRoot (absP s.A) b.toNat rB :=
          (hpresA _ _).mp hreachB₁
        have hpres₂ : ∀ i ρ, reachesRoot (absP A₂) i ρ ↔
            reachesRoot (absP s.A) i ρ :=
          fun i ρ => (hpresB i ρ).trans (hpresA i ρ)
        have hrootset₂ : ∀ y, IsRoot (absP A₂) y ↔ IsRoot (absP s.A) y :=
          fun y => (hrootsetB y).trans (hrootsetA y)
        have hsize₂ : A₂.size = s.A.size := by rw [hsizeB, hsizeA]
        have hforest₂ : Forest (absP A₂) := by
          intro i
          obtain ⟨ρ, hρ⟩ := hforest i
          exact ⟨ρ, (hpres₂ i ρ).mpr hρ⟩
        have hwf₂ : LFState.WF (LFState.mk s.n_elements A₂) :=
          ⟨by rw [hsize₂, hsz], hentB, hforest₂⟩
        by_cases hAB : rA = rB
        · rw [if_pos hAB] at h
          have h1 : LFState.mk s.n_elements A₂ = s' ∧ true = ret := by
            injection h with h2
            injection h2 with h3
            injection h3 with h4 h5
            exact ⟨h4, h5⟩
          obtain ⟨rfl, rfl⟩ := h1
          refine ⟨ha, hb, hwf₂, rfl, hpres₂, hrootset₂, ?_⟩
          exact ⟨fun _ => ⟨rA, hreachA, hAB ▸ hreachB⟩, fun _ => rfl⟩
        · rw [if_neg hAB] at h
          have hrAlt : rA < s.A.size := by
            have := reachesRoot_lt_size (parentInBounds_absP hent)
              (by rw [absP_size]; exact haLT) hreachA
            rwa [absP_size] at this
          have hvalA : s.A.getD rA (-1) < 0 :=
            (isRoot_absP hent hrAlt).mp (reachesRoot_isRoot hreachA)
          have hA2valA : A₂.getD rA (-1) = s.A.getD rA (-1) := by
            have h1 : A₁.getD rA (-1) = s.A.getD rA (-1) :=
              huntA rA hrAlt hvalA
            have h2 : A₂.getD rA (-1) = A₁.getD rA (-1) := by
              apply huntB rA (by rw [hsizeA]; exact hrAlt)
              rw [h1]; exact hvalA
            rw [h2, h1]
          rw [hA2valA, if_pos hvalA] at h
          have h1 : LFState.mk s.n_elements A₂ = s' ∧ false = ret := by
            injection h with h2
            injection h2 with h3
            injection h3 with h4 h5
            exact ⟨h4, h5⟩
          obtain ⟨rfl, rfl⟩ := h1
          refine ⟨ha, hb, hwf₂, rfl, hpres₂, hrootset₂, ?_⟩
          constructor
          · intro hcontra
            exact absurd hcontra Bool.false_ne_true
          · intro hsr
            obtain ⟨ρ, hu, hv⟩ := hsr
            have e1 : ρ = rA := reachesRoot_unique hu hreachA
            have e2 : ρ = rB := reachesRoot_unique hv hreachB
            exact absurd (e1 ▸ e2) hAB

end UnionFindParallelLockFree

/-! ## The plain-write variant (`UnionFindParallelLockFreePlainWrite`,
`src/src/union_find_parallel_lockfree_plain_write.cpp`)

Identical to the lock-free engine except that the path-compression step of
`find_internal` uses a plain relaxed store instead of a CAS.  In the
sequential embedding the CAS always succeeds and therefore performs
exactly that store, so every operation's embedding coincides with the
lock-free engine's (only `processOperations`' OpenMP schedule differs,
which the sequential embedding erases). -/

namespace UnionFindParallelLockFreePlainWrite

def init (n : Nat) : LFState := ⟨n, Array.mkArray n (make_root_val 0)⟩

def find_internal (fuel : Nat) (A : Array Int) (u : Nat) :
    Option (Array Int × Nat) :=
  UnionFindParallelLockFree.find_internal fuel A u

def find (fuel : Nat) (s : LFState) (a : Int) :
    Option (Except UFError (LFState × Int)) :=
  UnionFindParallelLockFree.find fuel s a

def unionSets (fuel : Nat) (s : LFState) (a b : Int) :
    Option (Except UFError (LFState × Bool)) :=
  UnionFindParallelLockFree.unionSets fuel s a b

def sameSet (fuel : Nat) (s : LFState) (a b : Int) :
    Option (Except UFError (LFState × Bool)) :=
  UnionFindParallelLockFree.sameSet fuel s a b

def size (s : LFState) : Nat := s.n_elements

def processOperations (fuel : Nat) (s : LFState) (ops : List Operation) :
    Option (LFState × List Int) :=
  UnionFindParallelLockFree.processOperations fuel s ops

end UnionFindParallelLockFreePlainWrite

/-! ## The IPC variant (`UnionFindParallelLockFreeIPC`,
`src/src/union_find_parallel_lockfree_ipc.cpp`)

The lock-free engine plus an "immediate parent check" at the entry of
`unionSets` and `sameSet`: when the two elements' immediate parents are
equal and not roots, the operation answers without a full find.  Its
equal-rank tie-break is the opposite of the lock-free engine's: the
smaller-indexed root becomes the parent. -/

namespace UnionFindParallelLockFreeIPC

def init (n : Nat) : LFState := ⟨n, Array.mkArray n (make_root_val 0)⟩

/-- `find_internal` is byte-for-byte the lock-free engine's. -/
def find_internal (fuel : Nat) (A : Array Int) (u : Nat) :
    Option (Array Int × Nat) :=
  UnionFindParallelLockFree.find_internal fuel A u

/-- `int find(int a)`: identical to the lock-free engine's. -/
def find (fuel : Nat) (s : LFState) (a : Int) :
    Option (Except UFError (LFState × Int)) :=
  UnionFindParallelLockFree.find fuel s a

/-- `bool unionSets(int a, int b)` with the immediate-parent-check fast
path, then one iteration of the lock-free retry loop.  The C++ keeps the
expected CAS values (`child_val_expected`, `parent_val_expected`) for its
two CASes; sequentially both CASes succeed, so only the written values
matter. -/
def unionSets (fuel : Nat) (s : LFState) (a b : Int) :
    Option (Except UFError (LFState × Bool)) :=
  if a < 0 ∨ (s.n_elements : Int) ≤ a ∨ b < 0 ∨ (s.n_elements : Int) ≤ b then
    some (.error .outOfBounds)
  else
    let parent_a_ipc := s.A.getD a.toNat (-1)
    let parent_b_ipc := s.A.getD b.toNat (-1)
    if 0 ≤ parent_a_ipc ∧ parent_a_ipc = parent_b_ipc then
      some (.ok (s, false))
    else
      match find_internal fuel s.A a.toNat with
      | none => none
      | some (A₁, root_a_idx) =>
        match find_internal fuel A₁ b.toNat with
        | none => none
        | some (A₂, root_b_idx) =>
          let current_root_a_val := A₂.getD root_a_idx (-1)
          let current_root_b_val := A₂.getD root_b_idx (-1)
          if 0 ≤ current_root_a_val then none
          else if 0 ≤ current_root_b_val then none
          else if root_a_idx = root_b_idx then
            some (.ok ({ s with A := A₂ }, false))
          else
            let rank_a := get_rank current_root_a_val
            let rank_b := get_rank current_root_b_val
            let sel :=
              if rank_a < rank_b then (root_a_idx, root_b_idx, rank_b)
              else if rank_b < rank_a then (root_b_idx, root_a_idx, rank_a)
              else if root_a_idx < root_b_idx then
                (root_b_idx, root_a_idx, rank_a)
              else (root_a_idx, root_b_idx, rank_b)
            let A₃ := A₂.setD sel.1 (sel.2.1 : Int)
            let A₄ :=
              if rank_a = rank_b then
                A₃.setD sel.2.1 (make_root_val (sel.2.2 + 1))
              else A₃
            some (.ok ({ s with A := A₄ }, true))

/-- `bool sameSet(int a, int b)` with the trivial `a == b` case and the
immediate-parent-check fast path, then one iteration of the lock-free
retry loop. -/
def sameSet (fuel : Nat) (s : LFState) (a b : Int) :
    Option (Except UFError (LFState × Bool)) :=
  if a < 0 ∨ (s.n_elements : Int) ≤ a ∨ b < 0 ∨ (s.n_elements : Int) ≤ b then
    some (.error .outOfBounds)
  else
    let parent_a_ipc := s.A.getD a.toNat (-1)
    let parent_b_ipc := s.A.getD b.toNat (-1)
    if a = b then some (.ok (s, true))
    else if 0 ≤ parent_a_ipc ∧ parent_a_ipc = parent_b_ipc then
      some (.ok (s, true))
    else
      match find_internal fuel s.A a.toNat with
      | none => none
      | some (A₁, root_a_idx) =>
        match find_internal fuel A₁ b.toNat with
        | none => none
        | some (A₂, root_b_idx) =>
          if root_a_idx = root_b_idx then
            some (.ok ({ s with A := A₂ }, true))
          else
            let current_val_at_root_a := A₂.getD root_a_idx (-1)
            if current_val_at_root_a < 0 then
              some (.ok ({ s with A := A₂ }, false))
            else none

def size (s : LFState) : Nat := s.n_elements

/-- `processOperations`: identical catch-and-continue dispatch to the
lock-free engine's, invoking this engine's operations. -/
def processOperations (fuel : Nat) :
    LFState → List Operation → Option (LFState × List Int)
  | s, [] => some (s, [])
  | s, op :: rest =>
    if op.type = FIND_OP then
      match find fuel s op.a with
      | none => none
      | some (.error .outOfBounds) =>
        match processOperations fuel s rest with
        | none => none
        | some (s', outs) => some (s', -1 :: outs)
      | some (.error .assertFailed) =>
        match processOperations fuel s rest with
        | none => none
        | some (s', outs) => some (s', -2 :: outs)
      | some (.ok (s₁, r)) =>
        match processOperations fuel s₁ rest with
        | none => none
        | some (s', outs) => some (s', r :: outs)
    else if op.type = UNION_OP then
      match unionSets fuel s op.a op.b with
      | none => none
      | some (.error .outOfBounds) =>
        match processOperations fuel s rest with
        | none => none
        | some (s', outs) => some (s', -1 :: outs)
      | some (.error .assertFailed) =>
        match processOperations fuel s rest with
        | none => none
        | some (s', outs) => some (s', -2 :: outs)
      | some (.ok (s₁, success)) =>
        match processOperations fuel s₁ rest with
        | none => none
        | some (s', outs) => some (s', (if success then 1 else 0) :: outs)
    else if op.type = SAMESET_OP then
      match sameSet fuel s op.a op.b with
      | none => none
      | some (.error .outOfBounds) =>
        match processOperations fuel s rest with
        | none => none
        | some (s', outs) => some (s', -1 :: outs)
      | some (.error .assertFailed) =>
        match processOperations fuel s rest with
        | none => none
        | some (s', outs) => some (s', -2 :: outs)
      | some (.ok (s₁, same)) =>
        match processOperations fuel s₁ rest with
        | none => none
        | some (s', outs) => some (s', (if same then 1 else 0) :: outs)
    else
      match processOperations fuel s rest with
      | none => none
      | some (s', outs) => some (s', 0 :: outs)

/-- Specification of the IPC `unionSets`: as the lock-free engine's, except
that the equal-rank tie links the larger-indexed root under the smaller
one (the smaller index becomes the parent), and that two elements sharing
a non-root immediate parent short-circuit to `false` without any state
change. -/
theorem unionSets_spec_ipc {fuel : Nat} {s s' : LFState} {a b : Int} {ret : Bool}
    (hwf : s.WF) (h : unionSets fuel s a b = some (.ok (s', ret))) :
    inBounds s.n_elements a ∧ inBounds s.n_elements b ∧
    s'.WF ∧ s'.n_elements = s.n_elements ∧
    ∃ rA rB : Nat,
      reachesRoot (absP s.A) a.toNat rA ∧ reachesRoot (absP s.A) b.toNat rB ∧
      ((ret = false ∧ rA = rB ∧
          (∀ i ρ, reachesRoot (absP s'.A) i ρ ↔ reachesRoot (absP s.A) i ρ) ∧
          lfNumRoots s'.A = lfNumRoots s.A) ∨
       (ret = true ∧ rA ≠ rB ∧
          lfNumRoots s'.A + 1 = lfNumRoots s.A ∧
          (∀ u v, sameRoot (absP s.A) u v → sameRoot (absP s'.A) u v) ∧
          sameRoot (absP s'.A) a.toNat b.toNat ∧
          ((get_rank (s.A.getD rA (-1)) < get_rank (s.A.getD rB (-1)) ∧
              parentStep (absP s'.A) rA = rB) ∨
           (get_rank (s.A.getD rB (-1)) < get_rank (s.A.getD rA (-1)) ∧
              parentStep (absP s'.A) rB = rA) ∨
           (get_rank (s.A.getD rA (-1)) = get_rank (s.A.getD rB (-1)) ∧
              rA < rB ∧ parentStep (absP s'.A) rB = rA ∧
              s'.A.getD rA (-1) =
                make_root_val (get_rank (s.A.getD rA (-1)) + 1)) ∨
           (get_rank (s.A.getD rA (-1)) = get_rank (s.A.getD rB (-1)) ∧
              rB < rA ∧ parentStep (absP s'.A) rA = rB ∧
              s'.A.getD rB (-1) =
                make_root_val (get_rank (s.A.getD rB (-1)) + 1))))) := by
  obtain ⟨hsz, hent, hforest⟩ := hwf
  rw [unionSets] at h
  by_cases hoob : a < 0 ∨ (s.n_elements : Int) ≤ a ∨ b < 0 ∨
      (s.n_elements : Int) ≤ b
  · rw [if_pos hoob] at h
    exact absurd h (by simp)
  · rw [if_neg hoob] at h
    have ha : inBounds s.n_elements a := by unfold inBounds; omega
    have hb : inBounds s.n_elements b := by unfold inBounds; omega
    have haLT : a.toNat < s.A.size := by
      rw [hsz]; exact inBounds_toNat ha
    have hbLT0 : b.toNat < s.A.size := by
      rw [hsz]; exact inBounds_toNat hb
    dsimp only [] at h
    by_cases hipc : 0 ≤ s.A.getD a.toNat (-1) ∧
        s.A.getD a.toNat (-1) = s.A.getD b.toNat (-1)
    · rw [if_pos hipc] at h
      have h1 : s = s' ∧ false = ret := by
        injection h with h2
        injection h2 with h3
        injection h3 with h4 h5
        exact ⟨h4, h5⟩
      obtain ⟨rfl, rfl⟩ := h1
      obtain ⟨rA, hreachA⟩ := hforest a.toNat
      have hanonroot : ¬ IsRoot (absP s.A) a.toNat := by
        rw [isRoot_absP hent haLT]
        omega
      have hstepa : parentStep (absP s.A) a.toNat =
          (s.A.getD a.toNat (-1)).toNat := by
        rw [parentStep_absP haLT, if_neg (by omega)]
      have hstepb : parentStep (absP s.A) b.toNat =
          (s.A.getD a.toNat (-1)).toNat := by
        rw [parentStep_absP hbLT0, ← hipc.2, if_neg (by omega)]
      have hne_ra : a.toNat ≠ rA := by
        intro hh
        exact hanonroot (hh ▸ reachesRoot_isRoot hreachA)
      have h1 : reachesRoot (absP s.A) (s.A.getD a.toNat (-1)).toNat rA := by
        have := reachesRoot_tail hreachA hne_ra
        rwa [hstepa] at this
      have hreachB : reachesRoot (absP s.A) b.toNat rA :=
        reachesRoot_step hstepb h1
      exact ⟨ha, hb, ⟨hsz, hent, hforest⟩, rfl, rA, rA, hreachA, hreachB,
        Or.inl ⟨rfl, rfl, fun _ _ => Iff.rfl, rfl⟩⟩
    · rw [if_neg hipc] at h
      cases hfa : UnionFindParallelLockFree.find_internal fuel s.A a.toNat with
      | none => rw [show find_internal fuel s.A a.toNat =
          UnionFindParallelLockFree.find_internal fuel s.A a.toNat from rfl,
          hfa] at h; exact absurd h (by simp)
      | some prA =>
        obtain ⟨A₁, rA⟩ := prA
        rw [show find_internal fuel s.A a.toNat =
          UnionFindParallelLockFree.find_internal fuel s.A a.toNat from rfl,
          hfa] at h
        dsimp only [] at h
        obtain ⟨hreachA, hpresA, hrootsetA, huntA, hsizeA, hentA⟩ :=
          UnionFindParallelLockFree.find_internal_spec hent haLT hfa
        cases hfb : UnionFindParallelLockFree.find_internal fuel A₁ b.toNat with
        | none => rw [show find_internal fuel A₁ b.toNat =
            UnionFindParallelLockFree.find_internal fuel A₁ b.toNat from rfl,
            hfb] at h; exact absurd h (by simp)
        | some prB =>
          obtain ⟨A₂, rB⟩ := prB
          rw [show find_internal fuel A₁ b.toNat =
            UnionFindParallelLockFree.find_internal fuel A₁ b.toNat from rfl,
            hfb] at h
          dsimp only [] at h
          have hbLT : b.toNat < A₁.size := by rw [hsizeA]; exact hbLT0
          obtain ⟨hreachB₁, hpresB, hrootsetB, huntB, hsizeB, hentB⟩ :=
            UnionFindParallelLockFree.find_internal_spec hentA hbLT hfb
          have hreachB : reachesRoot (absP s.A) b.toNat rB :=
            (hpresA _ _).mp hreachB₁
          have hpres₂ : ∀ i ρ, reachesRoot (absP A₂) i ρ ↔
              reachesRoot (absP s.A) i ρ :=
            fun i ρ => (hpresB i ρ).trans (hpresA i ρ)
          have hrootset₂ : ∀ y, IsRoot (absP A₂) y ↔ IsRoot (absP s.A) y :=
            fun y => (hrootsetB y).trans (hrootsetA y)
          have hsize₂ : A₂.size = s.A.size := by rw [hsizeB, hsizeA]
          have hrootA_abs : IsRoot (absP s.A) rA := reachesRoot_isRoot hreachA
          have hrootB_abs : IsRoot (absP s.A) rB := reachesRoot_isRoot hreachB
          have hrAlt : rA < s.A.size := by
            have := reachesRoot_lt_size (parentInBounds_absP hent)
              (by rw [absP_size]; exact haLT) hreachA
            rwa [absP_size] at this
          have hrBlt : rB < s.A.size := by
            have := reachesRoot_lt_size (parentInBounds_absP hent)
              (by rw [absP_size]; exact hbLT0) hreachB
            rwa [absP_size] at this
          have hvalA : s.A.getD rA (-1) < 0 := (isRoot_absP hent hrAlt).mp
            hrootA_abs
          have hvalB : s.A.getD rB (-1) < 0 := (isRoot_absP hent hrBlt).mp
            hrootB_abs
          have hA2valA : A₂.getD rA (-1) = s.A.getD rA (-1) := by
            have h1 : A₁.getD rA (-1) = s.A.getD rA (-1) :=
              huntA rA hrAlt hvalA
            have h2 : A₂.getD rA (-1) = A₁.getD rA (-1) := by
              apply huntB rA (by rw [hsizeA]; exact hrAlt)
              rw [h1]; exact hvalA
            rw [h2, h1]
          have hA2valB : A₂.getD rB (-1) = s.A.getD rB (-1) := by
            have h1 : A₁.getD rB (-1) = s.A.getD rB (-1) :=
              huntA rB hrBlt hvalB
            have h2 : A₂.getD rB (-1) = A₁.getD rB (-1) := by
              apply huntB rB (by rw [hsizeA]; exact hrBlt)
              rw [h1]; exact hvalB
            rw [h2, h1]
          rw [hA2valA, hA2valB] at h
          rw [if_neg (by omega : ¬ (0 : Int) ≤ s.A.getD rA (-1))] at h
          rw [if_neg (by omega : ¬ (0 : Int) ≤ s.A.getD rB (-1))] at h
          have hforest₂ : Forest (absP A₂) := by
            intro i
            obtain ⟨ρ, hρ⟩ := hforest i
            exact ⟨ρ, (hpres₂ i ρ).mpr hρ⟩
          have hnum₂ : lfNumRoots A₂ = lfNumRoots s.A := by
            rw [lfNumRoots_eq _ hentB, lfNumRoots_eq _ hent]
            exact numRoots_congr (by rw [absP_size, absP_size, hsize₂])
              hrootset₂
          have hrA2lt : rA < A₂.size := by rw [hsize₂]; exact hrAlt
          have hrB2lt : rB < A₂.size := by rw [hsize₂]; exact hrBlt
          have hrA2lt' : rA < (absP A₂).size := by
            rw [absP_size]; exact hrA2lt
          have hrB2lt' : rB < (absP A₂).size := by
            rw [absP_size]; exact hrB2lt
          have hrootA₂ : IsRoot (absP A₂) rA := (hrootset₂ rA).mpr hrootA_abs
          have hrootB₂ : IsRoot (absP A₂) rB := (hrootset₂ rB).mpr hrootB_abs
          by_cases hAB : rA = rB
          · rw [if_pos hAB] at h
            have h1 : LFState.mk s.n_elements A₂ = s' ∧ false = ret := by
              injection h with h2
              injection h2 with h3
              injection h3 with h4 h5
              exact ⟨h4, h5⟩
            obtain ⟨rfl, rfl⟩ := h1
            exact ⟨ha, hb, ⟨by rw [hsize₂, hsz], hentB, hforest₂⟩, rfl,
              rA, rB, hreachA, hreachB, Or.inl ⟨rfl, hAB, hpres₂, hnum₂⟩⟩
          · rw [if_neg hAB] at h
            have hneBA : rB ≠ rA := fun hh => hAB hh.symm
            by_cases hr1 : get_rank (s.A.getD rA (-1)) <
                get_rank (s.A.getD rB (-1))
            · rw [if_pos hr1, if_neg (ne_of_lt hr1)] at h
              dsimp only [] at h
              have h1 : LFState.mk s.n_elements (A₂.setD rA (rB : Int)) =
                  s' ∧ true = ret := by
                injection h with h2
                injection h2 with h3
                injection h3 with h4 h5
                exact ⟨h4, h5⟩
              obtain ⟨rfl, rfl⟩ := h1
              have habs : absP (A₂.setD rA (rB : Int)) =
                  (absP A₂).setD rA rB := by
                rw [absP_setD_nonneg hrA2lt (Int.ofNat_nonneg rB),
                  int_toNat_cast]
              have hentN := packedEntries_setD_nonneg hrB2lt hneBA hentB
              refine ⟨ha, hb, ⟨by rw [Array.size_setD, hsize₂, hsz], hentN,
                ?_⟩, rfl, rA, rB, hreachA, hreachB,
                Or.inr ⟨rfl, hAB, ?_, ?_, ?_, Or.inl ⟨hr1, ?_⟩⟩⟩
              · show Forest (absP (A₂.setD rA (rB : Int)))
                rw [habs]
                exact forest_setD_link hrA2lt' hrootA₂ hrootB₂ hneBA hforest₂
              · show lfNumRoots (A₂.setD rA (rB : Int)) + 1 = lfNumRoots s.A
                rw [lfNumRoots_eq _ hentN, habs,
                  numRoots_setD_link hrA2lt' hrootA₂ hrootB₂ hneBA,
                  ← lfNumRoots_eq _ hentB]
                exact hnum₂
              · intro u v huv
                show sameRoot (absP (A₂.setD rA (rB : Int))) u v
                rw [habs]
                apply sameRoot_mono_setD_link hrA2lt' hrootA₂ hrootB₂ hneBA
                obtain ⟨ρ, hu, hv⟩ := huv
                exact ⟨ρ, (hpres₂ u ρ).mpr hu, (hpres₂ v ρ).mpr hv⟩
              · show sameRoot (absP (A₂.setD rA (rB : Int))) a.toNat b.toNat
                rw [habs]
                refine ⟨rB, ?_, ?_⟩
                · exact (reachesRoot_setD_link hrA2lt' hrootA₂ hrootB₂ hneBA
                    _ _).mpr (Or.inr ⟨(hpres₂ _ _).mpr hreachA, rfl⟩)
                · exact (reachesRoot_setD_link hrA2lt' hrootA₂ hrootB₂ hneBA
                    _ _).mpr (Or.inl ⟨(hpres₂ _ _).mpr hreachB, hneBA⟩)
              · show parentStep (absP (A₂.setD rA (rB : Int))) rA = rB
                rw [habs]
                exact parentStep_setD_self hrA2lt' rB
            · rw [if_neg hr1] at h
              by_cases hr2 : get_rank (s.A.getD rB (-1)) <
                  get_rank (s.A.getD rA (-1))
              · rw [if_pos hr2, if_neg (fun hh =>
                  absurd hh.symm (ne_of_lt hr2))] at h
                dsimp only [] at h
                have h1 : LFState.mk s.n_elements (A₂.setD rB (rA : Int)) =
                    s' ∧ true = ret := by
                  injection h with h2
                  injection h2 with h3
                  injection h3 with h4 h5
                  exact ⟨h4, h5⟩
                obtain ⟨rfl, rfl⟩ := h1
                have habs : absP (A₂.setD rB (rA : Int)) =
                    (absP A₂).setD rB rA := by
                  rw [absP_setD_nonneg hrB2lt (Int.ofNat_nonneg rA),
                    int_toNat_cast]
                have hentN := packedEntries_setD_nonneg hrA2lt hAB hentB
                refine ⟨ha, hb, ⟨by rw [Array.size_setD, hsize₂, hsz], hentN,
                  ?_⟩, rfl, rA, rB, hreachA, hreachB,
                  Or.inr ⟨rfl, hAB, ?_, ?_, ?_, Or.inr (Or.inl ⟨hr2, ?_⟩)⟩⟩
                · show Forest (absP (A₂.setD rB (rA : Int)))
                  rw [habs]
                  exact forest_setD_link hrB2lt' hrootB₂ hrootA₂ hAB hforest₂
                · show lfNumRoots (A₂.setD rB (rA : Int)) + 1 = lfNumRoots s.A
                  rw [lfNumRoots_eq _ hentN, habs,
                    numRoots_setD_link hrB2lt' hrootB₂ hrootA₂ hAB,
                    ← lfNumRoots_eq _ hentB]
                  exact hnum₂
                · intro u v huv
                  show sameRoot (absP (A₂.setD rB (rA : Int))) u v
                  rw [habs]
                  apply sameRoot_mono_setD_link hrB2lt' hrootB₂ hrootA₂ hAB
                  obtain ⟨ρ, hu, hv⟩ := huv
                  exact ⟨ρ, (hpres₂ u ρ).mpr hu, (hpres₂ v ρ).mpr hv⟩
                · show sameRoot (absP (A₂.setD rB (rA : Int))) a.toNat b.toNat
                  rw [habs]
                  refine ⟨rA, ?_, ?_⟩
                  · exact (reachesRoot_setD_link hrB2lt' hrootB₂ hrootA₂ hAB
                      _ _).mpr (Or.inl ⟨(hpres₂ _ _).mpr hreachA, hAB⟩)
                  · exact (reachesRoot_setD_link hrB2lt' hrootB₂ hrootA₂ hAB
                      _ _).mpr (Or.inr ⟨(hpres₂ _ _).mpr hreachB, rfl⟩)
                · show parentStep (absP (A₂.setD rB (rA : Int))) rB = rA
                  rw [habs]
                  exact parentStep_setD_self hrB2lt' rA
              · rw [if_neg hr2] at h
                have hreq : get_rank (s.A.getD rA (-1)) =
                    get_rank (s.A.getD rB (-1)) :=
                  le_antisymm (Int.not_lt.mp hr2) (Int.not_lt.mp hr1)
                rw [if_pos hreq] at h
                by_cases hilt : rA < rB
                · rw [if_pos hilt] at h
                  dsimp only [] at h
                  have h1 : LFState.mk s.n_elements
                      ((A₂.setD rB (rA : Int)).setD rA
                        (make_root_val (get_rank (s.A.getD rA (-1)) + 1))) =
                      s' ∧ true = ret := by
                    injection h with h2
                    injection h2 with h3
                    injection h3 with h4 h5
                    exact ⟨h4, h5⟩
                  obtain ⟨rfl, rfl⟩ := h1
                  have hbump : make_root_val
                      (get_rank (s.A.getD rA (-1)) + 1) < 0 := by
                    unfold make_root_val get_rank
                    omega
                  have hrAlt3 : rA < (A₂.setD rB (rA : Int)).size := by
                    rw [Array.size_setD]; exact hrA2lt
                  have hrAval3 : (A₂.setD rB (rA : Int)).getD rA (-1) < 0 := by
                    rw [getD_int_setD_other hAB, hA2valA]
                    exact hvalA
                  have habs : absP ((A₂.setD rB (rA : Int)).setD rA
                      (make_root_val (get_rank (s.A.getD rA (-1)) + 1))) =
                      (absP A₂).setD rB rA := by
                    rw [absP_setD_neg hrAlt3 hrAval3 hbump,
                      absP_setD_nonneg hrB2lt (Int.ofNat_nonneg rA),
                      int_toNat_cast]
                  have hentN := packedEntries_setD_neg (x := rA) hbump
                    (packedEntries_setD_nonneg hrA2lt hAB hentB)
                  refine ⟨ha, hb, ⟨by
                    rw [Array.size_setD, Array.size_setD, hsize₂, hsz],
                    hentN, ?_⟩, rfl, rA, rB, hreachA, hreachB,
                    Or.inr ⟨rfl, hAB, ?_, ?_, ?_,
                      Or.inr (Or.inr (Or.inl ⟨hreq, hilt, ?_, ?_⟩))⟩⟩
                  · show Forest (absP _)
                    rw [habs]
                    exact forest_setD_link hrB2lt' hrootB₂ hrootA₂ hAB
                      hforest₂
                  · show lfNumRoots _ + 1 = lfNumRoots s.A
                    rw [lfNumRoots_eq _ hentN, habs,
                      numRoots_setD_link hrB2lt' hrootB₂ hrootA₂ hAB,
                      ← lfNumRoots_eq _ hentB]
                    exact hnum₂
                  · intro u v huv
                    show sameRoot (absP _) u v
                    rw [habs]
                    apply sameRoot_mono_setD_link hrB2lt' hrootB₂ hrootA₂ hAB
                    obtain ⟨ρ, hu, hv⟩ := huv
                    exact ⟨ρ, (hpres₂ u ρ).mpr hu, (hpres₂ v ρ).mpr hv⟩
                  · show sameRoot (absP _) a.toNat b.toNat
                    rw [habs]
                    refine ⟨rA, ?_, ?_⟩
                    · exact (reachesRoot_setD_link hrB2lt' hrootB₂ hrootA₂
                        hAB _ _).mpr (Or.inl ⟨(hpres₂ _ _).mpr hreachA, hAB⟩)
                    · exact (reachesRoot_setD_link hrB2lt' hrootB₂ hrootA₂
                        hAB _ _).mpr (Or.inr ⟨(hpres₂ _ _).mpr hreachB, rfl⟩)
                  · show parentStep (absP _) rB = rA
                    rw [habs]
                    exact parentStep_setD_self hrB2lt' rA
                  · show ((A₂.setD rB (rA : Int)).setD rA
                      (make_root_val (get_rank (s.A.getD rA (-1)) + 1))).getD
                        rA (-1) =
                      make_root_val (get_rank (s.A.getD rA (-1)) + 1)
                    exact getD_int_setD_self hrAlt3 _ _
                · rw [if_neg hilt] at h
                  dsimp only [] at h
                  have hiltBA : rB < rA := by omega
                  have h1 : LFState.mk s.n_elements
                      ((A₂.setD rA (rB : Int)).setD rB
                        (make_root_val (get_rank (s.A.getD rB (-1)) + 1))) =
                      s' ∧ true = ret := by
                    injection h with h2
                    injection h2 with h3
                    injection h3 with h4 h5
                    exact ⟨h4, h5⟩
                  obtain ⟨rfl, rfl⟩ := h1
                  have hbump : make_root_val
                      (get_rank (s.A.getD rB (-1)) + 1) < 0 := by
                    unfold make_root_val get_rank
                    omega
                  have hrBlt3 : rB < (A₂.setD rA (rB : Int)).size := by
                    rw [Array.size_setD]; exact hrB2lt
                  have hrBval3 : (A₂.setD rA (rB : Int)).getD rB (-1) < 0 := by
                    rw [getD_int_setD_other hneBA, hA2valB]
                    exact hvalB
                  have habs : absP ((A₂.setD rA (rB : Int)).setD rB
                      (make_root_val (get_rank (s.A.getD rB (-1)) + 1))) =
                      (absP A₂).setD rA rB := by
                    rw [absP_setD_neg hrBlt3 hrBval3 hbump,
                      absP_setD_nonneg hrA2lt (Int.ofNat_nonneg rB),
                      int_toNat_cast]
                  have hentN := packedEntries_setD_neg (x := rB) hbump
                    (packedEntries_setD_nonneg hrB2lt hneBA hentB)
                  refine ⟨ha, hb, ⟨by
                    rw [Array.size_setD, Array.size_setD, hsize₂, hsz],
                    hentN, ?_⟩, rfl, rA, rB, hreachA, hreachB,
                    Or.inr ⟨rfl, hAB, ?_, ?_, ?_,
                      Or.inr (Or.inr (Or.inr ⟨hreq, hiltBA, ?_, ?_⟩))⟩⟩
                  · show Forest (absP _)
                    rw [habs]
                    exact forest_setD_link hrA2lt' hrootA₂ hrootB₂ hneBA
                      hforest₂
                  · show lfNumRoots _ + 1 = lfNumRoots s.A
                    rw [lfNumRoots_eq _ hentN, habs,
                      numRoots_setD_link hrA2lt' hrootA₂ hrootB₂ hneBA,
                      ← lfNumRoots_eq _ hentB]
                    exact hnum₂
                  · intro u v huv
                    show sameRoot (absP _) u v
                    rw [habs]
                    apply sameRoot_mono_setD_link hrA2lt' hrootA₂ hrootB₂
                      hneBA
                    obtain ⟨ρ, hu, hv⟩ := huv
                    exact ⟨ρ, (hpres₂ u ρ).mpr hu, (hpres₂ v ρ).mpr hv⟩
                  · show sameRoot (absP _) a.toNat b.toNat
                    rw [habs]
                    refine ⟨rB, ?_, ?_⟩
                    · exact (reachesRoot_setD_link hrA2lt' hrootA₂ hrootB₂
                        hneBA _ _).mpr (Or.inr ⟨(hpres₂ _ _).mpr hreachA,
                          rfl⟩)
                    · exact (reachesRoot_setD_link hrA2lt' hrootA₂ hrootB₂
                        hneBA _ _).mpr (Or.inl ⟨(hpres₂ _ _).mpr hreachB,
                          hneBA⟩)
                  · show parentStep (absP _) rA = rB
                    rw [habs]
                    exact parentStep_setD_self hrA2lt' rB
                  · show ((A₂.setD rA (rB : Int)).setD rB
                      (make_root_val (get_rank (s.A.getD rB (-1)) + 1))).getD
                        rB (-1) =
                      make_root_val (get_rank (s.A.getD rB (-1)) + 1)
                    exact getD_int_setD_self hrBlt3 _ _

/-- Specification of the IPC `sameSet`: on a completed call, true iff the
two elements reach the same root (both fast paths answer `true` only for
elements that genuinely share a root). -/
theorem sameSet_spec_ipc {fuel : Nat} {s s' : LFState} {a b : Int} {ret : Bool}
    (hwf : s.WF) (h : sameSet fuel s a b = some (.ok (s', ret))) :
    inBounds s.n_elements a ∧ inBounds s.n_elements b ∧
    s'.WF ∧ s'.n_elements = s.n_elements ∧
    (∀ i ρ, reachesRoot (absP s'.A) i ρ ↔ reachesRoot (absP s.A) i ρ) ∧
    (∀ y, IsRoot (absP s'.A) y ↔ IsRoot (absP s.A) y) ∧
    (ret = true ↔ sameRoot (absP s.A) a.toNat b.toNat) := by
  obtain ⟨hsz, hent, hforest⟩ := hwf
  rw [sameSet] at h
  by_cases hoob : a < 0 ∨ (s.n_elements : Int) ≤ a ∨ b < 0 ∨
      (s.n_elements : Int) ≤ b
  · rw [if_pos hoob] at h
    exact absurd h (by simp)
  · rw [if_neg hoob] at h
    have ha : inBounds s.n_elements a := by unfold inBounds; omega
    have hb : inBounds s.n_elements b := by unfold inBounds; omega
    have haLT : a.toNat < s.A.size := by
      rw [hsz]; exact inBounds_toNat ha
    have hbLT0 : b.toNat < s.A.size := by
      rw [hsz]; exact inBounds_toNat hb
    dsimp only [] at h
    by_cases heq : a = b
    · rw [if_pos heq] at h
      have h1 : s = s' ∧ true = ret := by
        injection h with h2
        injection h2 with h3
        injection h3 with h4 h5
        exact ⟨h4, h5⟩
      obtain ⟨rfl, rfl⟩ := h1
      refine ⟨ha, hb, ⟨hsz, hent, hforest⟩, rfl, fun _ _ => Iff.rfl,
        fun _ => Iff.rfl, ?_⟩
      rw [heq]
      exact ⟨fun _ => sameRoot_refl hforest b.toNat, fun _ => rfl⟩
    · rw [if_neg heq] at h
      by_cases hipc : 0 ≤ s.A.getD a.toNat (-1) ∧
          s.A.getD a.toNat (-1) = s.A.getD b.toNat (-1)
      · rw [if_pos hipc] at h
        have h1 : s = s' ∧ true = ret := by
          injection h with h2
          injection h2 with h3
          injection h3 with h4 h5
          exact ⟨h4, h5⟩
        obtain ⟨rfl, rfl⟩ := h1
        obtain ⟨rA, hreachA⟩ := hforest a.toNat
        have hanonroot : ¬ IsRoot (absP s.A) a.toNat := by
          rw [isRoot_absP hent haLT]
          omega
        have hstepa : parentStep (absP s.A) a.toNat =
            (s.A.getD a.toNat (-1)).toNat := by
          rw [parentStep_absP haLT, if_neg (by omega)]
        have hstepb : parentStep (absP s.A) b.toNat =
            (s.A.getD a.toNat (-1)).toNat := by
          rw [parentStep_absP hbLT0, ← hipc.2, if_neg (by omega)]
        have hne_ra : a.toNat ≠ rA := by
          intro hh
          exact hanonroot (hh ▸ reachesRoot_isRoot hreachA)
        have h1 : reachesRoot (absP s.A) (s.A.getD a.toNat (-1)).toNat
            rA := by
          have := reachesRoot_tail hreachA hne_ra
          rwa [hstepa] at this
        have hreachB : reachesRoot (absP s.A) b.toNat rA :=
          reachesRoot_step hstepb h1
        refine ⟨ha, hb, ⟨hsz, hent, hforest⟩, rfl, fun _ _ => Iff.rfl,
          fun _ => Iff.rfl, ?_⟩
        exact ⟨fun _ => ⟨rA, hreachA, hreachB⟩, fun _ => rfl⟩
      · rw [if_neg hipc] at h
        cases hfa : UnionFindParallelLockFree.find_internal fuel s.A
            a.toNat with
        | none => rw [show find_internal fuel s.A a.toNat =
            UnionFindParallelLockFree.find_internal fuel s.A a.toNat from rfl,
            hfa] at h; exact absurd h (by simp)
        | some prA =>
          obtain ⟨A₁, rA⟩ := prA
          rw [show find_internal fuel s.A a.toNat =
            UnionFindParallelLockFree.find_internal fuel s.A a.toNat from rfl,
            hfa] at h
          dsimp only [] at h
          obtain ⟨hreachA, hpresA, hrootsetA, huntA, hsizeA, hentA⟩ :=
            UnionFindParallelLockFree.find_internal_spec hent haLT hfa
          cases hfb : UnionFindParallelLockFree.find_internal fuel A₁
              b.toNat with
          | none => rw [show find_internal fuel A₁ b.toNat =
              UnionFindParallelLockFree.find_internal fuel A₁ b.toNat from
              rfl, hfb] at h; exact absurd h (by simp)
          | some prB =>
            obtain ⟨A₂, rB⟩ := prB
            rw [show find_internal fuel A₁ b.toNat =
              UnionFindParallelLockFree.find_internal fuel A₁ b.toNat from
              rfl, hfb] at h
            dsimp only [] at h
            have hbLT : b.toNat < A₁.size := by rw [hsizeA]; exact hbLT0
            obtain ⟨hreachB₁, hpresB, hrootsetB, huntB, hsizeB, hentB⟩ :=
              UnionFindParallelLockFree.find_internal_spec hentA hbLT hfb
            have hreachB : reachesRoot (absP s.A) b.toNat rB :=
              (hpresA _ _).mp hreachB₁
            have hpres₂ : ∀ i ρ, reachesRoot (absP A₂) i ρ ↔
                reachesRoot (absP s.A) i ρ :=
              fun i ρ => (hpresB i ρ).trans (hpresA i ρ)
            have hrootset₂ : ∀ y, IsRoot (absP A₂) y ↔
                IsRoot (absP s.A) y :=
              fun y => (hrootsetB y).trans (hrootsetA y)
            have hsize₂ : A₂.size = s.A.size := by rw [hsizeB, hsizeA]
            have hforest₂ : Forest (absP A₂) := by
              intro i
              obtain ⟨ρ, hρ⟩ := hforest i
              exact ⟨ρ, (hpres₂ i ρ).mpr hρ⟩
            have hwf₂ : LFState.WF (LFState.mk s.n_elements A₂) :=
              ⟨by rw [hsize₂, hsz], hentB, hforest₂⟩
            by_cases hAB : rA = rB
            · rw [if_pos hAB] at h
              have h1 : LFState.mk s.n_elements A₂ = s' ∧ true = ret := by
                injection h with h2
                injection h2 with h3
                injection h3 with h4 h5
                exact ⟨h4, h5⟩
              obtain ⟨rfl, rfl⟩ := h1
              refine ⟨ha, hb, hwf₂, rfl, hpres₂, hrootset₂, ?_⟩
              exact ⟨fun _ => ⟨rA, hreachA, hAB ▸ hreachB⟩, fun _ => rfl⟩
            · rw [if_neg hAB] at h
              have hrAlt : rA < s.A.size := by
                have := reachesRoot_lt_size (parentInBounds_absP hent)
                  (by rw [absP_size]; exact haLT) hreachA
                rwa [absP_size] at this
              have hvalA : s.A.getD rA (-1) < 0 :=
                (isRoot_absP hent hrAlt).mp (reachesRoot_isRoot hreachA)
              have hA2valA : A₂.getD rA (-1) = s.A.getD rA (-1) := by
                have h1 : A₁.getD rA (-1) = s.A.getD rA (-1) :=
                  huntA rA hrAlt hvalA
                have h2 : A₂.getD rA (-1) = A₁.getD rA (-1) := by
                  apply huntB rA (by rw [hsizeA]; exact hrAlt)
                  rw [h1]; exact hvalA
                rw [h2, h1]
              rw [hA2valA, if_pos hvalA] at h
              have h1 : LFState.mk s.n_elements A₂ = s' ∧ false = ret := by
                injection h with h2
                injection h2 with h3
                injection h3 with h4 h5
                exact ⟨h4, h5⟩
              obtain ⟨rfl, rfl⟩ := h1
              refine ⟨ha, hb, hwf₂, rfl, hpres₂, hrootset₂, ?_⟩
              constructor
              · intro hcontra
                exact absurd hcontra Bool.false_ne_true
              · intro hsr
                obtain ⟨ρ, hu, hv⟩ := hsr
                have e1 : ρ = rA := reachesRoot_unique hu hreachA
                have e2 : ρ = rB := reachesRoot_unique hv hreachB
                exact absurd (e1 ▸ e2) hAB

end UnionFindParallelLockFreeIPC

/-! ## Batch-level accounting shared by all engines -/

/-- Number of `UNION_OP` operations in a batch whose recorded result is `1`
(i.e. whose `unionSets` call returned true). -/
def trueUnionCount (ops : List Operation) (outs : List Int) : Nat :=
  (List.zip ops outs).countP (fun p => decide (p.1.type = UNION_OP ∧ p.2 = 1))

theorem trueUnionCount_nil (outs : List Int) : trueUnionCount [] outs = 0 :=
  rfl

theorem trueUnionCount_cons (op : Operation) (ops : List Operation)
    (out : Int) (outs : List Int) :
    trueUnionCount (op :: ops) (out :: outs) =
      trueUnionCount ops outs +
        (if op.type = UNION_OP ∧ out = 1 then 1 else 0) := by
  unfold trueUnionCount
  rw [List.zip_cons_cons, List.countP_cons]
  congr 1
  by_cases hp : op.type = UNION_OP ∧ out = 1
  · simp [hp]
  · simp [hp]

/-- The initial separated forest has `n` roots. -/
theorem numRoots_range (n : Nat) : numRoots (Array.range n) = n := by
  unfold numRoots
  rw [Array.size_range, Finset.filter_true_of_mem, Finset.card_range]
  intro i hi
  rw [Finset.mem_range] at hi
  exact UnionFind.parentStep_range n hi

/-- The initial packed forest has `n` roots. -/
theorem lfNumRoots_mkArray (n : Nat) :
    lfNumRoots (Array.mkArray n (make_root_val 0)) = n := by
  unfold lfNumRoots
  rw [Array.size_mkArray, Finset.filter_true_of_mem, Finset.card_range]
  intro i hi
  rw [Finset.mem_range] at hi
  have : (Array.mkArray n (make_root_val 0)).getD i (-1) = make_root_val
      0 := by
    simp [Array.getD, Array.size_mkArray, hi]
  rw [this]
  unfold make_root_val
  omega

namespace UnionFind

/-- Batch specification of the sequential (and coarse-lock) engine: a
completed batch preserves well-formedness and the element count, only
coarsens the partition, produces one result per operation, and the number
of `1`-results of `UNION_OP` operations accounts exactly for the decrease
in the number of roots. -/
theorem processOperations_spec_seq {fuel : Nat} :
    ∀ {ops : List Operation} {s s' : UnionFind} {outs : List Int},
      WF s → processOperations fuel s ops = some (.ok (s', outs)) →
      WF s' ∧ s'.num_elements = s.num_elements ∧
      (∀ u v, sameRoot s.parent u v → sameRoot s'.parent u v) ∧
      outs.length = ops.length ∧
      trueUnionCount ops outs + numRoots s'.parent = numRoots s.parent := by
  intro ops
  induction ops with
  | nil =>
      intro s s' outs hwf h
      rw [processOperations] at h
      have h1 : s = s' ∧ ([] : List Int) = outs := by
        injection h with h2
        injection h2 with h3
        injection h3 with h4 h5
        exact ⟨h4, h5⟩
      obtain ⟨rfl, rfl⟩ := h1
      exact ⟨hwf, rfl, fun _ _ hh => hh, rfl,
        by rw [trueUnionCount_nil]; omega⟩
  | cons op rest ih =>
      intro s s' outs hwf h
      rw [processOperations] at h
      by_cases hba : inBounds s.num_elements op.a
      · rw [if_pos hba] at h
        by_cases hU : op.type = UNION_OP
        · rw [if_pos hU] at h
          by_cases hbb : inBounds s.num_elements op.b
          · rw [if_pos hbb] at h
            cases hu : unionSets fuel s op.a op.b with
            | none => rw [hu] at h; exact absurd h (by simp)
            | some e =>
              cases e with
              | error e0 => rw [hu] at h; exact absurd h (by simp)
              | ok pr =>
                obtain ⟨s₁, occurred⟩ := pr
                rw [hu] at h
                dsimp only [] at h
                obtain ⟨_, _, hwf₁, hn₁, rA, rB, hreachA, hreachB, hdisj⟩ :=
                  unionSets_spec_seq hwf hu
                cases hrest : processOperations fuel s₁ rest with
                | none => rw [hrest] at h; exact absurd h (by simp)
                | some e1 =>
                  cases e1 with
                  | error e0 => rw [hrest] at h; exact absurd h (by simp)
                  | ok pr1 =>
                    obtain ⟨s₂, outs₁⟩ := pr1
                    rw [hrest] at h
                    dsimp only [] at h
                    have h1 : s₂ = s' ∧
                        (if occurred then (1 : Int) else 0) :: outs₁ =
                          outs := by
                      injection h with h2
                      injection h2 with h3
                      injection h3 with h4 h5
                      exact ⟨h4, h5⟩
                    obtain ⟨rfl, rfl⟩ := h1
                    obtain ⟨hwf₂, hn₂, hmono₂, hlen₂, hcount₂⟩ :=
                      ih hwf₁ hrest
                    have hsz₁ : s₁.parent.size = s.parent.size := by
                      rw [hwf₁.1, hn₁, hwf.1]
                    rcases hdisj with ⟨hret, _, _, hpres, hnum⟩ |
                        ⟨hret, _, hnum, hmono₁, _, _⟩
                    · subst hret
                      refine ⟨hwf₂, by rw [hn₂, hn₁], ?_, ?_, ?_⟩
                      · intro u v huv
                        apply hmono₂
                        obtain ⟨ρ, hu', hv'⟩ := huv
                        exact ⟨ρ, (hpres u ρ).mpr hu', (hpres v ρ).mpr hv'⟩
                      · simp [hlen₂]
                      · rw [trueUnionCount_cons,
                          if_neg (by simp : ¬ (op.type = UNION_OP ∧
                            (if false then (1 : Int) else 0) = 1))]
                        omega
                    · subst hret
                      refine ⟨hwf₂, by rw [hn₂, hn₁], ?_, ?_, ?_⟩
                      · intro u v huv
                        exact hmono₂ _ _ (hmono₁ _ _ huv)
                      · simp [hlen₂]
                      · rw [trueUnionCount_cons,
                          if_pos (by simp [hU] : op.type = UNION_OP ∧
                            (if true then (1 : Int) else 0) = 1)]
                        omega
          · rw [if_neg hbb] at h
            exact absurd h (by simp)
        · rw [if_neg hU] at h
          by_cases hF : op.type = FIND_OP
          · rw [if_pos hF] at h
            cases hf : find fuel s op.a with
            | none => rw [hf] at h; exact absurd h (by simp)
            | some e =>
              cases e with
              | error e0 => rw [hf] at h; exact absurd h (by simp)
              | ok pr =>
                obtain ⟨s₁, r⟩ := pr
                rw [hf] at h
                dsimp only [] at h
                obtain ⟨_, rn, _, _, hwf₁, hn₁, _, hpres, hrootset⟩ :=
                  find_spec_seq hwf hf
                cases hrest : processOperations fuel s₁ rest with
                | none => rw [hrest] at h; exact absurd h (by simp)
                | some e1 =>
                  cases e1 with
                  | error e0 => rw [hrest] at h; exact absurd h (by simp)
                  | ok pr1 =>
                    obtain ⟨s₂, outs₁⟩ := pr1
                    rw [hrest] at h
                    dsimp only [] at h
                    have h1 : s₂ = s' ∧ r :: outs₁ = outs := by
                      injection h with h2
                      injection h2 with h3
                      injection h3 with h4 h5
                      exact ⟨h4, h5⟩
                    obtain ⟨rfl, rfl⟩ := h1
                    obtain ⟨hwf₂, hn₂, hmono₂, hlen₂, hcount₂⟩ :=
                      ih hwf₁ hrest
                    have hsz₁ : s₁.parent.size = s.parent.size := by
                      rw [hwf₁.1, hn₁, hwf.1]
                    have hnum : numRoots s₁.parent = numRoots s.parent :=
                      numRoots_congr hsz₁ hrootset
                    refine ⟨hwf₂, by rw [hn₂, hn₁], ?_, ?_, ?_⟩
                    · intro u v huv
                      apply hmono₂
                      obtain ⟨ρ, hu', hv'⟩ := huv
                      exact ⟨ρ, (hpres u ρ).mpr hu', (hpres v ρ).mpr hv'⟩
                    · simp [hlen₂]
                    · rw [trueUnionCount_cons,
                        if_neg (fun hc => hU hc.1)]
                      omega
          · rw [if_neg hF] at h
            by_cases hS : op.type = SAMESET_OP
            · rw [if_pos hS] at h
              by_cases hbb : inBounds s.num_elements op.b
              · rw [if_pos hbb] at h
                cases hss : sameSet fuel s op.a op.b with
                | none => rw [hss] at h; exact absurd h (by simp)
                | some e =>
                  cases e with
                  | error e0 => rw [hss] at h; exact absurd h (by simp)
                  | ok pr =>
                    obtain ⟨s₁, same⟩ := pr
                    rw [hss] at h
                    dsimp only [] at h
                    obtain ⟨_, _, hwf₁, hn₁, _, hpres, hrootset, _⟩ :=
                      sameSet_spec_seq hwf hss
                    cases hrest : processOperations fuel s₁ rest with
                    | none => rw [hrest] at h; exact absurd h (by simp)
                    | some e1 =>
                      cases e1 with
                      | error e0 => rw [hrest] at h; exact absurd h (by simp)
                      | ok pr1 =>
                        obtain ⟨s₂, outs₁⟩ := pr1
                        rw [hrest] at h
                        dsimp only [] at h
                        have h1 : s₂ = s' ∧
                            (if same then (1 : Int) else 0) :: outs₁ =
                              outs := by
                          injection h with h2
                          injection h2 with h3
                          injection h3 with h4 h5
                          exact ⟨h4, h5⟩
                        obtain ⟨rfl, rfl⟩ := h1
                        obtain ⟨hwf₂, hn₂, hmono₂, hlen₂, hcount₂⟩ :=
                          ih hwf₁ hrest
                        have hsz₁ : s₁.parent.size = s.parent.size := by
                          rw [hwf₁.1, hn₁, hwf.1]
                        have hnum : numRoots s₁.parent = numRoots s.parent :=
                          numRoots_congr hsz₁ hrootset
                        refine ⟨hwf₂, by rw [hn₂, hn₁], ?_, ?_, ?_⟩
                        · intro u v huv
                          apply hmono₂
                          obtain ⟨ρ, hu', hv'⟩ := huv
                          exact ⟨ρ, (hpres u ρ).mpr hu', (hpres v ρ).mpr hv'⟩
                        · simp [hlen₂]
                        · rw [trueUnionCount_cons,
                            if_neg (fun hc => hU hc.1)]
                          omega
              · rw [if_neg hbb] at h
                exact absurd h (by simp)
            · rw [if_neg hS] at h
              exact absurd h (by simp)
      · rw [if_neg hba] at h
        exact absurd h (by simp)

end UnionFind

namespace UnionFindParallelFine

/-- Batch specification of the fine-lock engine, identical in content to
the sequential engine's. -/
theorem processOperations_spec_fine {fuel : Nat} :
    ∀ {ops : List Operation} {s s' : UnionFind} {outs : List Int},
      UnionFind.WF s → processOperations fuel s ops = some (.ok (s', outs)) →
      UnionFind.WF s' ∧ s'.num_elements = s.num_elements ∧
      (∀ u v, sameRoot s.parent u v → sameRoot s'.parent u v) ∧
      outs.length = ops.length ∧
      trueUnionCount ops outs + numRoots s'.parent = numRoots s.parent := by
  intro ops
  induction ops with
  | nil =>
      intro s s' outs hwf h
      rw [processOperations] at h
      have h1 : s = s' ∧ ([] : List Int) = outs := by
        injection h with h2
        injection h2 with h3
        injection h3 with h4 h5
        exact ⟨h4, h5⟩
      obtain ⟨rfl, rfl⟩ := h1
      exact ⟨hwf, rfl, fun _ _ hh => hh, rfl,
        by rw [trueUnionCount_nil]; omega⟩
  | cons op rest ih =>
      intro s s' outs hwf h
      rw [processOperations] at h
      by_cases hba : inBounds s.num_elements op.a
      · rw [if_pos hba] at h
        by_cases hU : op.type = UNION_OP
        · rw [if_pos hU] at h
          by_cases hbb : inBounds s.num_elements op.b
          · rw [if_pos hbb] at h
            cases hu : unionSets fuel s op.a op.b with
            | none => rw [hu] at h; exact absurd h (by simp)
            | some e =>
              cases e with
              | error e0 => rw [hu] at h; exact absurd h (by simp)
              | ok pr =>
                obtain ⟨s₁, occurred⟩ := pr
                rw [hu] at h
                dsimp only [] at h
                obtain ⟨_, _, hwf₁, hn₁, rA, rB, hreachA, hreachB, hdisj⟩ :=
                  unionSets_spec_fine hwf hu
                cases hrest : processOperations fuel s₁ rest with
                | none => rw [hrest] at h; exact absurd h (by simp)
                | some e1 =>
                  cases e1 with
                  | error e0 => rw [hrest] at h; exact absurd h (by simp)
                  | ok pr1 =>
                    obtain ⟨s₂, outs₁⟩ := pr1
                    rw [hrest] at h
                    dsimp only [] at h
                    have h1 : s₂ = s' ∧
                        (if occurred then (1 : Int) else 0) :: outs₁ =
                          outs := by
                      injection h with h2
                      injection h2 with h3
                      injection h3 with h4 h5
                      exact ⟨h4, h5⟩
                    obtain ⟨rfl, rfl⟩ := h1
                    obtain ⟨hwf₂, hn₂, hmono₂, hlen₂, hcount₂⟩ :=
                      ih hwf₁ hrest
                    have hsz₁ : s₁.parent.size = s.parent.size := by
                      rw [hwf₁.1, hn₁, hwf.1]
                    rcases hdisj with ⟨hret, _, _, hpres, hnum⟩ |
                        ⟨hret, _, hnum, hmono₁, _, _⟩
                    · subst hret
                      refine ⟨hwf₂, by rw [hn₂, hn₁], ?_, ?_, ?_⟩
                      · intro u v huv
                        apply hmono₂
                        obtain ⟨ρ, hu', hv'⟩ := huv
                        exact ⟨ρ, (hpres u ρ).mpr hu', (hpres v ρ).mpr hv'⟩
                      · simp [hlen₂]
                      · rw [trueUnionCount_cons,
                          if_neg (by simp : ¬ (op.type = UNION_OP ∧
                            (if false then (1 : Int) else 0) = 1))]
                        omega
                    · subst hret
                      refine ⟨hwf₂, by rw [hn₂, hn₁], ?_, ?_, ?_⟩
                      · intro u v huv
                        exact hmono₂ _ _ (hmono₁ _ _ huv)
                      · simp [hlen₂]
                      · rw [trueUnionCount_cons,
                          if_pos (by simp [hU] : op.type = UNION_OP ∧
                            (if true then (1 : Int) else 0) = 1)]
                        omega
          · rw [if_neg hbb] at h
            exact absurd h (by simp)
        · rw [if_neg hU] at h
          by_cases hF : op.type = FIND_OP
          · rw [if_pos hF] at h
            cases hf : find fuel s op.a with
            | none => rw [hf] at h; exact absurd h (by simp)
            | some e =>
              cases e with
              | error e0 => rw [hf] at h; exact absurd h (by simp)
              | ok pr =>
                obtain ⟨s₁, r⟩ := pr
                rw [hf] at h
                dsimp only [] at h
                obtain ⟨_, rn, _, _, hwf₁, hn₁, _, hpres, hrootset⟩ :=
                  find_spec_fine hwf hf
                cases hrest : processOperations fuel s₁ rest with
                | none => rw [hrest] at h; exact absurd h (by simp)
                | some e1 =>
                  cases e1 with
                  | error e0 => rw [hrest] at h; exact absurd h (by simp)
                  | ok pr1 =>
                    obtain ⟨s₂, outs₁⟩ := pr1
                    rw [hrest] at h
                    dsimp only [] at h
                    have h1 : s₂ = s' ∧ r :: outs₁ = outs := by
                      injection h with h2
                      injection h2 with h3
                      injection h3 with h4 h5
                      exact ⟨h4, h5⟩
                    obtain ⟨rfl, rfl⟩ := h1
                    obtain ⟨hwf₂, hn₂, hmono₂, hlen₂, hcount₂⟩ :=
                      ih hwf₁ hrest
                    have hsz₁ : s₁.parent.size = s.parent.size := by
                      rw [hwf₁.1, hn₁, hwf.1]
                    have hnum : numRoots s₁.parent = numRoots s.parent :=
                      numRoots_congr hsz₁ hrootset
                    refine ⟨hwf₂, by rw [hn₂, hn₁], ?_, ?_, ?_⟩
                    · intro u v huv
                      apply hmono₂
                      obtain ⟨ρ, hu', hv'⟩ := huv
                      exact ⟨ρ, (hpres u ρ).mpr hu', (hpres v ρ).mpr hv'⟩
                    · simp [hlen₂]
                    · rw [trueUnionCount_cons,
                        if_neg (fun hc => hU hc.1)]
                      omega
          · rw [if_neg hF] at h
            by_cases hS : op.type = SAMESET_OP
            · rw [if_pos hS] at h
              by_cases hbb : inBounds s.num_elements op.b
              · rw [if_pos hbb] at h
                cases hss : sameSet fuel s op.a op.b with
                | none => rw [hss] at h; exact absurd h (by simp)
                | some e =>
                  cases e with
                  | error e0 => rw [hss] at h; exact absurd h (by simp)
                  | ok pr =>
                    obtain ⟨s₁, same⟩ := pr
                    rw [hss] at h
                    dsimp only [] at h
                    obtain ⟨_, _, hwf₁, hn₁, _, hpres, hrootset, _⟩ :=
                      sameSet_spec_fine hwf hss
                    cases hrest : processOperations fuel s₁ rest with
                    | none => rw [hrest] at h; exact absurd h (by simp)
                    | some e1 =>
                      cases e1 with
                      | error e0 => rw [hrest] at h; exact absurd h (by simp)
                      | ok pr1 =>
                        obtain ⟨s₂, outs₁⟩ := pr1
                        rw [hrest] at h
                        dsimp only [] at h
                        have h1 : s₂ = s' ∧
                            (if same then (1 : Int) else 0) :: outs₁ =
                              outs := by
                          injection h with h2
                          injection h2 with h3
                          injection h3 with h4 h5
                          exact ⟨h4, h5⟩
                        obtain ⟨rfl, rfl⟩ := h1
                        obtain ⟨hwf₂, hn₂, hmono₂, hlen₂, hcount₂⟩ :=
                          ih hwf₁ hrest
                        have hsz₁ : s₁.parent.size = s.parent.size := by
                          rw [hwf₁.1, hn₁, hwf.1]
                        have hnum : numRoots s₁.parent = numRoots s.parent :=
                          numRoots_congr hsz₁ hrootset
                        refine ⟨hwf₂, by rw [hn₂, hn₁], ?_, ?_, ?_⟩
                        · intro u v huv
                          apply hmono₂
                          obtain ⟨ρ, hu', hv'⟩ := huv
                          exact ⟨ρ, (hpres u ρ).mpr hu', (hpres v ρ).mpr hv'⟩
                        · simp [hlen₂]
                        · rw [trueUnionCount_cons,
                            if_neg (fun hc => hU hc.1)]
                          omega
              · rw [if_neg hbb] at h
                exact absurd h (by simp)
            · rw [if_neg hS] at h
              exact absurd h (by simp)
      · rw [if_neg hba] at h
        exact absurd h (by simp)

end UnionFindParallelFine

namespace UnionFindParallelLockFree

/-- Batch specification of the lock-free engine.  No well-formedness of
the operands is needed: a bounds error yields the sentinel `-1` and leaves
the state unchanged, an unexpected kind leaves `0`, and in both cases the
batch continues. -/
theorem processOperations_spec_lf {fuel : Nat} :
    ∀ {ops : List Operation} {s s' : LFState} {outs : List Int},
      s.WF → processOperations fuel s ops = some (s', outs) →
      s'.WF ∧ s'.n_elements = s.n_elements ∧
      (∀ u v, sameRoot (absP s.A) u v → sameRoot (absP s'.A) u v) ∧
      outs.length = ops.length ∧
      trueUnionCount ops outs + lfNumRoots s'.A = lfNumRoots s.A := by
  intro ops
  induction ops with
  | nil =>
      intro s s' outs hwf h
      rw [processOperations] at h
      have h1 : s = s' ∧ ([] : List Int) = outs := by
        injection h with h2
        injection h2 with h3 h4
        exact ⟨h3, h4⟩
      obtain ⟨rfl, rfl⟩ := h1
      exact ⟨hwf, rfl, fun _ _ hh => hh, rfl,
        by rw [trueUnionCount_nil]; omega⟩
  | cons op rest ih =>
      intro s s' outs hwf h
      rw [processOperations] at h
      by_cases hF : op.type = FIND_OP
      · rw [if_pos hF] at h
        have hUne : ¬ (op.type = UNION_OP) := by
          rw [hF]; unfold FIND_OP UNION_OP; omega
        cases hf : find fuel s op.a with
        | none => rw [hf] at h; exact absurd h (by simp)
        | some e =>
          cases e with
          | error e0 =>
            cases e0 with
            | outOfBounds =>
              rw [hf] at h
              dsimp only [] at h
              cases hrest : processOperations fuel s rest with
              | none => rw [hrest] at h; exact absurd h (by simp)
              | some pr1 =>
                obtain ⟨s₂, outs₁⟩ := pr1
                rw [hrest] at h
                dsimp only [] at h
                have h1 : s₂ = s' ∧ (-1 : Int) :: outs₁ = outs := by
                  injection h with h2
                  injection h2 with h3 h4
                  exact ⟨h3, h4⟩
                obtain ⟨rfl, rfl⟩ := h1
                obtain ⟨hwf₂, hn₂, hmono₂, hlen₂, hcount₂⟩ := ih hwf hrest
                exact ⟨hwf₂, hn₂, hmono₂, by simp [hlen₂],
                  by rw [trueUnionCount_cons, if_neg (fun hc => hUne hc.1)]
                     omega⟩
            | assertFailed =>
              rw [hf] at h
              dsimp only [] at h
              cases hrest : processOperations fuel s rest with
              | none => rw [hrest] at h; exact absurd h (by simp)
              | some pr1 =>
                obtain ⟨s₂, outs₁⟩ := pr1
                rw [hrest] at h
                dsimp only [] at h
                have h1 : s₂ = s' ∧ (-2 : Int) :: outs₁ = outs := by
                  injection h with h2
                  injection h2 with h3 h4
                  exact ⟨h3, h4⟩
                obtain ⟨rfl, rfl⟩ := h1
                obtain ⟨hwf₂, hn₂, hmono₂, hlen₂, hcount₂⟩ := ih hwf hrest
                exact ⟨hwf₂, hn₂, hmono₂, by simp [hlen₂],
                  by rw [trueUnionCount_cons, if_neg (fun hc => hUne hc.1)]
                     omega⟩
          | ok pr =>
            obtain ⟨s₁, r⟩ := pr
            rw [hf] at h
            dsimp only [] at h
            obtain ⟨_, rn, _, _, hwf₁, hn₁, hpres, hrootset⟩ :=
              find_spec_lf hwf hf
            cases hrest : processOperations fuel s₁ rest with
            | none => rw [hrest] at h; exact absurd h (by simp)
            | some pr1 =>
              obtain ⟨s₂, outs₁⟩ := pr1
              rw [hrest] at h
              dsimp only [] at h
              have h1 : s₂ = s' ∧ r :: outs₁ = outs := by
                injection h with h2
                injection h2 with h3 h4
                exact ⟨h3, h4⟩
              obtain ⟨rfl, rfl⟩ := h1
              obtain ⟨hwf₂, hn₂, hmono₂, hlen₂, hcount₂⟩ := ih hwf₁ hrest
              have hnum : lfNumRoots s₁.A = lfNumRoots s.A := by
                rw [lfNumRoots_eq _ hwf₁.2.1, lfNumRoots_eq _ hwf.2.1]
                exact numRoots_congr
                  (by rw [absP_size, absP_size, hwf₁.1, hn₁, hwf.1]) hrootset
              refine ⟨hwf₂, by rw [hn₂, hn₁], ?_, by simp [hlen₂], ?_⟩
              · intro u v huv
                apply hmono₂
                obtain ⟨ρ, hu', hv'⟩ := huv
                exact ⟨ρ, (hpres u ρ).mpr hu', (hpres v ρ).mpr hv'⟩
              · rw [trueUnionCount_cons, if_neg (fun hc => hUne hc.1)]
                omega
      · rw [if_neg hF] at h
        by_cases hU : op.type = UNION_OP
        · rw [if_pos hU] at h
          cases hu : unionSets fuel s op.a op.b with
          | none => rw [hu] at h; exact absurd h (by simp)
          | some e =>
            cases e with
            | error e0 =>
              cases e0 with
              | outOfBounds =>
                rw [hu] at h
                dsimp only [] at h
                cases hrest : processOperations fuel s rest with
                | none => rw [hrest] at h; exact absurd h (by simp)
                | some pr1 =>
                  obtain ⟨s₂, outs₁⟩ := pr1
                  rw [hrest] at h
                  dsimp only [] at h
                  have h1 : s₂ = s' ∧ (-1 : Int) :: outs₁ = outs := by
                    injection h with h2
                    injection h2 with h3 h4
                    exact ⟨h3, h4⟩
                  obtain ⟨rfl, rfl⟩ := h1
                  obtain ⟨hwf₂, hn₂, hmono₂, hlen₂, hcount₂⟩ := ih hwf hrest
                  exact ⟨hwf₂, hn₂, hmono₂, by simp [hlen₂],
                    by rw [trueUnionCount_cons,
                        if_neg (by simp : ¬ (op.type = UNION_OP ∧
                          (-1 : Int) = 1))]
                       omega⟩
              | assertFailed =>
                rw [hu] at h
                dsimp only [] at h
                cases hrest : processOperations fuel s rest with
                | none => rw [hrest] at h; exact absurd h (by simp)
                | some pr1 =>
                  obtain ⟨s₂, outs₁⟩ := pr1
                  rw [hrest] at h
                  dsimp only [] at h
                  have h1 : s₂ = s' ∧ (-2 : Int) :: outs₁ = outs := by
                    injection h with h2
                    injection h2 with h3 h4
                    exact ⟨h3, h4⟩
                  obtain ⟨rfl, rfl⟩ := h1
                  obtain ⟨hwf₂, hn₂, hmono₂, hlen₂, hcount₂⟩ := ih hwf hrest
                  exact ⟨hwf₂, hn₂, hmono₂, by simp [hlen₂],
                    by rw [trueUnionCount_cons,
                        if_neg (by simp : ¬ (op.type = UNION_OP ∧
                          (-2 : Int) = 1))]
                       omega⟩
            | ok pr =>
              obtain ⟨s₁, occurred⟩ := pr
              rw [hu] at h
              dsimp only [] at h
              obtain ⟨_, _, hwf₁, hn₁, rA, rB, hreachA, hreachB, hdisj⟩ :=
                unionSets_spec_lf hwf hu
              cases hrest : processOperations fuel s₁ rest with
              | none => rw [hrest] at h; exact absurd h (by simp)
              | some pr1 =>
                obtain ⟨s₂, outs₁⟩ := pr1
                rw [hrest] at h
                dsimp only [] at h
                have h1 : s₂ = s' ∧
                    (if occurred then (1 : Int) else 0) :: outs₁ = outs := by
                  injection h with h2
                  injection h2 with h3 h4
                  exact ⟨h3, h4⟩
                obtain ⟨rfl, rfl⟩ := h1
                obtain ⟨hwf₂, hn₂, hmono₂, hlen₂, hcount₂⟩ := ih hwf₁ hrest
                rcases hdisj with ⟨hret, _, hpres, hnum⟩ |
                    ⟨hret, _, hnum, hmono₁, _, _⟩
                · subst hret
                  refine ⟨hwf₂, by rw [hn₂, hn₁], ?_, by simp [hlen₂], ?_⟩
                  · intro u v huv
                    apply hmono₂
                    obtain ⟨ρ, hu', hv'⟩ := huv
                    exact ⟨ρ, (hpres u ρ).mpr hu', (hpres v ρ).mpr hv'⟩
                  · rw [trueUnionCount_cons,
                      if_neg (by simp : ¬ (op.type = UNION_OP ∧
                        (if false then (1 : Int) else 0) = 1))]
                    omega
                · subst hret
                  refine ⟨hwf₂, by rw [hn₂, hn₁], ?_, by simp [hlen₂], ?_⟩
                  · intro u v huv
                    exact hmono₂ _ _ (hmono₁ _ _ huv)
                  · rw [trueUnionCount_cons,
                      if_pos (by simp [hU] : op.type = UNION_OP ∧
                        (if true then (1 : Int) else 0) = 1)]
                    omega
        · rw [if_neg hU] at h
          by_cases hS : op.type = SAMESET_OP
          · rw [if_pos hS] at h
            cases hss : sameSet fuel s op.a op.b with
            | none => rw [hss] at h; exact absurd h (by simp)
            | some e =>
              cases e with
              | error e0 =>
                cases e0 with
                | outOfBounds =>
                  rw [hss] at h
                  dsimp only [] at h
                  cases hrest : processOperations fuel s rest with
                  | none => rw [hrest] at h; exact absurd h (by simp)
                  | some pr1 =>
                    obtain ⟨s₂, outs₁⟩ := pr1
                    rw [hrest] at h
                    dsimp only [] at h
                    have h1 : s₂ = s' ∧ (-1 : Int) :: outs₁ = outs := by
                      injection h with h2
                      injection h2 with h3 h4
                      exact ⟨h3, h4⟩
                    obtain ⟨rfl, rfl⟩ := h1
                    obtain ⟨hwf₂, hn₂, hmono₂, hlen₂, hcount₂⟩ :=
                      ih hwf hrest
                    exact ⟨hwf₂, hn₂, hmono₂, by simp [hlen₂],
                      by rw [trueUnionCount_cons,
                          if_neg (fun hc => hU hc.1)]
                         omega⟩
                | assertFailed =>
                  rw [hss] at h
                  dsimp only [] at h
                  cases hrest : processOperations fuel s rest with
                  | none => rw [hrest] at h; exact absurd h (by simp)
                  | some pr1 =>
                    obtain ⟨s₂, outs₁⟩ := pr1
                    rw [hrest] at h
                    dsimp only [] at h
                    have h1 : s₂ = s' ∧ (-2 : Int) :: outs₁ = outs := by
                      injection h with h2
                      injection h2 with h3 h4
                      exact ⟨h3, h4⟩
                    obtain ⟨rfl, rfl⟩ := h1
                    obtain ⟨hwf₂, hn₂, hmono₂, hlen₂, hcount₂⟩ :=
                      ih hwf hrest
                    exact ⟨hwf₂, hn₂, hmono₂, by simp [hlen₂],
                      by rw [trueUnionCount_cons,
                          if_neg (fun hc => hU hc.1)]
                         omega⟩
              | ok pr =>
                obtain ⟨s₁, same⟩ := pr
                rw [hss] at h
                dsimp only [] at h
                obtain ⟨_, _, hwf₁, hn₁, hpres, hrootset, _⟩ :=
                  sameSet_spec_lf hwf hss
                cases hrest : processOperations fuel s₁ rest with
                | none => rw [hrest] at h; exact absurd h (by simp)
                | some pr1 =>
                  obtain ⟨s₂, outs₁⟩ := pr1
                  rw [hrest] at h
                  dsimp only [] at h
                  have h1 : s₂ = s' ∧
                      (if same then (1 : Int) else 0) :: outs₁ = outs := by
                    injection h with h2
                    injection h2 with h3 h4
                    exact ⟨h3, h4⟩
                  obtain ⟨rfl, rfl⟩ := h1
                  obtain ⟨hwf₂, hn₂, hmono₂, hlen₂, hcount₂⟩ := ih hwf₁ hrest
                  have hnum : lfNumRoots s₁.A = lfNumRoots s.A := by
                    rw [lfNumRoots_eq _ hwf₁.2.1, lfNumRoots_eq _ hwf.2.1]
                    exact numRoots_congr
                      (by rw [absP_size, absP_size, hwf₁.1, hn₁, hwf.1])
                      hrootset
                  refine ⟨hwf₂, by rw [hn₂, hn₁], ?_, by simp [hlen₂], ?_⟩
                  · intro u v huv
                    apply hmono₂
                    obtain ⟨ρ, hu', hv'⟩ := huv
                    exact ⟨ρ, (hpres u ρ).mpr hu', (hpres v ρ).mpr hv'⟩
                  · rw [trueUnionCount_cons, if_neg (fun hc => hU hc.1)]
                    omega
          · rw [if_neg hS] at h
            cases hrest : processOperations fuel s rest with
            | none => rw [hrest] at h; exact absurd h (by simp)
            | some pr1 =>
              obtain ⟨s₂, outs₁⟩ := pr1
              rw [hrest] at h
              dsimp only [] at h
              have h1 : s₂ = s' ∧ (0 : Int) :: outs₁ = outs := by
                injection h with h2
                injection h2 with h3 h4
                exact ⟨h3, h4⟩
              obtain ⟨rfl, rfl⟩ := h1
              obtain ⟨hwf₂, hn₂, hmono₂, hlen₂, hcount₂⟩ := ih hwf hrest
              exact ⟨hwf₂, hn₂, hmono₂, by simp [hlen₂],
                by rw [trueUnionCount_cons, if_neg (fun hc => hU hc.1)]
                   omega⟩

end UnionFindParallelLockFree

namespace UnionFindParallelLockFreeIPC

/-- Batch specification of the IPC engine.  No well-formedness of
the operands is needed: a bounds error yields the sentinel `-1` and leaves
the state unchanged, an unexpected kind leaves `0`, and in both cases the
batch continues. -/
theorem processOperations_spec_ipc {fuel : Nat} :
    ∀ {ops : List Operation} {s s' : LFState} {outs : List Int},
      s.WF → processOperations fuel s ops = some (s', outs) →
      s'.WF ∧ s'.n_elements = s.n_elements ∧
      (∀ u v, sameRoot (absP s.A) u v → sameRoot (absP s'.A) u v) ∧
      outs.length = ops.length ∧
      trueUnionCount ops outs + lfNumRoots s'.A = lfNumRoots s.A := by
  intro ops
  induction ops with
  | nil =>
      intro s s' outs hwf h
      rw [processOperations] at h
      have h1 : s = s' ∧ ([] : List Int) = outs := by
        injection h with h2
        injection h2 with h3 h4
        exact ⟨h3, h4⟩
      obtain ⟨rfl, rfl⟩ := h1
      exact ⟨hwf, rfl, fun _ _ hh => hh, rfl,
        by rw [trueUnionCount_nil]; omega⟩
  | cons op rest ih =>
      intro s s' outs hwf h
      rw [processOperations] at h
      by_cases hF : op.type = FIND_OP
      · rw [if_pos hF] at h
        have hUne : ¬ (op.type = UNION_OP) := by
          rw [hF]; unfold FIND_OP UNION_OP; omega
        cases hf : find fuel s op.a with
        | none => rw [hf] at h; exact absurd h (by simp)
        | some e =>
          cases e with
          | error e0 =>
            cases e0 with
            | outOfBounds =>
              rw [hf] at h
              dsimp only [] at h
              cases hrest : processOperations fuel s rest with
              | none => rw [hrest] at h; exact absurd h (by simp)
              | some pr1 =>
                obtain ⟨s₂, outs₁⟩ := pr1
                rw [hrest] at h
                dsimp only [] at h
                have h1 : s₂ = s' ∧ (-1 : Int) :: outs₁ = outs := by
                  injection h with h2
                  injection h2 with h3 h4
                  exact ⟨h3, h4⟩
                obtain ⟨rfl, rfl⟩ := h1
                obtain ⟨hwf₂, hn₂, hmono₂, hlen₂, hcount₂⟩ := ih hwf hrest
                exact ⟨hwf₂, hn₂, hmono₂, by simp [hlen₂],
                  by rw [trueUnionCount_cons, if_neg (fun hc => hUne hc.1)]
                     omega⟩
            | assertFailed =>
              rw [hf] at h
              dsimp only [] at h
              cases hrest : processOperations fuel s rest with
              | none => rw [hrest] at h; exact absurd h (by simp)
              | some pr1 =>
                obtain ⟨s₂, outs₁⟩ := pr1
                rw [hrest] at h
                dsimp only [] at h
                have h1 : s₂ = s' ∧ (-2 : Int) :: outs₁ = outs := by
                  injection h with h2
                  injection h2 with h3 h4
                  exact ⟨h3, h4⟩
                obtain ⟨rfl, rfl⟩ := h1
                obtain ⟨hwf₂, hn₂, hmono₂, hlen₂, hcount₂⟩ := ih hwf hrest
                exact ⟨hwf₂, hn₂, hmono₂, by simp [hlen₂],
                  by rw [trueUnionCount_cons, if_neg (fun hc => hUne hc.1)]
                     omega⟩
          | ok pr =>
            obtain ⟨s₁, r⟩ := pr
            rw [hf] at h
            dsimp only [] at h
            obtain ⟨_, rn, _, _, hwf₁, hn₁, hpres, hrootset⟩ :=
              UnionFindParallelLockFree.find_spec_lf hwf hf
            cases hrest : processOperations fuel s₁ rest with
            | none => rw [hrest] at h; exact absurd h (by simp)
            | some pr1 =>
              obtain ⟨s₂, outs₁⟩ := pr1
              rw [hrest] at h
              dsimp only [] at h
              have h1 : s₂ = s' ∧ r :: outs₁ = outs := by
                injection h with h2
                injection h2 with h3 h4
                exact ⟨h3, h4⟩
              obtain ⟨rfl, rfl⟩ := h1
              obtain ⟨hwf₂, hn₂, hmono₂, hlen₂, hcount₂⟩ := ih hwf₁ hrest
              have hnum : lfNumRoots s₁.A = lfNumRoots s.A := by
                rw [lfNumRoots_eq _ hwf₁.2.1, lfNumRoots_eq _ hwf.2.1]
                exact numRoots_congr
                  (by rw [absP_size, absP_size, hwf₁.1, hn₁, hwf.1]) hrootset
              refine ⟨hwf₂, by rw [hn₂, hn₁], ?_, by simp [hlen₂], ?_⟩
              · intro u v huv
                apply hmono₂
                obtain ⟨ρ, hu', hv'⟩ := huv
                exact ⟨ρ, (hpres u ρ).mpr hu', (hpres v ρ).mpr hv'⟩
              · rw [trueUnionCount_cons, if_neg (fun hc => hUne hc.1)]
                omega
      · rw [if_neg hF] at h
        by_cases hU : op.type = UNION_OP
        · rw [if_pos hU] at h
          cases hu : unionSets fuel s op.a op.b with
          | none => rw [hu] at h; exact absurd h (by simp)
          | some e =>
            cases e with
            | error e0 =>
              cases e0 with
              | outOfBounds =>
                rw [hu] at h
                dsimp only [] at h
                cases hrest : processOperations fuel s rest with
                | none => rw [hrest] at h; exact absurd h (by simp)
                | some pr1 =>
                  obtain ⟨s₂, outs₁⟩ := pr1
                  rw [hrest] at h
                  dsimp only [] at h
                  have h1 : s₂ = s' ∧ (-1 : Int) :: outs₁ = outs := by
                    injection h with h2
                    injection h2 with h3 h4
                    exact ⟨h3, h4⟩
                  obtain ⟨rfl, rfl⟩ := h1
                  obtain ⟨hwf₂, hn₂, hmono₂, hlen₂, hcount₂⟩ := ih hwf hrest
                  exact ⟨hwf₂, hn₂, hmono₂, by simp [hlen₂],
                    by rw [trueUnionCount_cons,
                        if_neg (by simp : ¬ (op.type = UNION_OP ∧
                          (-1 : Int) = 1))]
                       omega⟩
              | assertFailed =>
                rw [hu] at h
                dsimp only [] at h
                cases hrest : processOperations fuel s rest with
                | none => rw [hrest] at h; exact absurd h (by simp)
                | some pr1 =>
                  obtain ⟨s₂, outs₁⟩ := pr1
                  rw [hrest] at h
                  dsimp only [] at h
                  have h1 : s₂ = s' ∧ (-2 : Int) :: outs₁ = outs := by
                    injection h with h2
                    injection h2 with h3 h4
                    exact ⟨h3, h4⟩
                  obtain ⟨rfl, rfl⟩ := h1
                  obtain ⟨hwf₂, hn₂, hmono₂, hlen₂, hcount₂⟩ := ih hwf hrest
                  exact ⟨hwf₂, hn₂, hmono₂, by simp [hlen₂],
                    by rw [trueUnionCount_cons,
                        if_neg (by simp : ¬ (op.type = UNION_OP ∧
                          (-2 : Int) = 1))]
                       omega⟩
            | ok pr =>
              obtain ⟨s₁, occurred⟩ := pr
              rw [hu] at h
              dsimp only [] at h
              obtain ⟨_, _, hwf₁, hn₁, rA, rB, hreachA, hreachB, hdisj⟩ :=
                unionSets_spec_ipc hwf hu
              cases hrest : processOperations fuel s₁ rest with
              | none => rw [hrest] at h; exact absurd h (by simp)
              | some pr1 =>
                obtain ⟨s₂, outs₁⟩ := pr1
                rw [hrest] at h
                dsimp only [] at h
                have h1 : s₂ = s' ∧
                    (if occurred then (1 : Int) else 0) :: outs₁ = outs := by
                  injection h with h2
                  injection h2 with h3 h4
                  exact ⟨h3, h4⟩
                obtain ⟨rfl, rfl⟩ := h1
                obtain ⟨hwf₂, hn₂, hmono₂, hlen₂, hcount₂⟩ := ih hwf₁ hrest
                rcases hdisj with ⟨hret, _, hpres, hnum⟩ |
                    ⟨hret, _, hnum, hmono₁, _, _⟩
                · subst hret
                  refine ⟨hwf₂, by rw [hn₂, hn₁], ?_, by simp [hlen₂], ?_⟩
                  · intro u v huv
                    apply hmono₂
                    obtain ⟨ρ, hu', hv'⟩ := huv
                    exact ⟨ρ, (hpres u ρ).mpr hu', (hpres v ρ).mpr hv'⟩
                  · rw [trueUnionCount_cons,
                      if_neg (by simp : ¬ (op.type = UNION_OP ∧
                        (if false then (1 : Int) else 0) = 1))]
                    omega
                · subst hret
                  refine ⟨hwf₂, by rw [hn₂, hn₁], ?_, by simp [hlen₂], ?_⟩
                  · intro u v huv
                    exact hmono₂ _ _ (hmono₁ _ _ huv)
                  · rw [trueUnionCount_cons,
                      if_pos (by simp [hU] : op.type = UNION_OP ∧
                        (if true then (1 : Int) else 0) = 1)]
                    omega
        · rw [if_neg hU] at h
          by_cases hS : op.type = SAMESET_OP
          · rw [if_pos hS] at h
            cases hss : sameSet fuel s op.a op.b with
            | none => rw [hss] at h; exact absurd h (by simp)
            | some e =>
              cases e with
              | error e0 =>
                cases e0 with
                | outOfBounds =>
                  rw [hss] at h
                  dsimp only [] at h
                  cases hrest : processOperations fuel s rest with
                  | none => rw [hrest] at h; exact absurd h (by simp)
                  | some pr1 =>
                    obtain ⟨s₂, outs₁⟩ := pr1
                    rw [hrest] at h
                    dsimp only [] at h
                    have h1 : s₂ = s' ∧ (-1 : Int) :: outs₁ = outs := by
                      injection h with h2
                      injection h2 with h3 h4
                      exact ⟨h3, h4⟩
                    obtain ⟨rfl, rfl⟩ := h1
                    obtain ⟨hwf₂, hn₂, hmono₂, hlen₂, hcount₂⟩ :=
                      ih hwf hrest
                    exact ⟨hwf₂, hn₂, hmono₂, by simp [hlen₂],
                      by rw [trueUnionCount_cons,
                          if_neg (fun hc => hU hc.1)]
                         omega⟩
                | assertFailed =>
                  rw [hss] at h
                  dsimp only [] at h
                  cases hrest : processOperations fuel s rest with
                  | none => rw [hrest] at h; exact absurd h (by simp)
                  | some pr1 =>
                    obtain ⟨s₂, outs₁⟩ := pr1
                    rw [hrest] at h
                    dsimp only [] at h
                    have h1 : s₂ = s' ∧ (-2 : Int) :: outs₁ = outs := by
                      injection h with h2
                      injection h2 with h3 h4
                      exact ⟨h3, h4⟩
                    obtain ⟨rfl, rfl⟩ := h1
                    obtain ⟨hwf₂, hn₂, hmono₂, hlen₂, hcount₂⟩ :=
                      ih hwf hrest
                    exact ⟨hwf₂, hn₂, hmono₂, by simp [hlen₂],
                      by rw [trueUnionCount_cons,
                          if_neg (fun hc => hU hc.1)]
                         omega⟩
              | ok pr =>
                obtain ⟨s₁, same⟩ := pr
                rw [hss] at h
                dsimp only [] at h
                obtain ⟨_, _, hwf₁, hn₁, hpres, hrootset, _⟩ :=
                  sameSet_spec_ipc hwf hss
                cases hrest : processOperations fuel s₁ rest with
                | none => rw [hrest] at h; exact absurd h (by simp)
                | some pr1 =>
                  obtain ⟨s₂, outs₁⟩ := pr1
                  rw [hrest] at h
                  dsimp only [] at h
                  have h1 : s₂ = s' ∧
                      (if same then (1 : Int) else 0) :: outs₁ = outs := by
                    injection h with h2
                    injection h2 with h3 h4
                    exact ⟨h3, h4⟩
                  obtain ⟨rfl, rfl⟩ := h1
                  obtain ⟨hwf₂, hn₂, hmono₂, hlen₂, hcount₂⟩ := ih hwf₁ hrest
                  have hnum : lfNumRoots s₁.A = lfNumRoots s.A := by
                    rw [lfNumRoots_eq _ hwf₁.2.1, lfNumRoots_eq _ hwf.2.1]
                    exact numRoots_congr
                      (by rw [absP_size, absP_size, hwf₁.1, hn₁, hwf.1])
                      hrootset
                  refine ⟨hwf₂, by rw [hn₂, hn₁], ?_, by simp [hlen₂], ?_⟩
                  · intro u v huv
                    apply hmono₂
                    obtain ⟨ρ, hu', hv'⟩ := huv
                    exact ⟨ρ, (hpres u ρ).mpr hu', (hpres v ρ).mpr hv'⟩
                  · rw [trueUnionCount_cons, if_neg (fun hc => hU hc.1)]
                    omega
          · rw [if_neg hS] at h
            cases hrest : processOperations fuel s rest with
            | none => rw [hrest] at h; exact absurd h (by simp)
            | some pr1 =>
              obtain ⟨s₂, outs₁⟩ := pr1
              rw [hrest] at h
              dsimp only [] at h
              have h1 : s₂ = s' ∧ (0 : Int) :: outs₁ = outs := by
                injection h with h2
                injection h2 with h3 h4
                exact ⟨h3, h4⟩
              obtain ⟨rfl, rfl⟩ := h1
              obtain ⟨hwf₂, hn₂, hmono₂, hlen₂, hcount₂⟩ := ih hwf hrest
              exact ⟨hwf₂, hn₂, hmono₂, by simp [hlen₂],
                by rw [trueUnionCount_cons, if_neg (fun hc => hU hc.1)]
                   omega⟩

end UnionFindParallelLockFreeIPC

/-! ## The claims -/

/-- Claim C1: for every engine and every sequence of in-bounds operations,
the parent relation is a forest: following parent links from any element
reaches a self-parent (separated layout) or a negative-valued root entry
(packed layout) in finitely many steps, and no cycle exists other than the
self-loop at a root.  The invariant holds initially and is preserved by
every completed `find`, `unionSets` and `sameSet` call of each of the six
engines (sequential embedding); `WF` contains the `Forest` invariant, and
for a packed state a root of the abstraction is exactly a negative entry. -/
theorem claim_C1 :
    (∀ n, UnionFind.WF (UnionFind.init n)) ∧
    (∀ p, Forest p → ∀ i k, 0 < k → parentIter p k i = i → IsRoot p i) ∧
    (∀ s : LFState, s.WF → ∀ i, i < s.A.size →
      (IsRoot (absP s.A) i ↔ s.A.getD i (-1) < 0)) ∧
    (∀ fuel (s s' : UnionFind) a r, UnionFind.WF s →
      UnionFind.find fuel s a = some (.ok (s', r)) → UnionFind.WF s') ∧
    (∀ fuel (s s' : UnionFind) a b ret, UnionFind.WF s →
      UnionFind.unionSets fuel s a b = some (.ok (s', ret)) →
      UnionFind.WF s') ∧
    (∀ fuel (s s' : UnionFind) a b ret, UnionFind.WF s →
      UnionFind.sameSet fuel s a b = some (.ok (s', ret)) →
      UnionFind.WF s') ∧
    (∀ fuel (s s' : UnionFind) a r, UnionFind.WF s →
      UnionFindParallelCoarse.find fuel s a = some (.ok (s', r)) →
      UnionFind.WF s') ∧
    (∀ fuel (s s' : UnionFind) a b ret, UnionFind.WF s →
      UnionFindParallelCoarse.unionSets fuel s a b = some (.ok (s', ret)) →
      UnionFind.WF s') ∧
    (∀ fuel (s s' : UnionFind) a b ret, UnionFind.WF s →
      UnionFindParallelCoarse.sameSet fuel s a b = some (.ok (s', ret)) →
      UnionFind.WF s') ∧
    (∀ fuel (s s' : UnionFind) a r, UnionFind.WF s →
      UnionFindParallelFine.find fuel s a = some (.ok (s', r)) →
      UnionFind.WF s') ∧
    (∀ fuel (s s' : UnionFind) a b ret, UnionFind.WF s →
      UnionFindParallelFine.unionSets fuel s a b = some (.ok (s', ret)) →
      UnionFind.WF s') ∧
    (∀ fuel (s s' : UnionFind) a b ret, UnionFind.WF s →
      UnionFindParallelFine.sameSet fuel s a b = some (.ok (s', ret)) →
      UnionFind.WF s') ∧
    (∀ n, LFState.WF (UnionFindParallelLockFree.init n)) ∧
    (∀ fuel (s s' : LFState) a r, s.WF →
      UnionFindParallelLockFree.find fuel s a = some (.ok (s', r)) →
      s'.WF) ∧
    (∀ fuel (s s' : LFState) a b ret, s.WF →
      UnionFindParallelLockFree.unionSets fuel s a b = some (.ok (s', ret)) →
      s'.WF) ∧
    (∀ fuel (s s' : LFState) a b ret, s.WF →
      UnionFindParallelLockFree.sameSet fuel s a b = some (.ok (s', ret)) →
      s'.WF) ∧
    (∀ n, LFState.WF (UnionFindParallelLockFreePlainWrite.init n)) ∧
    (∀ fuel (s s' : LFState) a r, s.WF →
      UnionFindParallelLockFreePlainWrite.find fuel s a =
        some (.ok (s', r)) → s'.WF) ∧
    (∀ fuel (s s' : LFState) a b ret, s.WF →
      UnionFindParallelLockFreePlainWrite.unionSets fuel s a b =
        some (.ok (s', ret)) → s'.WF) ∧
    (∀ fuel (s s' : LFState) a b ret, s.WF →
      UnionFindParallelLockFreePlainWrite.sameSet fuel s a b =
        some (.ok (s', ret)) → s'.WF) ∧
    (∀ n, LFState.WF (UnionFindParallelLockFreeIPC.init n)) ∧
    (∀ fuel (s s' : LFState) a r, s.WF →
      UnionFindParallelLockFreeIPC.find fuel s a = some (.ok (s', r)) →
      s'.WF) ∧
    (∀ fuel (s s' : LFState) a b ret, s.WF →
      UnionFindParallelLockFreeIPC.unionSets fuel s a b =
        some (.ok (s', ret)) → s'.WF) ∧
    (∀ fuel (s s' : LFState) a b ret, s.WF →
      UnionFindParallelLockFreeIPC.sameSet fuel s a b =
        some (.ok (s', ret)) → s'.WF) := by
  refine ⟨UnionFind.WF_init_seq, ?_, ?_, ?_, ?_, ?_, ?_, ?_, ?_, ?_, ?_, ?_,
    UnionFindParallelLockFree.WF_init_lf, ?_, ?_, ?_,
    UnionFindParallelLockFree.WF_init_lf, ?_, ?_, ?_,
    UnionFindParallelLockFree.WF_init_lf, ?_, ?_, ?_⟩
  · intro p hf i k hk hcyc
    exact forest_no_cycle hf hk hcyc
  · intro s hwf i hi
    exact isRoot_absP hwf.2.1 hi
  · intro fuel s s' a r hwf h
    obtain ⟨_, _, _, _, hwf', _⟩ := UnionFind.find_spec_seq hwf h
    exact hwf'
  · intro fuel s s' a b ret hwf h
    obtain ⟨_, _, hwf', _⟩ := UnionFind.unionSets_spec_seq hwf h
    exact hwf'
  · intro fuel s s' a b ret hwf h
    obtain ⟨_, _, hwf', _⟩ := UnionFind.sameSet_spec_seq hwf h
    exact hwf'
  · intro fuel s s' a r hwf h
    obtain ⟨_, _, _, _, hwf', _⟩ := UnionFind.find_spec_seq hwf h
    exact hwf'
  · intro fuel s s' a b ret hwf h
    obtain ⟨_, _, hwf', _⟩ := UnionFind.unionSets_spec_seq hwf h
    exact hwf'
  · intro fuel s s' a b ret hwf h
    obtain ⟨_, _, hwf', _⟩ := UnionFind.sameSet_spec_seq hwf h
    exact hwf'
  · intro fuel s s' a r hwf h
    obtain ⟨_, _, _, _, hwf', _⟩ := UnionFindParallelFine.find_spec_fine hwf h
    exact hwf'
  · intro fuel s s' a b ret hwf h
    obtain ⟨_, _, hwf', _⟩ := UnionFindParallelFine.unionSets_spec_fine hwf h
    exact hwf'
  · intro fuel s s' a b ret hwf h
    obtain ⟨_, _, hwf', _⟩ := UnionFindParallelFine.sameSet_spec_fine hwf h
    exact hwf'
  · intro fuel s s' a r hwf h
    obtain ⟨_, _, _, _, hwf', _⟩ := UnionFindParallelLockFree.find_spec_lf hwf h
    exact hwf'
  · intro fuel s s' a b ret hwf h
    obtain ⟨_, _, hwf', _⟩ := UnionFindParallelLockFree.unionSets_spec_lf hwf h
    exact hwf'
  · intro fuel s s' a b ret hwf h
    obtain ⟨_, _, hwf', _⟩ := UnionFindParallelLockFree.sameSet_spec_lf hwf h
    exact hwf'
  · intro fuel s s' a r hwf h
    obtain ⟨_, _, _, _, hwf', _⟩ := UnionFindParallelLockFree.find_spec_lf hwf h
    exact hwf'
  · intro fuel s s' a b ret hwf h
    obtain ⟨_, _, hwf', _⟩ := UnionFindParallelLockFree.unionSets_spec_lf hwf h
    exact hwf'
  · intro fuel s s' a b ret hwf h
    obtain ⟨_, _, hwf', _⟩ := UnionFindParallelLockFree.sameSet_spec_lf hwf h
    exact hwf'
  · intro fuel s s' a r hwf h
    obtain ⟨_, _, _, _, hwf', _⟩ := UnionFindParallelLockFree.find_spec_lf hwf h
    exact hwf'
  · intro fuel s s' a b ret hwf h
    obtain ⟨_, _, hwf', _⟩ :=
      UnionFindParallelLockFreeIPC.unionSets_spec_ipc hwf h
    exact hwf'
  · intro fuel s s' a b ret hwf h
    obtain ⟨_, _, hwf', _⟩ := UnionFindParallelLockFreeIPC.sameSet_spec_ipc hwf h
    exact hwf'

/-- Witness for C1: the invariant concretely, on a fresh 2-element
sequential engine and after one union, and on the lock-free engine after
one union. -/
theorem claim_C1_witness :
    UnionFind.WF (UnionFind.init 2) ∧
    UnionFind.WF (UnionFind.mk #[0, 0] #[1, 0] 2) ∧
    LFState.WF (LFState.mk 2 #[1, -2]) := by
  refine ⟨claim_C1.1 2, ?_, ?_⟩
  · exact claim_C1.2.2.2.2.1 3 (UnionFind.init 2)
      (UnionFind.mk #[0, 0] #[1, 0] 2) 0 1 true (claim_C1.1 2) (by decide)
  · exact claim_C1.2.2.2.2.2.2.2.2.2.2.2.2.2.2.1 3
      (UnionFindParallelLockFree.init 2) (LFState.mk 2 #[1, -2]) 0 1 true
      (claim_C1.2.2.2.2.2.2.2.2.2.2.2.2.1 2) (by decide)

/-- Claim C2: for the sequential engine and in-bounds `a`, `b`:
`unionSets(a,b)` returns false and leaves the partition unchanged exactly
when the two finds yield the same root; otherwise it returns true and
links the lower-rank root under the higher-rank root; on an equal-rank tie
it links `rootB` under `rootA` and increments the retained root's rank by
one. -/
theorem claim_C2 {fuel : Nat} {s s' : UnionFind} {a b : Int} {ret : Bool}
    (hwf : UnionFind.WF s)
    (h : UnionFind.unionSets fuel s a b = some (.ok (s', ret))) :
    (ret = false ↔ sameRoot s.parent a.toNat b.toNat) ∧
    (ret = false → ∀ u v, sameRoot s'.parent u v ↔ sameRoot s.parent u v) ∧
    (ret = true → ∃ rA rB : Nat,
      reachesRoot s.parent a.toNat rA ∧ reachesRoot s.parent b.toNat rB ∧
      rA ≠ rB ∧
      ((s.rank.getD rA 0 < s.rank.getD rB 0 ∧
          parentStep s'.parent rA = rB ∧ s'.rank = s.rank) ∨
       (s.rank.getD rB 0 < s.rank.getD rA 0 ∧
          parentStep s'.parent rB = rA ∧ s'.rank = s.rank) ∨
       (s.rank.getD rA 0 = s.rank.getD rB 0 ∧
          parentStep s'.parent rB = rA ∧
          s'.rank = s.rank.setD rA (s.rank.getD rA 0 + 1)))) := by
  obtain ⟨_, _, _, _, rA, rB, hreachA, hreachB, hdisj⟩ :=
    UnionFind.unionSets_spec_seq hwf h
  rcases hdisj with ⟨hret, hAB, hrank, hpres, _⟩ | ⟨hret, hAB, _, _, _, hbr⟩
  · subst hret
    refine ⟨⟨fun _ => ⟨rA, hreachA, by rw [hAB]; exact hreachB⟩,
      fun _ => rfl⟩, fun _ u v => ?_,
      fun hc => absurd hc Bool.false_ne_true⟩
    constructor
    · rintro ⟨ρ, hu, hv⟩
      exact ⟨ρ, (hpres u ρ).mp hu, (hpres v ρ).mp hv⟩
    · rintro ⟨ρ, hu, hv⟩
      exact ⟨ρ, (hpres u ρ).mpr hu, (hpres v ρ).mpr hv⟩
  · subst hret
    refine ⟨⟨fun hc => absurd hc.symm Bool.false_ne_true, fun hsr => ?_⟩,
      fun hc => absurd hc.symm Bool.false_ne_true,
      fun _ => ⟨rA, rB, hreachA, hreachB, hAB, hbr⟩⟩
    obtain ⟨ρ, hu, hv⟩ := hsr
    exact absurd ((reachesRoot_unique hu hreachA) ▸
      (reachesRoot_unique hv hreachB)) hAB

/-- Witness for C2: concrete application to `unionSets 0 1` on a fresh
2-element engine, which returns true. -/
theorem claim_C2_witness :
    (true = false ↔
      sameRoot (UnionFind.init 2).parent (Int.toNat 0) (Int.toNat 1)) :=
  (claim_C2 (UnionFind.WF_init_seq 2)
    (by decide : UnionFind.unionSets 3 (UnionFind.init 2) 0 1 =
      some (.ok (UnionFind.mk #[0, 0] #[1, 0] 2, true)))).1

/-- Claim C3 (counterexample): on a fresh 2-element structure both roots
have rank 0 (an equal-rank tie).  The lock-free engine links root 0 — the
smaller index — under root 1: afterwards entry 0 is a non-root (it holds
the parent index 1) and entry 1 is the surviving root, contradicting the
claim that the lock-free engine makes the smaller index the parent.
Symmetrically, the IPC variant leaves index 0 the surviving root and makes
index 1 its child, contradicting the claim that the IPC variant makes the
smaller index the child. -/
theorem claim_C3_counterexample :
    UnionFindParallelLockFree.unionSets 2 (UnionFindParallelLockFree.init 2)
      0 1 = some (.ok (LFState.mk 2 #[1, -2], true)) ∧
    ¬ ((#[(1 : Int), -2]).getD 0 (-1) < 0) ∧
    (#[(1 : Int), -2]).getD 1 (-1) < 0 ∧
    UnionFindParallelLockFreeIPC.unionSets 2
      (UnionFindParallelLockFreeIPC.init 2) 0 1 =
      some (.ok (LFState.mk 2 #[-2, 0], true)) ∧
    ¬ ((#[(-2 : Int), 0]).getD 1 (-1) < 0) ∧
    (#[(-2 : Int), 0]).getD 0 (-1) < 0 := by
  refine ⟨by decide, by decide, by decide, by decide, by decide, by decide⟩

/-- Claim C3 (amended): in the equal-rank tie-break of `unionSets`, the
lock-free engine makes the smaller-indexed root the child (it is linked
under the larger-indexed root, which survives), while the IPC variant
makes the smaller-indexed root the parent (the larger-indexed root is
linked under it); each engine applies its policy on every completed
equal-rank merge. -/
theorem claim_C3_amended :
    (∀ fuel (s s' : LFState) a b, s.WF →
      UnionFindParallelLockFree.unionSets fuel s a b =
        some (.ok (s', true)) →
      ∃ rA rB : Nat, reachesRoot (absP s.A) a.toNat rA ∧
        reachesRoot (absP s.A) b.toNat rB ∧ rA ≠ rB ∧
        (get_rank (s.A.getD rA (-1)) = get_rank (s.A.getD rB (-1)) →
          (rA < rB → parentStep (absP s'.A) rA = rB) ∧
          (rB < rA → parentStep (absP s'.A) rB = rA))) ∧
    (∀ fuel (s s' : LFState) a b, s.WF →
      UnionFindParallelLockFreeIPC.unionSets fuel s a b =
        some (.ok (s', true)) →
      ∃ rA rB : Nat, reachesRoot (absP s.A) a.toNat rA ∧
        reachesRoot (absP s.A) b.toNat rB ∧ rA ≠ rB ∧
        (get_rank (s.A.getD rA (-1)) = get_rank (s.A.getD rB (-1)) →
          (rA < rB → parentStep (absP s'.A) rB = rA) ∧
          (rB < rA → parentStep (absP s'.A) rA = rB))) := by
  constructor
  · intro fuel s s' a b hwf h
    obtain ⟨_, _, _, _, rA, rB, hreachA, hreachB, hdisj⟩ :=
      UnionFindParallelLockFree.unionSets_spec_lf hwf h
    rcases hdisj with ⟨hret, _⟩ | ⟨_, hAB, _, _, _, hbr⟩
    · exact absurd hret.symm Bool.false_ne_true
    · refine ⟨rA, rB, hreachA, hreachB, hAB, fun hk => ?_⟩
      rcases hbr with ⟨hlt, _⟩ | ⟨hlt, _⟩ | ⟨_, hilt, hstep, _⟩ |
          ⟨_, hilt, hstep, _⟩
      · exact absurd hk (ne_of_lt hlt)
      · exact absurd hk.symm (ne_of_lt hlt)
      · exact ⟨fun _ => hstep, fun hBA => absurd hilt (by omega)⟩
      · exact ⟨fun hABlt => absurd hilt (by omega), fun _ => hstep⟩
  · intro fuel s s' a b hwf h
    obtain ⟨_, _, _, _, rA, rB, hreachA, hreachB, hdisj⟩ :=
      UnionFindParallelLockFreeIPC.unionSets_spec_ipc hwf h
    rcases hdisj with ⟨hret, _⟩ | ⟨_, hAB, _, _, _, hbr⟩
    · exact absurd hret.symm Bool.false_ne_true
    · refine ⟨rA, rB, hreachA, hreachB, hAB, fun hk => ?_⟩
      rcases hbr with ⟨hlt, _⟩ | ⟨hlt, _⟩ | ⟨_, hilt, hstep, _⟩ |
          ⟨_, hilt, hstep, _⟩
      · exact absurd hk (ne_of_lt hlt)
      · exact absurd hk.symm (ne_of_lt hlt)
      · exact ⟨fun _ => hstep, fun hBA => absurd hilt (by omega)⟩
      · exact ⟨fun hABlt => absurd hilt (by omega), fun _ => hstep⟩

/-- Witness for the amended C3: the lock-free equal-rank merge on the
fresh 2-element structure. -/
theorem claim_C3_witness :
    ∃ rA rB : Nat,
      reachesRoot (absP (UnionFindParallelLockFree.init 2).A)
        (Int.toNat 0) rA ∧
      reachesRoot (absP (UnionFindParallelLockFree.init 2).A)
        (Int.toNat 1) rB ∧ rA ≠ rB ∧
      (get_rank ((UnionFindParallelLockFree.init 2).A.getD rA (-1)) =
          get_rank ((UnionFindParallelLockFree.init 2).A.getD rB (-1)) →
        (rA < rB →
          parentStep (absP (LFState.mk 2 #[1, -2]).A) rA = rB) ∧
        (rB < rA →
          parentStep (absP (LFState.mk 2 #[1, -2]).A) rB = rA)) :=
  claim_C3_amended.1 2 (UnionFindParallelLockFree.init 2)
    (LFState.mk 2 #[1, -2]) 0 1 (UnionFindParallelLockFree.WF_init_lf 2)
    (by decide)

namespace UnionFind

theorem find_oob_seq {fuel : Nat} {s : UnionFind} {a : Int}
    (hna : ¬ inBounds s.num_elements a) :
    find fuel s a = some (.error .outOfBounds) := by
  rw [find, if_neg hna]

theorem unionSets_oob_seq {fuel : Nat} {s : UnionFind} {a b : Int}
    (hn : ¬ inBounds s.num_elements a ∨ ¬ inBounds s.num_elements b) :
    unionSets fuel s a b = some (.error .outOfBounds) := by
  rw [unionSets, if_neg (by tauto)]

theorem sameSet_oob_seq {fuel : Nat} {s : UnionFind} {a b : Int}
    (hn : ¬ inBounds s.num_elements a ∨ ¬ inBounds s.num_elements b) :
    sameSet fuel s a b = some (.error .outOfBounds) := by
  rw [sameSet, if_neg (by tauto)]

theorem find_ok_seq {fuel : Nat} {s : UnionFind} {a : Int}
    {r' : Except UFError (UnionFind × Int)}
    (ha : inBounds s.num_elements a) (h : find fuel s a = some r') :
    ∃ x, r' = .ok x := by
  rw [find, if_pos ha] at h
  repeat'
    first
      | split at h
      | dsimp only [] at h
  all_goals
    first
      | (injection h with h2; exact ⟨_, h2.symm⟩)
      | injection h

theorem unionSets_ok_seq {fuel : Nat} {s : UnionFind} {a b : Int}
    {r' : Except UFError (UnionFind × Bool)}
    (ha : inBounds s.num_elements a) (hb : inBounds s.num_elements b)
    (h : unionSets fuel s a b = some r') : ∃ x, r' = .ok x := by
  rw [unionSets, if_pos ⟨ha, hb⟩] at h
  repeat'
    first
      | split at h
      | dsimp only [] at h
  all_goals
    first
      | (injection h with h2; exact ⟨_, h2.symm⟩)
      | injection h

theorem sameSet_ok_seq {fuel : Nat} {s : UnionFind} {a b : Int}
    {r' : Except UFError (UnionFind × Bool)}
    (ha : inBounds s.num_elements a) (hb : inBounds s.num_elements b)
    (h : sameSet fuel s a b = some r') : ∃ x, r' = .ok x := by
  rw [sameSet, if_pos ⟨ha, hb⟩] at h
  repeat'
    first
      | split at h
      | dsimp only [] at h
  all_goals
    first
      | (injection h with h2; exact ⟨_, h2.symm⟩)
      | injection h

end UnionFind

namespace UnionFindParallelFine

theorem find_oob_fine {fuel : Nat} {s : UnionFind} {a : Int}
    (hna : ¬ inBounds s.num_elements a) :
    find fuel s a = some (.error .outOfBounds) := by
  rw [find, if_neg hna]

theorem unionSets_oob_fine {fuel : Nat} {s : UnionFind} {a b : Int}
    (hn : ¬ inBounds s.num_elements a ∨ ¬ inBounds s.num_elements b) :
    unionSets fuel s a b = some (.error .outOfBounds) := by
  rw [unionSets, if_neg (by tauto)]

theorem sameSet_oob_fine {fuel : Nat} {s : UnionFind} {a b : Int}
    (hn : ¬ inBounds s.num_elements a ∨ ¬ inBounds s.num_elements b) :
    sameSet fuel s a b = some (.error .outOfBounds) := by
  rw [sameSet, if_neg (by tauto)]

theorem find_ok_fine {fuel : Nat} {s : UnionFind} {a : Int}
    {r' : Except UFError (UnionFind × Int)}
    (ha : inBounds s.num_elements a) (h : find fuel s a = some r') :
    ∃ x, r' = .ok x := by
  rw [find, if_pos ha] at h
  repeat'
    first
      | split at h
      | dsimp only [] at h
  all_goals
    first
      | (injection h with h2; exact ⟨_, h2.symm⟩)
      | injection h

theorem unionSets_ok_fine {fuel : Nat} {s : UnionFind} {a b : Int}
    {r' : Except UFError (UnionFind × Bool)}
    (ha : inBounds s.num_elements a) (hb : inBounds s.num_elements b)
    (h : unionSets fuel s a b = some r') : ∃ x, r' = .ok x := by
  rw [unionSets, if_pos ⟨ha, hb⟩] at h
  repeat'
    first
      | split at h
      | dsimp only [] at h
  all_goals
    first
      | (injection h with h2; exact ⟨_, h2.symm⟩)
      | injection h

theorem sameSet_ok_fine {fuel : Nat} {s : UnionFind} {a b : Int}
    {r' : Except UFError (UnionFind × Bool)}
    (ha : inBounds s.num_elements a) (hb : inBounds s.num_elements b)
    (h : sameSet fuel s a b = some r') : ∃ x, r' = .ok x := by
  rw [sameSet, if_pos ⟨ha, hb⟩] at h
  repeat'
    first
      | split at h
      | dsimp only [] at h
  all_goals
    first
      | (injection h with h2; exact ⟨_, h2.symm⟩)
      | injection h

end UnionFindParallelFine

namespace UnionFindParallelLockFree

theorem find_oob_lf {fuel : Nat} {s : LFState} {a : Int}
    (hna : ¬ inBounds s.n_elements a) :
    find fuel s a = some (.error .outOfBounds) := by
  rw [find, if_pos (by unfold inBounds at hna; omega)]

theorem unionSets_oob_lf {fuel : Nat} {s : LFState} {a b : Int}
    (hn : ¬ inBounds s.n_elements a ∨ ¬ inBounds s.n_elements b) :
    unionSets fuel s a b = some (.error .outOfBounds) := by
  rw [unionSets, if_pos (by unfold inBounds at hn; omega)]

theorem sameSet_oob_lf {fuel : Nat} {s : LFState} {a b : Int}
    (hn : ¬ inBounds s.n_elements a ∨ ¬ inBounds s.n_elements b) :
    sameSet fuel s a b = some (.error .outOfBounds) := by
  rw [sameSet, if_pos (by unfold inBounds at hn; omega)]

theorem find_ok_lf {fuel : Nat} {s : LFState} {a : Int}
    {r' : Except UFError (LFState × Int)}
    (ha : inBounds s.n_elements a) (h : find fuel s a = some r') :
    ∃ x, r' = .ok x := by
  rw [find, if_neg (by unfold inBounds at ha; omega)] at h
  repeat'
    first
      | split at h
      | dsimp only [] at h
  all_goals
    first
      | (injection h with h2; exact ⟨_, h2.symm⟩)
      | injection h

theorem unionSets_ok_lf {fuel : Nat} {s : LFState} {a b : Int}
    {r' : Except UFError (LFState × Bool)}
    (ha : inBounds s.n_elements a) (hb : inBounds s.n_elements b)
    (h : unionSets fuel s a b = some r') : ∃ x, r' = .ok x := by
  rw [unionSets, if_neg (by unfold inBounds at ha hb; omega)] at h
  repeat'
    first
      | split at h
      | dsimp only [] at h
  all_goals
    first
      | (injection h with h2; exact ⟨_, h2.symm⟩)
      | injection h

theorem sameSet_ok_lf {fuel : Nat} {s : LFState} {a b : Int}
    {r' : Except UFError (LFState × Bool)}
    (ha : inBounds s.n_elements a) (hb : inBounds s.n_elements b)
    (h : sameSet fuel s a b = some r') : ∃ x, r' = .ok x := by
  rw [sameSet, if_neg (by unfold inBounds at ha hb; omega)] at h
  repeat'
    first
      | split at h
      | dsimp only [] at h
  all_goals
    first
      | (injection h with h2; exact ⟨_, h2.symm⟩)
      | injection h

end UnionFindParallelLockFree

namespace UnionFindParallelLockFreeIPC

theorem unionSets_oob_ipc {fuel : Nat} {s : LFState} {a b : Int}
    (hn : ¬ inBounds s.n_elements a ∨ ¬ inBounds s.n_elements b) :
    unionSets fuel s a b = some (.error .outOfBounds) := by
  rw [unionSets, if_pos (by unfold inBounds at hn; omega)]

theorem sameSet_oob_ipc {fuel : Nat} {s : LFState} {a b : Int}
    (hn : ¬ inBounds s.n_elements a ∨ ¬ inBounds s.n_elements b) :
    sameSet fuel s a b = some (.error .outOfBounds) := by
  rw [sameSet, if_pos (by unfold inBounds at hn; omega)]

theorem unionSets_ok_ipc {fuel : Nat} {s : LFState} {a b : Int}
    {r' : Except UFError (LFState × Bool)}
    (ha : inBounds s.n_elements a) (hb : inBounds s.n_elements b)
    (h : unionSets fuel s a b = some r') : ∃ x, r' = .ok x := by
  rw [unionSets, if_neg (by unfold inBounds at ha hb; omega)] at h
  dsimp only [] at h
  by_cases hipc : 0 ≤ s.A.getD a.toNat (-1) ∧
      s.A.getD a.toNat (-1) = s.A.getD b.toNat (-1)
  · rw [if_pos hipc] at h
    injection h with h2
    exact ⟨_, h2.symm⟩
  · rw [if_neg hipc] at h
    cases hfa : find_internal fuel s.A a.toNat with
    | none => rw [hfa] at h; injection h
    | some pra =>
      obtain ⟨A₁, rA⟩ := pra
      rw [hfa] at h
      dsimp only [] at h
      cases hfb : find_internal fuel A₁ b.toNat with
      | none => rw [hfb] at h; injection h
      | some prb =>
        obtain ⟨A₂, rB⟩ := prb
        rw [hfb] at h
        dsimp only [] at h
        by_cases hra : 0 ≤ A₂.getD rA (-1)
        · rw [if_pos hra] at h; injection h
        · rw [if_neg hra] at h
          by_cases hrb : 0 ≤ A₂.getD rB (-1)
          · rw [if_pos hrb] at h; injection h
          · rw [if_neg hrb] at h
            by_cases hrr : rA = rB
            · rw [if_pos hrr] at h
              injection h with h2
              exact ⟨_, h2.symm⟩
            · rw [if_neg hrr] at h
              injection h with h2
              exact ⟨_, h2.symm⟩

theorem sameSet_ok_ipc {fuel : Nat} {s : LFState} {a b : Int}
    {r' : Except UFError (LFState × Bool)}
    (ha : inBounds s.n_elements a) (hb : inBounds s.n_elements b)
    (h : sameSet fuel s a b = some r') : ∃ x, r' = .ok x := by
  rw [sameSet, if_neg (by unfold inBounds at ha hb; omega)] at h
  dsimp only [] at h
  by_cases hab : a = b
  · rw [if_pos hab] at h
    injection h with h2
    exact ⟨_, h2.symm⟩
  · rw [if_neg hab] at h
    by_cases hipc : 0 ≤ s.A.getD a.toNat (-1) ∧
        s.A.getD a.toNat (-1) = s.A.getD b.toNat (-1)
    · rw [if_pos hipc] at h
      injection h with h2
      exact ⟨_, h2.symm⟩
    · rw [if_neg hipc] at h
      cases hfa : find_internal fuel s.A a.toNat with
      | none => rw [hfa] at h; injection h
      | some pra =>
        obtain ⟨A₁, rA⟩ := pra
        rw [hfa] at h
        dsimp only [] at h
        cases hfb : find_internal fuel A₁ b.toNat with
        | none => rw [hfb] at h; injection h
        | some prb =>
          obtain ⟨A₂, rB⟩ := prb
          rw [hfb] at h
          dsimp only [] at h
          by_cases hrr : rA = rB
          · rw [if_pos hrr] at h
            injection h with h2
            exact ⟨_, h2.symm⟩
          · rw [if_neg hrr] at h
            by_cases hva : A₂.getD rA (-1) < 0
            · rw [if_pos hva] at h
              injection h with h2
              exact ⟨_, h2.symm⟩
            · rw [if_neg hva] at h; injection h

end UnionFindParallelLockFreeIPC

/-- Claim C4: for every engine, calling `find`, `unionSets` or `sameSet`
with an argument `a` (or `b`, when the operation uses `b`) outside
`[0, N)` fails with the OutOfBounds error — an assertion failure for the
sequential/coarse/fine engines, `std::out_of_range` for the lock-free
ones, both modelled as `UFError.outOfBounds` — rather than returning a
normal result; and a call whose arguments are all in bounds never produces
this error. -/
theorem claim_C4 :
    (∀ fuel (s : UnionFind) a, ¬ inBounds s.num_elements a →
      UnionFind.find fuel s a = some (.error .outOfBounds)) ∧
    (∀ fuel (s : UnionFind) a b,
      ¬ inBounds s.num_elements a ∨ ¬ inBounds s.num_elements b →
      UnionFind.unionSets fuel s a b = some (.error .outOfBounds)) ∧
    (∀ fuel (s : UnionFind) a b,
      ¬ inBounds s.num_elements a ∨ ¬ inBounds s.num_elements b →
      UnionFind.sameSet fuel s a b = some (.error .outOfBounds)) ∧
    (∀ fuel (s : UnionFind) a r', inBounds s.num_elements a →
      UnionFind.find fuel s a = some r' → ∃ x, r' = .ok x) ∧
    (∀ fuel (s : UnionFind) a b r', inBounds s.num_elements a →
      inBounds s.num_elements b →
      UnionFind.unionSets fuel s a b = some r' → ∃ x, r' = .ok x) ∧
    (∀ fuel (s : UnionFind) a b r', inBounds s.num_elements a →
      inBounds s.num_elements b →
      UnionFind.sameSet fuel s a b = some r' → ∃ x, r' = .ok x) ∧
    (∀ fuel (s : UnionFind) a, ¬ inBounds s.num_elements a →
      UnionFindParallelCoarse.find fuel s a =
        some (.error .outOfBounds)) ∧
    (∀ fuel (s : UnionFind) a b,
      ¬ inBounds s.num_elements a ∨ ¬ inBounds s.num_elements b →
      UnionFindParallelCoarse.unionSets fuel s a b =
        some (.error .outOfBounds)) ∧
    (∀ fuel (s : UnionFind) a b,
      ¬ inBounds s.num_elements a ∨ ¬ inBounds s.num_elements b →
      UnionFindParallelCoarse.sameSet fuel s a b =
        some (.error .outOfBounds)) ∧
    (∀ fuel (s : UnionFind) a r', inBounds s.num_elements a →
      UnionFindParallelCoarse.find fuel s a = some r' → ∃ x, r' = .ok x) ∧
    (∀ fuel (s : UnionFind) a b r', inBounds s.num_elements a →
      inBounds s.num_elements b →
      UnionFindParallelCoarse.unionSets fuel s a b = some r' →
      ∃ x, r' = .ok x) ∧
    (∀ fuel (s : UnionFind) a b r', inBounds s.num_elements a →
      inBounds s.num_elements b →
      UnionFindParallelCoarse.sameSet fuel s a b = some r' →
      ∃ x, r' = .ok x) ∧
    (∀ fuel (s : UnionFind) a, ¬ inBounds s.num_elements a →
      UnionFindParallelFine.find fuel s a = some (.error .outOfBounds)) ∧
    (∀ fuel (s : UnionFind) a b,
      ¬ inBounds s.num_elements a ∨ ¬ inBounds s.num_elements b →
      UnionFindParallelFine.unionSets fuel s a b =
        some (.error .outOfBounds)) ∧
    (∀ fuel (s : UnionFind) a b,
      ¬ inBounds s.num_elements a ∨ ¬ inBounds s.num_elements b →
      UnionFindParallelFine.sameSet fuel s a b =
        some (.error .outOfBounds)) ∧
    (∀ fuel (s : UnionFind) a r', inBounds s.num_elements a →
      UnionFindParallelFine.find fuel s a = some r' → ∃ x, r' = .ok x) ∧
    (∀ fuel (s : UnionFind) a b r', inBounds s.num_elements a →
      inBounds s.num_elements b →
      UnionFindParallelFine.unionSets fuel s a b = some r' →
      ∃ x, r' = .ok x) ∧
    (∀ fuel (s : UnionFind) a b r', inBounds s.num_elements a →
      inBounds s.num_elements b →
      UnionFindParallelFine.sameSet fuel s a b = some r' →
      ∃ x, r' = .ok x) ∧
    (∀ fuel (s : LFState) a, ¬ inBounds s.n_elements a →
      UnionFindParallelLockFree.find fuel s a =
        some (.error .outOfBounds)) ∧
    (∀ fuel (s : LFState) a b,
      ¬ inBounds s.n_elements a ∨ ¬ inBounds s.n_elements b →
      UnionFindParallelLockFree.unionSets fuel s a b =
        some (.error .outOfBounds)) ∧
    (∀ fuel (s : LFState) a b,
      ¬ inBounds s.n_elements a ∨ ¬ inBounds s.n_elements b →
      UnionFindParallelLockFree.sameSet fuel s a b =
        some (.error .outOfBounds)) ∧
    (∀ fuel (s : LFState) a r', inBounds s.n_elements a →
      UnionFindParallelLockFree.find fuel s a = some r' →
      ∃ x, r' = .ok x) ∧
    (∀ fuel (s : LFState) a b r', inBounds s.n_elements a →
      inBounds s.n_elements b →
      UnionFindParallelLockFree.unionSets fuel s a b = some r' →
      ∃ x, r' = .ok x) ∧
    (∀ fuel (s : LFState) a b r', inBounds s.n_elements a →
      inBounds s.n_elements b →
      UnionFindParallelLockFree.sameSet fuel s a b = some r' →
      ∃ x, r' = .ok x) ∧
    (∀ fuel (s : LFState) a, ¬ inBounds s.n_elements a →
      UnionFindParallelLockFreePlainWrite.find fuel s a =
        some (.error .outOfBounds)) ∧
    (∀ fuel (s : LFState) a b,
      ¬ inBounds s.n_elements a ∨ ¬ inBounds s.n_elements b →
      UnionFindParallelLockFreePlainWrite.unionSets fuel s a b =
        some (.error .outOfBounds)) ∧
    (∀ fuel (s : LFState) a b,
      ¬ inBounds s.n_elements a ∨ ¬ inBounds s.n_elements b →
      UnionFindParallelLockFreePlainWrite.sameSet fuel s a b =
        some (.error .outOfBounds)) ∧
    (∀ fuel (s : LFState) a r', inBounds s.n_elements a →
      UnionFindParallelLockFreePlainWrite.find fuel s a = some r' →
      ∃ x, r' = .ok x) ∧
    (∀ fuel (s : LFState) a b r', inBounds s.n_elements a →
      inBounds s.n_elements b →
      UnionFindParallelLockFreePlainWrite.unionSets fuel s a b = some r' →
      ∃ x, r' = .ok x) ∧
    (∀ fuel (s : LFState) a b r', inBounds s.n_elements a →
      inBounds s.n_elements b →
      UnionFindParallelLockFreePlainWrite.sameSet fuel s a b = some r' →
      ∃ x, r' = .ok x) ∧
    (∀ fuel (s : LFState) a, ¬ inBounds s.n_elements a →
      UnionFindParallelLockFreeIPC.find fuel s a =
        some (.error .outOfBounds)) ∧
    (∀ fuel (s : LFState) a b,
      ¬ inBounds s.n_elements a ∨ ¬ inBounds s.n_elements b →
      UnionFindParallelLockFreeIPC.unionSets fuel s a b =
        some (.error .outOfBounds)) ∧
    (∀ fuel (s : LFState) a b,
      ¬ inBounds s.n_elements a ∨ ¬ inBounds s.n_elements b →
      UnionFindParallelLockFreeIPC.sameSet fuel s a b =
        some (.error .outOfBounds)) ∧
    (∀ fuel (s : LFState) a r', inBounds s.n_elements a →
      UnionFindParallelLockFreeIPC.find fuel s a = some r' →
      ∃ x, r' = .ok x) ∧
    (∀ fuel (s : LFState) a b r', inBounds s.n_elements a →
      inBounds s.n_elements b →
      UnionFindParallelLockFreeIPC.unionSets fuel s a b = some r' →
      ∃ x, r' = .ok x) ∧
    (∀ fuel (s : LFState) a b r', inBounds s.n_elements a →
      inBounds s.n_elements b →
      UnionFindParallelLockFreeIPC.sameSet fuel s a b = some r' →
      ∃ x, r' = .ok x) :=
  ⟨fun _ _ _ h => UnionFind.find_oob_seq h,
   fun _ _ _ _ h => UnionFind.unionSets_oob_seq h,
   fun _ _ _ _ h => UnionFind.sameSet_oob_seq h,
   fun _ _ _ _ ha h => UnionFind.find_ok_seq ha h,
   fun _ _ _ _ _ ha hb h => UnionFind.unionSets_ok_seq ha hb h,
   fun _ _ _ _ _ ha hb h => UnionFind.sameSet_ok_seq ha hb h,
   fun _ _ _ h => UnionFind.find_oob_seq h,
   fun _ _ _ _ h => UnionFind.unionSets_oob_seq h,
   fun _ _ _ _ h => UnionFind.sameSet_oob_seq h,
   fun _ _ _ _ ha h => UnionFind.find_ok_seq ha h,
   fun _ _ _ _ _ ha hb h => UnionFind.unionSets_ok_seq ha hb h,
   fun _ _ _ _ _ ha hb h => UnionFind.sameSet_ok_seq ha hb h,
   fun _ _ _ h => UnionFindParallelFine.find_oob_fine h,
   fun _ _ _ _ h => UnionFindParallelFine.unionSets_oob_fine h,
   fun _ _ _ _ h => UnionFindParallelFine.sameSet_oob_fine h,
   fun _ _ _ _ ha h => UnionFindParallelFine.find_ok_fine ha h,
   fun _ _ _ _ _ ha hb h => UnionFindParallelFine.unionSets_ok_fine ha hb h,
   fun _ _ _ _ _ ha hb h => UnionFindParallelFine.sameSet_ok_fine ha hb h,
   fun _ _ _ h => UnionFindParallelLockFree.find_oob_lf h,
   fun _ _ _ _ h => UnionFindParallelLockFree.unionSets_oob_lf h,
   fun _ _ _ _ h => UnionFindParallelLockFree.sameSet_oob_lf h,
   fun _ _ _ _ ha h => UnionFindParallelLockFree.find_ok_lf ha h,
   fun _ _ _ _ _ ha hb h => UnionFindParallelLockFree.unionSets_ok_lf ha hb h,
   fun _ _ _ _ _ ha hb h => UnionFindParallelLockFree.sameSet_ok_lf ha hb h,
   fun _ _ _ h => UnionFindParallelLockFree.find_oob_lf h,
   fun _ _ _ _ h => UnionFindParallelLockFree.unionSets_oob_lf h,
   fun _ _ _ _ h => UnionFindParallelLockFree.sameSet_oob_lf h,
   fun _ _ _ _ ha h => UnionFindParallelLockFree.find_ok_lf ha h,
   fun _ _ _ _ _ ha hb h => UnionFindParallelLockFree.unionSets_ok_lf ha hb h,
   fun _ _ _ _ _ ha hb h => UnionFindParallelLockFree.sameSet_ok_lf ha hb h,
   fun _ _ _ h => UnionFindParallelLockFree.find_oob_lf h,
   fun _ _ _ _ h => UnionFindParallelLockFreeIPC.unionSets_oob_ipc h,
   fun _ _ _ _ h => UnionFindParallelLockFreeIPC.sameSet_oob_ipc h,
   fun _ _ _ _ ha h => UnionFindParallelLockFree.find_ok_lf ha h,
   fun _ _ _ _ _ ha hb h => UnionFindParallelLockFreeIPC.unionSets_ok_ipc ha hb h,
   fun _ _ _ _ _ ha hb h => UnionFindParallelLockFreeIPC.sameSet_ok_ipc ha hb h⟩

/-- Witness for C4: an out-of-bounds `find` on the sequential and
lock-free engines errors, and an in-bounds lock-free `find` returns
normally. -/
theorem claim_C4_witness :
    UnionFind.find 1 (UnionFind.init 2) 5 = some (.error .outOfBounds) ∧
    UnionFindParallelLockFree.find 1 (UnionFindParallelLockFree.init 2)
      (-1) = some (.error .outOfBounds) ∧
    ∃ x, (Except.ok (UnionFindParallelLockFree.init 2, (0 : Int)) :
      Except UFError (LFState × Int)) = .ok x := by
  refine ⟨?_, ?_, ?_⟩
  · exact claim_C4.1 1 (UnionFind.init 2) 5 (by decide)
  · exact claim_C4.2.2.2.2.2.2.2.2.2.2.2.2.2.2.2.2.2.2.1 1
      (UnionFindParallelLockFree.init 2) (-1) (by decide)
  · exact claim_C4.2.2.2.2.2.2.2.2.2.2.2.2.2.2.2.2.2.2.2.2.2.1 1
      (UnionFindParallelLockFree.init 2) 0 _ (by decide) (by decide)

/-- Counterexample to claim C5.  First conjunct: in the lock-free
engine's `processOperations`, an operation of unexpected kind (here
type 5) leaves its result slot at the resize default `0` — the dispatch
has no `else` branch writing `-2` — so the claimed sentinel `-2` is not
produced (second conjunct).  Third conjunct: in the sequential engine's
`processOperations`, an out-of-bounds operand hits `assert` (modelled as
the OutOfBounds error), aborting the whole batch: no `-1` sentinel is
recorded and the remaining operation is not executed. -/
theorem claim_C5_counterexample :
    UnionFindParallelLockFree.processOperations 2
      (UnionFindParallelLockFree.init 1) [Operation.mk 5 0 0] =
      some (UnionFindParallelLockFree.init 1, [0]) ∧
    (0 : Int) ≠ -2 ∧
    UnionFind.processOperations 2 (UnionFind.init 1)
      [Operation.mk FIND_OP 5 0, Operation.mk FIND_OP 0 0] =
      some (.error .outOfBounds) := by
  refine ⟨by decide, by decide, by decide⟩

/-- Amended claim C5.  Lock-free family (lock-free, plain-write, IPC
engines): an operation of unexpected kind leaves its result slot at the
default `0` and the batch continues; an operation any of whose operands
(`a`, or also `b` for union/sameSet) is out of bounds yields the
sentinel `-1` and the batch continues (the `-2` sentinel is reserved
for generic exceptions, which no unexpected kind triggers — unknown
kinds are silently skipped).  Sequential/coarse/fine engines: an
out-of-bounds operand (`a`, or `b` of a union/sameSet) or an unexpected
kind hits an `assert`, aborting the entire batch (OutOfBounds resp.
AssertFailed); no sentinel is recorded and the remaining operations are
not executed. -/
theorem claim_C5_amended :
    (∀ fuel (s : LFState) op rest, op.type ≠ FIND_OP → op.type ≠ UNION_OP →
      op.type ≠ SAMESET_OP →
      UnionFindParallelLockFree.processOperations fuel s (op :: rest) =
        match UnionFindParallelLockFree.processOperations fuel s rest with
        | none => none
        | some (s', outs) => some (s', 0 :: outs)) ∧
    (∀ fuel (s : LFState) op rest, op.type = FIND_OP →
      ¬ inBounds s.n_elements op.a →
      UnionFindParallelLockFree.processOperations fuel s (op :: rest) =
        match UnionFindParallelLockFree.processOperations fuel s rest with
        | none => none
        | some (s', outs) => some (s', -1 :: outs)) ∧
    (∀ fuel (s : LFState) op rest, op.type = UNION_OP →
      ¬ inBounds s.n_elements op.a ∨ ¬ inBounds s.n_elements op.b →
      UnionFindParallelLockFree.processOperations fuel s (op :: rest) =
        match UnionFindParallelLockFree.processOperations fuel s rest with
        | none => none
        | some (s', outs) => some (s', -1 :: outs)) ∧
    (∀ fuel (s : LFState) op rest, op.type = SAMESET_OP →
      ¬ inBounds s.n_elements op.a ∨ ¬ inBounds s.n_elements op.b →
      UnionFindParallelLockFree.processOperations fuel s (op :: rest) =
        match UnionFindParallelLockFree.processOperations fuel s rest with
        | none => none
        | some (s', outs) => some (s', -1 :: outs)) ∧
    (∀ fuel (s : LFState) op rest, op.type ≠ FIND_OP → op.type ≠ UNION_OP →
      op.type ≠ SAMESET_OP →
      UnionFindParallelLockFreePlainWrite.processOperations fuel s
          (op :: rest) =
        match UnionFindParallelLockFreePlainWrite.processOperations fuel s
            rest with
        | none => none
        | some (s', outs) => some (s', 0 :: outs)) ∧
    (∀ fuel (s : LFState) op rest, op.type = FIND_OP →
      ¬ inBounds s.n_elements op.a →
      UnionFindParallelLockFreePlainWrite.processOperations fuel s
          (op :: rest) =
        match UnionFindParallelLockFreePlainWrite.processOperations fuel s
            rest with
        | none => none
        | some (s', outs) => some (s', -1 :: outs)) ∧
    (∀ fuel (s : LFState) op rest, op.type = UNION_OP →
      ¬ inBounds s.n_elements op.a ∨ ¬ inBounds s.n_elements op.b →
      UnionFindParallelLockFreePlainWrite.processOperations fuel s
          (op :: rest) =
        match UnionFindParallelLockFreePlainWrite.processOperations fuel s
            rest with
        | none => none
        | some (s', outs) => some (s', -1 :: outs)) ∧
    (∀ fuel (s : LFState) op rest, op.type = SAMESET_OP →
      ¬ inBounds s.n_elements op.a ∨ ¬ inBounds s.n_elements op.b →
      UnionFindParallelLockFreePlainWrite.processOperations fuel s
          (op :: rest) =
        match UnionFindParallelLockFreePlainWrite.processOperations fuel s
            rest with
        | none => none
        | some (s', outs) => some (s', -1 :: outs)) ∧
    (∀ fuel (s : LFState) op rest, op.type ≠ FIND_OP → op.type ≠ UNION_OP →
      op.type ≠ SAMESET_OP →
      UnionFindParallelLockFreeIPC.processOperations fuel s (op :: rest) =
        match UnionFindParallelLockFreeIPC.processOperations fuel s rest with
        | none => none
        | some (s', outs) => some (s', 0 :: outs)) ∧
    (∀ fuel (s : LFState) op rest, op.type = FIND_OP →
      ¬ inBounds s.n_elements op.a →
      UnionFindParallelLockFreeIPC.processOperations fuel s (op :: rest) =
        match UnionFindParallelLockFreeIPC.processOperations fuel s rest with
        | none => none
        | some (s', outs) => some (s', -1 :: outs)) ∧
    (∀ fuel (s : LFState) op rest, op.type = UNION_OP →
      ¬ inBounds s.n_elements op.a ∨ ¬ inBounds s.n_elements op.b →
      UnionFindParallelLockFreeIPC.processOperations fuel s (op :: rest) =
        match UnionFindParallelLockFreeIPC.processOperations fuel s rest with
        | none => none
        | some (s', outs) => some (s', -1 :: outs)) ∧
    (∀ fuel (s : LFState) op rest, op.type = SAMESET_OP →
      ¬ inBounds s.n_elements op.a ∨ ¬ inBounds s.n_elements op.b →
      UnionFindParallelLockFreeIPC.processOperations fuel s (op :: rest) =
        match UnionFindParallelLockFreeIPC.processOperations fuel s rest with
        | none => none
        | some (s', outs) => some (s', -1 :: outs)) ∧
    (∀ fuel (s : UnionFind) op rest, ¬ inBounds s.num_elements op.a →
      UnionFind.processOperations fuel s (op :: rest) =
        some (.error .outOfBounds)) ∧
    (∀ fuel (s : UnionFind) op rest, inBounds s.num_elements op.a →
      op.type ≠ FIND_OP → op.type ≠ UNION_OP → op.type ≠ SAMESET_OP →
      UnionFind.processOperations fuel s (op :: rest) =
        some (.error .assertFailed)) ∧
    (∀ fuel (s : UnionFind) op rest, op.type = UNION_OP →
      inBounds s.num_elements op.a → ¬ inBounds s.num_elements op.b →
      UnionFind.processOperations fuel s (op :: rest) =
        some (.error .outOfBounds)) ∧
    (∀ fuel (s : UnionFind) op rest, op.type = SAMESET_OP →
      inBounds s.num_elements op.a → ¬ inBounds s.num_elements op.b →
      UnionFind.processOperations fuel s (op :: rest) =
        some (.error .outOfBounds)) ∧
    (∀ fuel (s : UnionFind) op rest, ¬ inBounds s.num_elements op.a →
      UnionFindParallelCoarse.processOperations fuel s (op :: rest) =
        some (.error .outOfBounds)) ∧
    (∀ fuel (s : UnionFind) op rest, inBounds s.num_elements op.a →
      op.type ≠ FIND_OP → op.type ≠ UNION_OP → op.type ≠ SAMESET_OP →
      UnionFindParallelCoarse.processOperations fuel s (op :: rest) =
        some (.error .assertFailed)) ∧
    (∀ fuel (s : UnionFind) op rest, op.type = UNION_OP →
      inBounds s.num_elements op.a → ¬ inBounds s.num_elements op.b →
      UnionFindParallelCoarse.processOperations fuel s (op :: rest) =
        some (.error .outOfBounds)) ∧
    (∀ fuel (s : UnionFind) op rest, op.type = SAMESET_OP →
      inBounds s.num_elements op.a → ¬ inBounds s.num_elements op.b →
      UnionFindParallelCoarse.processOperations fuel s (op :: rest) =
        some (.error .outOfBounds)) ∧
    (∀ fuel (s : UnionFind) op rest, ¬ inBounds s.num_elements op.a →
      UnionFindParallelFine.processOperations fuel s (op :: rest) =
        some (.error .outOfBounds)) ∧
    (∀ fuel (s : UnionFind) op rest, inBounds s.num_elements op.a →
      op.type ≠ FIND_OP → op.type ≠ UNION_OP → op.type ≠ SAMESET_OP →
      UnionFindParallelFine.processOperations fuel s (op :: rest) =
        some (.error .assertFailed)) ∧
    (∀ fuel (s : UnionFind) op rest, op.type = UNION_OP →
      inBounds s.num_elements op.a → ¬ inBounds s.num_elements op.b →
      UnionFindParallelFine.processOperations fuel s (op :: rest) =
        some (.error .outOfBounds)) ∧
    (∀ fuel (s : UnionFind) op rest, op.type = SAMESET_OP →
      inBounds s.num_elements op.a → ¬ inBounds s.num_elements op.b →
      UnionFindParallelFine.processOperations fuel s (op :: rest) =
        some (.error .outOfBounds)) := by
  refine ⟨?_, ?_, ?_, ?_, ?_, ?_, ?_, ?_, ?_, ?_, ?_, ?_,
    ?_, ?_, ?_, ?_, ?_, ?_, ?_, ?_, ?_, ?_, ?_, ?_⟩
  · intro fuel s op rest h1 h2 h3
    rw [UnionFindParallelLockFree.processOperations, if_neg h1, if_neg h2,
      if_neg h3]
  · intro fuel s op rest hty hna
    rw [UnionFindParallelLockFree.processOperations, if_pos hty,
      UnionFindParallelLockFree.find_oob_lf hna]
  · intro fuel s op rest hty hn
    rw [UnionFindParallelLockFree.processOperations,
      if_neg (by rw [hty]; decide), if_pos hty,
      UnionFindParallelLockFree.unionSets_oob_lf hn]
  · intro fuel s op rest hty hn
    rw [UnionFindParallelLockFree.processOperations,
      if_neg (by rw [hty]; decide), if_neg (by rw [hty]; decide),
      if_pos hty, UnionFindParallelLockFree.sameSet_oob_lf hn]
  · intro fuel s op rest h1 h2 h3
    show UnionFindParallelLockFree.processOperations fuel s (op :: rest) = _
    rw [UnionFindParallelLockFree.processOperations, if_neg h1, if_neg h2,
      if_neg h3]
    rfl
  · intro fuel s op rest hty hna
    show UnionFindParallelLockFree.processOperations fuel s (op :: rest) = _
    rw [UnionFindParallelLockFree.processOperations, if_pos hty,
      UnionFindParallelLockFree.find_oob_lf hna]
    rfl
  · intro fuel s op rest hty hn
    show UnionFindParallelLockFree.processOperations fuel s (op :: rest) = _
    rw [UnionFindParallelLockFree.processOperations,
      if_neg (by rw [hty]; decide), if_pos hty,
      UnionFindParallelLockFree.unionSets_oob_lf hn]
    rfl
  · intro fuel s op rest hty hn
    show UnionFindParallelLockFree.processOperations fuel s (op :: rest) = _
    rw [UnionFindParallelLockFree.processOperations,
      if_neg (by rw [hty]; decide), if_neg (by rw [hty]; decide),
      if_pos hty, UnionFindParallelLockFree.sameSet_oob_lf hn]
    rfl
  · intro fuel s op rest h1 h2 h3
    rw [UnionFindParallelLockFreeIPC.processOperations, if_neg h1, if_neg h2,
      if_neg h3]
  · intro fuel s op rest hty hna
    rw [UnionFindParallelLockFreeIPC.processOperations, if_pos hty]
    rw [show UnionFindParallelLockFreeIPC.find fuel s op.a =
      UnionFindParallelLockFree.find fuel s op.a from rfl]
    rw [UnionFindParallelLockFree.find_oob_lf hna]
  · intro fuel s op rest hty hn
    rw [UnionFindParallelLockFreeIPC.processOperations,
      if_neg (by rw [hty]; decide), if_pos hty,
      UnionFindParallelLockFreeIPC.unionSets_oob_ipc hn]
  · intro fuel s op rest hty hn
    rw [UnionFindParallelLockFreeIPC.processOperations,
      if_neg (by rw [hty]; decide), if_neg (by rw [hty]; decide),
      if_pos hty, UnionFindParallelLockFreeIPC.sameSet_oob_ipc hn]
  · intro fuel s op rest hna
    rw [UnionFind.processOperations, if_neg hna]
  · intro fuel s op rest ha h1 h2 h3
    rw [UnionFind.processOperations, if_pos ha, if_neg h2, if_neg h1,
      if_neg h3]
  · intro fuel s op rest hty ha hnb
    rw [UnionFind.processOperations, if_pos ha, if_pos hty, if_neg hnb]
  · intro fuel s op rest hty ha hnb
    rw [UnionFind.processOperations, if_pos ha,
      if_neg (by rw [hty]; decide), if_neg (by rw [hty]; decide),
      if_pos hty, if_neg hnb]
  · intro fuel s op rest hna
    show UnionFind.processOperations fuel s (op :: rest) = _
    rw [UnionFind.processOperations, if_neg hna]
  · intro fuel s op rest ha h1 h2 h3
    show UnionFind.processOperations fuel s (op :: rest) = _
    rw [UnionFind.processOperations, if_pos ha, if_neg h2, if_neg h1,
      if_neg h3]
  · intro fuel s op rest hty ha hnb
    show UnionFind.processOperations fuel s (op :: rest) = _
    rw [UnionFind.processOperations, if_pos ha, if_pos hty, if_neg hnb]
  · intro fuel s op rest hty ha hnb
    show UnionFind.processOperations fuel s (op :: rest) = _
    rw [UnionFind.processOperations, if_pos ha,
      if_neg (by rw [hty]; decide), if_neg (by rw [hty]; decide),
      if_pos hty, if_neg hnb]
  · intro fuel s op rest hna
    rw [UnionFindParallelFine.processOperations, if_neg hna]
  · intro fuel s op rest ha h1 h2 h3
    rw [UnionFindParallelFine.processOperations, if_pos ha, if_neg h2,
      if_neg h1, if_neg h3]
  · intro fuel s op rest hty ha hnb
    rw [UnionFindParallelFine.processOperations, if_pos ha, if_pos hty,
      if_neg hnb]
  · intro fuel s op rest hty ha hnb
    rw [UnionFindParallelFine.processOperations, if_pos ha,
      if_neg (by rw [hty]; decide), if_neg (by rw [hty]; decide),
      if_pos hty, if_neg hnb]

/-- Witness for the amended C5 at concrete inputs: an unknown-kind
operation in the lock-free engine's batch gets result `0` and the batch
continues (the following find still runs); a union with an out-of-bounds
`b` gets the sentinel `-1` and the batch continues; and in the
sequential engine an in-bounds unknown-kind operation aborts the batch
with the assert error. -/
theorem claim_C5_witness :
    (Operation.mk 5 0 0).type ≠ FIND_OP ∧
    (Operation.mk 5 0 0).type ≠ UNION_OP ∧
    (Operation.mk 5 0 0).type ≠ SAMESET_OP ∧
    inBounds (UnionFind.init 1).num_elements (Operation.mk 5 0 0).a ∧
    ¬ inBounds (UnionFindParallelLockFree.init 1).n_elements
      (Operation.mk UNION_OP 0 5).b ∧
    UnionFindParallelLockFree.processOperations 2
      (UnionFindParallelLockFree.init 1)
      (Operation.mk 5 0 0 :: [Operation.mk FIND_OP 0 0]) =
      (match UnionFindParallelLockFree.processOperations 2
          (UnionFindParallelLockFree.init 1) [Operation.mk FIND_OP 0 0] with
        | none => none
        | some (s', outs) => some (s', 0 :: outs)) ∧
    UnionFindParallelLockFree.processOperations 2
      (UnionFindParallelLockFree.init 1)
      (Operation.mk UNION_OP 0 5 :: [Operation.mk FIND_OP 0 0]) =
      (match UnionFindParallelLockFree.processOperations 2
          (UnionFindParallelLockFree.init 1) [Operation.mk FIND_OP 0 0] with
        | none => none
        | some (s', outs) => some (s', -1 :: outs)) ∧
    UnionFind.processOperations 2 (UnionFind.init 1)
      (Operation.mk 5 0 0 :: [Operation.mk FIND_OP 0 0]) =
      some (.error .assertFailed) := by
  refine ⟨by decide, by decide, by decide, by decide, by decide,
    ?_, ?_, ?_⟩
  · exact claim_C5_amended.1 2 (UnionFindParallelLockFree.init 1)
      (Operation.mk 5 0 0) [Operation.mk FIND_OP 0 0]
      (by decide) (by decide) (by decide)
  · exact claim_C5_amended.2.2.1 2 (UnionFindParallelLockFree.init 1)
      (Operation.mk UNION_OP 0 5) [Operation.mk FIND_OP 0 0]
      (by decide) (Or.inr (by decide))
  · exact claim_C5_amended.2.2.2.2.2.2.2.2.2.2.2.2.2.1 2 (UnionFind.init 1)
      (Operation.mk 5 0 0) [Operation.mk FIND_OP 0 0]
      (by decide) (by decide) (by decide) (by decide)

/-- `sameSet` monotonicity for the separated-layout engines: once a
completed `sameSet` answers `true`, it answers `true` again after any
completed batch of further operations. -/
theorem seq_sameSet_monotone {f₁ f₂ f₃ : Nat} {s s₁ s₂ s₃ : UnionFind}
    {a b : Int} {ops : List Operation} {outs : List Int} {ret : Bool}
    (hwf : UnionFind.WF s)
    (h1 : UnionFind.sameSet f₁ s a b = some (.ok (s₁, true)))
    (h2 : UnionFind.processOperations f₂ s₁ ops = some (.ok (s₂, outs)))
    (h3 : UnionFind.sameSet f₃ s₂ a b = some (.ok (s₃, ret))) :
    ret = true := by
  obtain ⟨ha, hb, hwf₁, hn₁, hrk₁, hre₁, hroot₁, hiff₁⟩ :=
    UnionFind.sameSet_spec_seq hwf h1
  have hsr : sameRoot s.parent a.toNat b.toNat := hiff₁.mp rfl
  have hsr₁ : sameRoot s₁.parent a.toNat b.toNat := by
    obtain ⟨r, hu, hv⟩ := hsr
    exact ⟨r, (hre₁ _ _).mpr hu, (hre₁ _ _).mpr hv⟩
  obtain ⟨hwf₂, hn₂, hmono, hlen, hcnt⟩ :=
    UnionFind.processOperations_spec_seq hwf₁ h2
  obtain ⟨ha₃, hb₃, hwf₃, hn₃, hrk₃, hre₃, hroot₃, hiff₃⟩ :=
    UnionFind.sameSet_spec_seq hwf₂ h3
  exact hiff₃.mpr (hmono _ _ hsr₁)

/-- `sameSet` monotonicity for the fine-lock engine. -/
theorem fine_sameSet_monotone {f₁ f₂ f₃ : Nat} {s s₁ s₂ s₃ : UnionFind}
    {a b : Int} {ops : List Operation} {outs : List Int} {ret : Bool}
    (hwf : UnionFind.WF s)
    (h1 : UnionFindParallelFine.sameSet f₁ s a b = some (.ok (s₁, true)))
    (h2 : UnionFindParallelFine.processOperations f₂ s₁ ops =
      some (.ok (s₂, outs)))
    (h3 : UnionFindParallelFine.sameSet f₃ s₂ a b = some (.ok (s₃, ret))) :
    ret = true := by
  obtain ⟨ha, hb, hwf₁, hn₁, hrk₁, hre₁, hroot₁, hiff₁⟩ :=
    UnionFindParallelFine.sameSet_spec_fine hwf h1
  have hsr : sameRoot s.parent a.toNat b.toNat := hiff₁.mp rfl
  have hsr₁ : sameRoot s₁.parent a.toNat b.toNat := by
    obtain ⟨r, hu, hv⟩ := hsr
    exact ⟨r, (hre₁ _ _).mpr hu, (hre₁ _ _).mpr hv⟩
  obtain ⟨hwf₂, hn₂, hmono, hlen, hcnt⟩ :=
    UnionFindParallelFine.processOperations_spec_fine hwf₁ h2
  obtain ⟨ha₃, hb₃, hwf₃, hn₃, hrk₃, hre₃, hroot₃, hiff₃⟩ :=
    UnionFindParallelFine.sameSet_spec_fine hwf₂ h3
  exact hiff₃.mpr (hmono _ _ hsr₁)

/-- `sameSet` monotonicity for the lock-free engine (and its plain-write
variant, whose operations are the same functions). -/
theorem lf_sameSet_monotone {f₁ f₂ f₃ : Nat} {s s₁ s₂ s₃ : LFState}
    {a b : Int} {ops : List Operation} {outs : List Int} {ret : Bool}
    (hwf : s.WF)
    (h1 : UnionFindParallelLockFree.sameSet f₁ s a b = some (.ok (s₁, true)))
    (h2 : UnionFindParallelLockFree.processOperations f₂ s₁ ops =
      some (s₂, outs))
    (h3 : UnionFindParallelLockFree.sameSet f₃ s₂ a b =
      some (.ok (s₃, ret))) :
    ret = true := by
  obtain ⟨ha, hb, hwf₁, hn₁, hre₁, hroot₁, hiff₁⟩ :=
    UnionFindParallelLockFree.sameSet_spec_lf hwf h1
  have hsr : sameRoot (absP s.A) a.toNat b.toNat := hiff₁.mp rfl
  have hsr₁ : sameRoot (absP s₁.A) a.toNat b.toNat := by
    obtain ⟨r, hu, hv⟩ := hsr
    exact ⟨r, (hre₁ _ _).mpr hu, (hre₁ _ _).mpr hv⟩
  obtain ⟨hwf₂, hn₂, hmono, hlen, hcnt⟩ :=
    UnionFindParallelLockFree.processOperations_spec_lf hwf₁ h2
  obtain ⟨ha₃, hb₃, hwf₃, hn₃, hre₃, hroot₃, hiff₃⟩ :=
    UnionFindParallelLockFree.sameSet_spec_lf hwf₂ h3
  exact hiff₃.mpr (hmono _ _ hsr₁)

/-- `sameSet` monotonicity for the IPC variant. -/
theorem ipc_sameSet_monotone {f₁ f₂ f₃ : Nat} {s s₁ s₂ s₃ : LFState}
    {a b : Int} {ops : List Operation} {outs : List Int} {ret : Bool}
    (hwf : s.WF)
    (h1 : UnionFindParallelLockFreeIPC.sameSet f₁ s a b =
      some (.ok (s₁, true)))
    (h2 : UnionFindParallelLockFreeIPC.processOperations f₂ s₁ ops =
      some (s₂, outs))
    (h3 : UnionFindParallelLockFreeIPC.sameSet f₃ s₂ a b =
      some (.ok (s₃, ret))) :
    ret = true := by
  obtain ⟨ha, hb, hwf₁, hn₁, hre₁, hroot₁, hiff₁⟩ :=
    UnionFindParallelLockFreeIPC.sameSet_spec_ipc hwf h1
  have hsr : sameRoot (absP s.A) a.toNat b.toNat := hiff₁.mp rfl
  have hsr₁ : sameRoot (absP s₁.A) a.toNat b.toNat := by
    obtain ⟨r, hu, hv⟩ := hsr
    exact ⟨r, (hre₁ _ _).mpr hu, (hre₁ _ _).mpr hv⟩
  obtain ⟨hwf₂, hn₂, hmono, hlen, hcnt⟩ :=
    UnionFindParallelLockFreeIPC.processOperations_spec_ipc hwf₁ h2
  obtain ⟨ha₃, hb₃, hwf₃, hn₃, hre₃, hroot₃, hiff₃⟩ :=
    UnionFindParallelLockFreeIPC.sameSet_spec_ipc hwf₂ h3
  exact hiff₃.mpr (hmono _ _ hsr₁)

/-- Claim C6: `sameSet` is monotone in the executed operations, for every
engine: starting from a well-formed state, once a completed `sameSet(a,b)`
returns `true`, every completed `sameSet(a,b)` after any completed batch
of further operations still returns `true` (sequential embedding). -/
theorem claim_C6 :
    (∀ f₁ f₂ f₃ (s s₁ s₂ s₃ : UnionFind) a b ops outs ret,
      UnionFind.WF s →
      UnionFind.sameSet f₁ s a b = some (.ok (s₁, true)) →
      UnionFind.processOperations f₂ s₁ ops = some (.ok (s₂, outs)) →
      UnionFind.sameSet f₃ s₂ a b = some (.ok (s₃, ret)) →
      ret = true) ∧
    (∀ f₁ f₂ f₃ (s s₁ s₂ s₃ : UnionFind) a b ops outs ret,
      UnionFind.WF s →
      UnionFindParallelCoarse.sameSet f₁ s a b = some (.ok (s₁, true)) →
      UnionFindParallelCoarse.processOperations f₂ s₁ ops =
        some (.ok (s₂, outs)) →
      UnionFindParallelCoarse.sameSet f₃ s₂ a b = some (.ok (s₃, ret)) →
      ret = true) ∧
    (∀ f₁ f₂ f₃ (s s₁ s₂ s₃ : UnionFind) a b ops outs ret,
      UnionFind.WF s →
      UnionFindParallelFine.sameSet f₁ s a b = some (.ok (s₁, true)) →
      UnionFindParallelFine.processOperations f₂ s₁ ops =
        some (.ok (s₂, outs)) →
      UnionFindParallelFine.sameSet f₃ s₂ a b = some (.ok (s₃, ret)) →
      ret = true) ∧
    (∀ f₁ f₂ f₃ (s s₁ s₂ s₃ : LFState) a b ops outs ret,
      s.WF →
      UnionFindParallelLockFree.sameSet f₁ s a b = some (.ok (s₁, true)) →
      UnionFindParallelLockFree.processOperations f₂ s₁ ops =
        some (s₂, outs) →
      UnionFindParallelLockFree.sameSet f₃ s₂ a b = some (.ok (s₃, ret)) →
      ret = true) ∧
    (∀ f₁ f₂ f₃ (s s₁ s₂ s₃ : LFState) a b ops outs ret,
      s.WF →
      UnionFindParallelLockFreePlainWrite.sameSet f₁ s a b =
        some (.ok (s₁, true)) →
      UnionFindParallelLockFreePlainWrite.processOperations f₂ s₁ ops =
        some (s₂, outs) →
      UnionFindParallelLockFreePlainWrite.sameSet f₃ s₂ a b =
        some (.ok (s₃, ret)) →
      ret = true) ∧
    (∀ f₁ f₂ f₃ (s s₁ s₂ s₃ : LFState) a b ops outs ret,
      s.WF →
      UnionFindParallelLockFreeIPC.sameSet f₁ s a b =
        some (.ok (s₁, true)) →
      UnionFindParallelLockFreeIPC.processOperations f₂ s₁ ops =
        some (s₂, outs) →
      UnionFindParallelLockFreeIPC.sameSet f₃ s₂ a b =
        some (.ok (s₃, ret)) →
      ret = true) :=
  ⟨fun _ _ _ _ _ _ _ _ _ _ _ _ hwf h1 h2 h3 =>
      seq_sameSet_monotone hwf h1 h2 h3,
   fun _ _ _ _ _ _ _ _ _ _ _ _ hwf h1 h2 h3 =>
      seq_sameSet_monotone hwf h1 h2 h3,
   fun _ _ _ _ _ _ _ _ _ _ _ _ hwf h1 h2 h3 =>
      fine_sameSet_monotone hwf h1 h2 h3,
   fun _ _ _ _ _ _ _ _ _ _ _ _ hwf h1 h2 h3 =>
      lf_sameSet_monotone hwf h1 h2 h3,
   fun _ _ _ _ _ _ _ _ _ _ _ _ hwf h1 h2 h3 =>
      lf_sameSet_monotone hwf h1 h2 h3,
   fun _ _ _ _ _ _ _ _ _ _ _ _ hwf h1 h2 h3 =>
      ipc_sameSet_monotone hwf h1 h2 h3⟩

/-- Witness for C6: on one element, `sameSet(0,0)` is `true`, stays
`true` after an empty batch. -/
theorem claim_C6_witness :
    UnionFind.WF (UnionFind.init 1) ∧
    UnionFind.sameSet 1 (UnionFind.init 1) 0 0 =
      some (.ok (UnionFind.init 1, true)) ∧
    UnionFind.processOperations 1 (UnionFind.init 1) [] =
      some (.ok (UnionFind.init 1, [])) ∧
    (true : Bool) = true := by
  refine ⟨UnionFind.WF_init_seq 1, by decide, by decide, ?_⟩
  exact claim_C6.1 1 1 1 (UnionFind.init 1) (UnionFind.init 1)
    (UnionFind.init 1) (UnionFind.init 1) 0 0 [] [] true
    (UnionFind.WF_init_seq 1) (by decide) (by decide) (by decide)

/-- Claim C7: for every engine, over any completed batch run from the
freshly constructed `N`-element structure, the number of `UNION_OP`
operations that returned `1` (a true union) plus the number of roots at
the end equals `N` — i.e. the count of true unions is `N` minus the
number of distinct sets at run end. -/
theorem claim_C7 :
    (∀ fuel N (s' : UnionFind) ops outs,
      UnionFind.processOperations fuel (UnionFind.init N) ops =
        some (.ok (s', outs)) →
      trueUnionCount ops outs + numRoots s'.parent = N) ∧
    (∀ fuel N (s' : UnionFind) ops outs,
      UnionFindParallelCoarse.processOperations fuel (UnionFind.init N)
        ops = some (.ok (s', outs)) →
      trueUnionCount ops outs + numRoots s'.parent = N) ∧
    (∀ fuel N (s' : UnionFind) ops outs,
      UnionFindParallelFine.processOperations fuel (UnionFind.init N) ops =
        some (.ok (s', outs)) →
      trueUnionCount ops outs + numRoots s'.parent = N) ∧
    (∀ fuel N (s' : LFState) ops outs,
      UnionFindParallelLockFree.processOperations fuel
        (UnionFindParallelLockFree.init N) ops = some (s', outs) →
      trueUnionCount ops outs + lfNumRoots s'.A = N) ∧
    (∀ fuel N (s' : LFState) ops outs,
      UnionFindParallelLockFreePlainWrite.processOperations fuel
        (UnionFindParallelLockFreePlainWrite.init N) ops =
        some (s', outs) →
      trueUnionCount ops outs + lfNumRoots s'.A = N) ∧
    (∀ fuel N (s' : LFState) ops outs,
      UnionFindParallelLockFreeIPC.processOperations fuel
        (UnionFindParallelLockFreeIPC.init N) ops = some (s', outs) →
      trueUnionCount ops outs + lfNumRoots s'.A = N) := by
  refine ⟨?_, ?_, ?_, ?_, ?_, ?_⟩
  · intro fuel N s' ops outs h
    have h5 :=
      (UnionFind.processOperations_spec_seq (UnionFind.WF_init_seq N) h).2.2.2.2
    rwa [show (UnionFind.init N).parent = Array.range N from rfl,
      numRoots_range] at h5
  · intro fuel N s' ops outs h
    have h' : UnionFind.processOperations fuel (UnionFind.init N) ops =
      some (.ok (s', outs)) := h
    have h5 :=
      (UnionFind.processOperations_spec_seq (UnionFind.WF_init_seq N) h').2.2.2.2
    rwa [show (UnionFind.init N).parent = Array.range N from rfl,
      numRoots_range] at h5
  · intro fuel N s' ops outs h
    have h5 := (UnionFindParallelFine.processOperations_spec_fine
      (UnionFind.WF_init_seq N) h).2.2.2.2
    rwa [show (UnionFind.init N).parent = Array.range N from rfl,
      numRoots_range] at h5
  · intro fuel N s' ops outs h
    have h5 := (UnionFindParallelLockFree.processOperations_spec_lf
      (UnionFindParallelLockFree.WF_init_lf N) h).2.2.2.2
    rwa [show (UnionFindParallelLockFree.init N).A =
      Array.mkArray N (make_root_val 0) from rfl, lfNumRoots_mkArray] at h5
  · intro fuel N s' ops outs h
    have h' : UnionFindParallelLockFree.processOperations fuel
        (UnionFindParallelLockFree.init N) ops = some (s', outs) := h
    have h5 := (UnionFindParallelLockFree.processOperations_spec_lf
      (UnionFindParallelLockFree.WF_init_lf N) h').2.2.2.2
    rwa [show (UnionFindParallelLockFree.init N).A =
      Array.mkArray N (make_root_val 0) from rfl, lfNumRoots_mkArray] at h5
  · intro fuel N s' ops outs h
    have h5 := (UnionFindParallelLockFreeIPC.processOperations_spec_ipc
      (UnionFindParallelLockFree.WF_init_lf N) h).2.2.2.2
    rwa [show (UnionFindParallelLockFree.init N).A =
      Array.mkArray N (make_root_val 0) from rfl, lfNumRoots_mkArray] at h5

/-- Witness for C7: a three-operation batch on two fresh elements —
union(0,1) succeeds (result 1), the repeat union fails (result 0), and
the final find completes — gives one true union and one remaining root:
1 + 1 = 2. -/
theorem claim_C7_witness :
    ∃ s' : UnionFind, ∃ outs : List Int,
      UnionFind.processOperations 2 (UnionFind.init 2)
        [Operation.mk UNION_OP 0 1, Operation.mk UNION_OP 0 1,
         Operation.mk FIND_OP 1 0] = some (.ok (s', outs)) ∧
      trueUnionCount [Operation.mk UNION_OP 0 1, Operation.mk UNION_OP 0 1,
         Operation.mk FIND_OP 1 0] outs + numRoots s'.parent = 2 := by
  refine ⟨UnionFind.mk #[0, 0] #[1, 0] 2, [1, 0, 0], ?_, ?_⟩
  · decide
  · exact claim_C7.1 2 2 (UnionFind.mk #[0, 0] #[1, 0] 2)
      [Operation.mk UNION_OP 0 1, Operation.mk UNION_OP 0 1,
       Operation.mk FIND_OP 1 0] [1, 0, 0] (by decide)

/-- Counterexample to claim C8: on the sequential engine, the state
reached from 4 fresh elements by union(0,1), union(2,3), union(1,3) has
parent array `[0, 0, 0, 2]`; the self-union union(3,3) then returns
`false` but path compression inside its `find(3)` rewrites the parent
array to `[0, 0, 0, 0]` — the state is not identical before and after
the call. -/
theorem claim_C8_counterexample :
    UnionFind.processOperations 4 (UnionFind.init 4)
      [Operation.mk UNION_OP 0 1, Operation.mk UNION_OP 2 3,
       Operation.mk UNION_OP 1 3] =
      some (.ok (UnionFind.mk #[0, 0, 0, 2] #[2, 0, 1, 0] 4,
        [1, 1, 1])) ∧
    UnionFind.unionSets 4 (UnionFind.mk #[0, 0, 0, 2] #[2, 0, 1, 0] 4)
      3 3 =
      some (.ok (UnionFind.mk #[0, 0, 0, 0] #[2, 0, 1, 0] 4, false)) ∧
    UnionFind.mk #[0, 0, 0, 0] #[2, 0, 1, 0] 4 ≠
      UnionFind.mk #[0, 0, 0, 2] #[2, 0, 1, 0] 4 := by
  refine ⟨by decide, by decide, by decide⟩

/-- Amended claim C8: for every engine and in-bounds `a`, a completed
`unionSets(a,a)` returns `false` and leaves the partition unchanged —
the element count, the set of classes (reachability to roots) and the
number of roots are preserved, and in the separated-layout engines also
the rank array — but the parent links themselves may change through
path compression. -/
theorem claim_C8_amended :
    (∀ fuel (s s' : UnionFind) a ret, UnionFind.WF s →
      UnionFind.unionSets fuel s a a = some (.ok (s', ret)) →
      ret = false ∧ s'.num_elements = s.num_elements ∧
      s'.rank = s.rank ∧
      (∀ i ρ, reachesRoot s'.parent i ρ ↔ reachesRoot s.parent i ρ) ∧
      numRoots s'.parent = numRoots s.parent) ∧
    (∀ fuel (s s' : UnionFind) a ret, UnionFind.WF s →
      UnionFindParallelCoarse.unionSets fuel s a a =
        some (.ok (s', ret)) →
      ret = false ∧ s'.num_elements = s.num_elements ∧
      s'.rank = s.rank ∧
      (∀ i ρ, reachesRoot s'.parent i ρ ↔ reachesRoot s.parent i ρ) ∧
      numRoots s'.parent = numRoots s.parent) ∧
    (∀ fuel (s s' : UnionFind) a ret, UnionFind.WF s →
      UnionFindParallelFine.unionSets fuel s a a =
        some (.ok (s', ret)) →
      ret = false ∧ s'.num_elements = s.num_elements ∧
      s'.rank = s.rank ∧
      (∀ i ρ, reachesRoot s'.parent i ρ ↔ reachesRoot s.parent i ρ) ∧
      numRoots s'.parent = numRoots s.parent) ∧
    (∀ fuel (s s' : LFState) a ret, s.WF →
      UnionFindParallelLockFree.unionSets fuel s a a =
        some (.ok (s', ret)) →
      ret = false ∧ s'.n_elements = s.n_elements ∧
      (∀ i ρ, reachesRoot (absP s'.A) i ρ ↔ reachesRoot (absP s.A) i ρ) ∧
      lfNumRoots s'.A = lfNumRoots s.A) ∧
    (∀ fuel (s s' : LFState) a ret, s.WF →
      UnionFindParallelLockFreePlainWrite.unionSets fuel s a a =
        some (.ok (s', ret)) →
      ret = false ∧ s'.n_elements = s.n_elements ∧
      (∀ i ρ, reachesRoot (absP s'.A) i ρ ↔ reachesRoot (absP s.A) i ρ) ∧
      lfNumRoots s'.A = lfNumRoots s.A) ∧
    (∀ fuel (s s' : LFState) a ret, s.WF →
      UnionFindParallelLockFreeIPC.unionSets fuel s a a =
        some (.ok (s', ret)) →
      ret = false ∧ s'.n_elements = s.n_elements ∧
      (∀ i ρ, reachesRoot (absP s'.A) i ρ ↔ reachesRoot (absP s.A) i ρ) ∧
      lfNumRoots s'.A = lfNumRoots s.A) := by
  have seq : ∀ fuel (s s' : UnionFind) a ret, UnionFind.WF s →
      UnionFind.unionSets fuel s a a = some (.ok (s', ret)) →
      ret = false ∧ s'.num_elements = s.num_elements ∧
      s'.rank = s.rank ∧
      (∀ i ρ, reachesRoot s'.parent i ρ ↔ reachesRoot s.parent i ρ) ∧
      numRoots s'.parent = numRoots s.parent := by
    intro fuel s s' a ret hwf h
    obtain ⟨ha, hb, hwf', hn, rA, rB, hra, hrb, hbr⟩ :=
      UnionFind.unionSets_spec_seq hwf h
    cases hbr with
    | inl hfa => exact ⟨hfa.1, hn, hfa.2.2.1, hfa.2.2.2.1, hfa.2.2.2.2⟩
    | inr htr => exact absurd (reachesRoot_unique hra hrb) htr.2.1
  have fine : ∀ fuel (s s' : UnionFind) a ret, UnionFind.WF s →
      UnionFindParallelFine.unionSets fuel s a a = some (.ok (s', ret)) →
      ret = false ∧ s'.num_elements = s.num_elements ∧
      s'.rank = s.rank ∧
      (∀ i ρ, reachesRoot s'.parent i ρ ↔ reachesRoot s.parent i ρ) ∧
      numRoots s'.parent = numRoots s.parent := by
    intro fuel s s' a ret hwf h
    obtain ⟨ha, hb, hwf', hn, rA, rB, hra, hrb, hbr⟩ :=
      UnionFindParallelFine.unionSets_spec_fine hwf h
    cases hbr with
    | inl hfa => exact ⟨hfa.1, hn, hfa.2.2.1, hfa.2.2.2.1, hfa.2.2.2.2⟩
    | inr htr => exact absurd (reachesRoot_unique hra hrb) htr.2.1
  have lf : ∀ fuel (s s' : LFState) a ret, s.WF →
      UnionFindParallelLockFree.unionSets fuel s a a =
        some (.ok (s', ret)) →
      ret = false ∧ s'.n_elements = s.n_elements ∧
      (∀ i ρ, reachesRoot (absP s'.A) i ρ ↔ reachesRoot (absP s.A) i ρ) ∧
      lfNumRoots s'.A = lfNumRoots s.A := by
    intro fuel s s' a ret hwf h
    obtain ⟨ha, hb, hwf', hn, rA, rB, hra, hrb, hbr⟩ :=
      UnionFindParallelLockFree.unionSets_spec_lf hwf h
    cases hbr with
    | inl hfa => exact ⟨hfa.1, hn, hfa.2.2.1, hfa.2.2.2⟩
    | inr htr => exact absurd (reachesRoot_unique hra hrb) htr.2.1
  have ipc : ∀ fuel (s s' : LFState) a ret, s.WF →
      UnionFindParallelLockFreeIPC.unionSets fuel s a a =
        some (.ok (s', ret)) →
      ret = false ∧ s'.n_elements = s.n_elements ∧
      (∀ i ρ, reachesRoot (absP s'.A) i ρ ↔ reachesRoot (absP s.A) i ρ) ∧
      lfNumRoots s'.A = lfNumRoots s.A := by
    intro fuel s s' a ret hwf h
    obtain ⟨ha, hb, hwf', hn, rA, rB, hra, hrb, hbr⟩ :=
      UnionFindParallelLockFreeIPC.unionSets_spec_ipc hwf h
    cases hbr with
    | inl hfa => exact ⟨hfa.1, hn, hfa.2.2.1, hfa.2.2.2⟩
    | inr htr => exact absurd (reachesRoot_unique hra hrb) htr.2.1
  exact ⟨seq, fun fuel s s' a ret hwf h => seq fuel s s' a ret hwf h,
    fine, lf, fun fuel s s' a ret hwf h => lf fuel s s' a ret hwf h, ipc⟩

/-- Witness for the amended C8: `unionSets(0,0)` on two fresh elements
returns `false` and preserves everything. -/
theorem claim_C8_witness :
    false = false ∧
    (UnionFind.init 2).num_elements = (UnionFind.init 2).num_elements ∧
    (UnionFind.init 2).rank = (UnionFind.init 2).rank ∧
    (∀ i ρ, reachesRoot (UnionFind.init 2).parent i ρ ↔
      reachesRoot (UnionFind.init 2).parent i ρ) ∧
    numRoots (UnionFind.init 2).parent =
      numRoots (UnionFind.init 2).parent :=
  claim_C8_amended.1 2 (UnionFind.init 2) (UnionFind.init 2) 0 false
    (UnionFind.WF_init_seq 2) (by decide)

/-- Claim C9: in every lock-free engine, a completed `sameSet(a,a)` on an
in-bounds `a` returns `true`.  For the plain lock-free engine and the
plain-write variant both finds reach the same root (given a well-formed
state); the IPC variant answers through its explicit `a == b` fast path,
returning `true` with the state untouched. -/
theorem claim_C9 :
    (∀ fuel (s s' : LFState) a ret, s.WF →
      UnionFindParallelLockFree.sameSet fuel s a a =
        some (.ok (s', ret)) → ret = true) ∧
    (∀ fuel (s s' : LFState) a ret, s.WF →
      UnionFindParallelLockFreePlainWrite.sameSet fuel s a a =
        some (.ok (s', ret)) → ret = true) ∧
    (∀ fuel (s : LFState) a, inBounds s.n_elements a →
      UnionFindParallelLockFreeIPC.sameSet fuel s a a =
        some (.ok (s, true))) := by
  have lf : ∀ fuel (s s' : LFState) a ret, s.WF →
      UnionFindParallelLockFree.sameSet fuel s a a =
        some (.ok (s', ret)) → ret = true := by
    intro fuel s s' a ret hwf h
    obtain ⟨ha, hb, hwf', hn, hre, hroot, hiff⟩ :=
      UnionFindParallelLockFree.sameSet_spec_lf hwf h
    exact hiff.mpr (sameRoot_refl hwf.2.2 a.toNat)
  refine ⟨lf, fun fuel s s' a ret hwf h => lf fuel s s' a ret hwf h, ?_⟩
  intro fuel s a ha
  rw [UnionFindParallelLockFreeIPC.sameSet,
    if_neg (by unfold inBounds at ha; omega)]
  dsimp only []
  rw [if_pos rfl]

/-- Witness for C9: `sameSet(1,1)` on two fresh elements answers `true`
in the lock-free engine and via the IPC fast path. -/
theorem claim_C9_witness :
    (true : Bool) = true ∧
    UnionFindParallelLockFreeIPC.sameSet 1
      (UnionFindParallelLockFree.init 2) 1 1 =
      some (.ok (UnionFindParallelLockFree.init 2, true)) := by
  refine ⟨?_, ?_⟩
  · exact claim_C9.1 1 (UnionFindParallelLockFree.init 2)
      (UnionFindParallelLockFree.init 2) 1 true
      (UnionFindParallelLockFree.WF_init_lf 2) (by decide)
  · exact claim_C9.2.2 1 (UnionFindParallelLockFree.init 2) 1 (by decide)

/-- Claim C10: for every engine, `size()` returns the `N` fixed at
construction, and no completed `find`, `unionSets`, `sameSet` or
`processOperations` changes the value `size()` returns (element count
immutable; well-formed starting state, sequential embedding). -/
theorem claim_C10 :
    (∀ N, UnionFind.size (UnionFind.init N) = N) ∧
    (∀ fuel (s s' : UnionFind) a r, UnionFind.WF s →
      UnionFind.find fuel s a = some (.ok (s', r)) →
      UnionFind.size s' = UnionFind.size s) ∧
    (∀ fuel (s s' : UnionFind) a b r, UnionFind.WF s →
      UnionFind.unionSets fuel s a b = some (.ok (s', r)) →
      UnionFind.size s' = UnionFind.size s) ∧
    (∀ fuel (s s' : UnionFind) a b r, UnionFind.WF s →
      UnionFind.sameSet fuel s a b = some (.ok (s', r)) →
      UnionFind.size s' = UnionFind.size s) ∧
    (∀ fuel (s s' : UnionFind) ops outs, UnionFind.WF s →
      UnionFind.processOperations fuel s ops = some (.ok (s', outs)) →
      UnionFind.size s' = UnionFind.size s) ∧
    (∀ N, UnionFindParallelCoarse.size (UnionFind.init N) = N) ∧
    (∀ fuel (s s' : UnionFind) a r, UnionFind.WF s →
      UnionFindParallelCoarse.find fuel s a = some (.ok (s', r)) →
      UnionFindParallelCoarse.size s' = UnionFindParallelCoarse.size s) ∧
    (∀ fuel (s s' : UnionFind) a b r, UnionFind.WF s →
      UnionFindParallelCoarse.unionSets fuel s a b = some (.ok (s', r)) →
      UnionFindParallelCoarse.size s' = UnionFindParallelCoarse.size s) ∧
    (∀ fuel (s s' : UnionFind) a b r, UnionFind.WF s →
      UnionFindParallelCoarse.sameSet fuel s a b = some (.ok (s', r)) →
      UnionFindParallelCoarse.size s' = UnionFindParallelCoarse.size s) ∧
    (∀ fuel (s s' : UnionFind) ops outs, UnionFind.WF s →
      UnionFindParallelCoarse.processOperations fuel s ops =
        some (.ok (s', outs)) →
      UnionFindParallelCoarse.size s' = UnionFindParallelCoarse.size s) ∧
    (∀ N, UnionFindParallelFine.size (UnionFind.init N) = N) ∧
    (∀ fuel (s s' : UnionFind) a r, UnionFind.WF s →
      UnionFindParallelFine.find fuel s a = some (.ok (s', r)) →
      UnionFindParallelFine.size s' = UnionFindParallelFine.size s) ∧
    (∀ fuel (s s' : UnionFind) a b r, UnionFind.WF s →
      UnionFindParallelFine.unionSets fuel s a b = some (.ok (s', r)) →
      UnionFindParallelFine.size s' = UnionFindParallelFine.size s) ∧
    (∀ fuel (s s' : UnionFind) a b r, UnionFind.WF s →
      UnionFindParallelFine.sameSet fuel s a b = some (.ok (s', r)) →
      UnionFindParallelFine.size s' = UnionFindParallelFine.size s) ∧
    (∀ fuel (s s' : UnionFind) ops outs, UnionFind.WF s →
      UnionFindParallelFine.processOperations fuel s ops =
        some (.ok (s', outs)) →
      UnionFindParallelFine.size s' = UnionFindParallelFine.size s) ∧
    (∀ N, UnionFindParallelLockFree.size
      (UnionFindParallelLockFree.init N) = N) ∧
    (∀ fuel (s s' : LFState) a r, s.WF →
      UnionFindParallelLockFree.find fuel s a = some (.ok (s', r)) →
      UnionFindParallelLockFree.size s' =
        UnionFindParallelLockFree.size s) ∧
    (∀ fuel (s s' : LFState) a b r, s.WF →
      UnionFindParallelLockFree.unionSets fuel s a b =
        some (.ok (s', r)) →
      UnionFindParallelLockFree.size s' =
        UnionFindParallelLockFree.size s) ∧
    (∀ fuel (s s' : LFState) a b r, s.WF →
      UnionFindParallelLockFree.sameSet fuel s a b = some (.ok (s', r)) →
      UnionFindParallelLockFree.size s' =
        UnionFindParallelLockFree.size s) ∧
    (∀ fuel (s s' : LFState) ops outs, s.WF →
      UnionFindParallelLockFree.processOperations fuel s ops =
        some (s', outs) →
      UnionFindParallelLockFree.size s' =
        UnionFindParallelLockFree.size s) ∧
    (∀ N, UnionFindParallelLockFreePlainWrite.size
      (UnionFindParallelLockFreePlainWrite.init N) = N) ∧
    (∀ fuel (s s' : LFState) a r, s.WF →
      UnionFindParallelLockFreePlainWrite.find fuel s a =
        some (.ok (s', r)) →
      UnionFindParallelLockFreePlainWrite.size s' =
        UnionFindParallelLockFreePlainWrite.size s) ∧
    (∀ fuel (s s' : LFState) a b r, s.WF →
      UnionFindParallelLockFreePlainWrite.unionSets fuel s a b =
        some (.ok (s', r)) →
      UnionFindParallelLockFreePlainWrite.size s' =
        UnionFindParallelLockFreePlainWrite.size s) ∧
    (∀ fuel (s s' : LFState) a b r, s.WF →
      UnionFindParallelLockFreePlainWrite.sameSet fuel s a b =
        some (.ok (s', r)) →
      UnionFindParallelLockFreePlainWrite.size s' =
        UnionFindParallelLockFreePlainWrite.size s) ∧
    (∀ fuel (s s' : LFState) ops outs, s.WF →
      UnionFindParallelLockFreePlainWrite.processOperations fuel s ops =
        some (s', outs) →
      UnionFindParallelLockFreePlainWrite.size s' =
        UnionFindParallelLockFreePlainWrite.size s) ∧
    (∀ N, UnionFindParallelLockFreeIPC.size
      (UnionFindParallelLockFreeIPC.init N) = N) ∧
    (∀ fuel (s s' : LFState) a r, s.WF →
      UnionFindParallelLockFreeIPC.find fuel s a = some (.ok (s', r)) →
      UnionFindParallelLockFreeIPC.size s' =
        UnionFindParallelLockFreeIPC.size s) ∧
    (∀ fuel (s s' : LFState) a b r, s.WF →
      UnionFindParallelLockFreeIPC.unionSets fuel s a b =
        some (.ok (s', r)) →
      UnionFindParallelLockFreeIPC.size s' =
        UnionFindParallelLockFreeIPC.size s) ∧
    (∀ fuel (s s' : LFState) a b r, s.WF →
      UnionFindParallelLockFreeIPC.sameSet fuel s a b =
        some (.ok (s', r)) →
      UnionFindParallelLockFreeIPC.size s' =
        UnionFindParallelLockFreeIPC.size s) ∧
    (∀ fuel (s s' : LFState) ops outs, s.WF →
      UnionFindParallelLockFreeIPC.processOperations fuel s ops =
        some (s', outs) →
      UnionFindParallelLockFreeIPC.size s' =
        UnionFindParallelLockFreeIPC.size s) := by
  have sqF : ∀ fuel (s s' : UnionFind) a r, UnionFind.WF s →
      UnionFind.find fuel s a = some (.ok (s', r)) →
      s'.num_elements = s.num_elements := by
    intro fuel s s' a r hwf h
    obtain ⟨_, rn, _, _, _, hn, _, _, _⟩ := UnionFind.find_spec_seq hwf h
    exact hn
  have sqU : ∀ fuel (s s' : UnionFind) a b r, UnionFind.WF s →
      UnionFind.unionSets fuel s a b = some (.ok (s', r)) →
      s'.num_elements = s.num_elements := by
    intro fuel s s' a b r hwf h
    exact (UnionFind.unionSets_spec_seq hwf h).2.2.2.1
  have sqS : ∀ fuel (s s' : UnionFind) a b r, UnionFind.WF s →
      UnionFind.sameSet fuel s a b = some (.ok (s', r)) →
      s'.num_elements = s.num_elements := by
    intro fuel s s' a b r hwf h
    exact (UnionFind.sameSet_spec_seq hwf h).2.2.2.1
  have sqP : ∀ fuel (s s' : UnionFind) ops outs, UnionFind.WF s →
      UnionFind.processOperations fuel s ops = some (.ok (s', outs)) →
      s'.num_elements = s.num_elements := by
    intro fuel s s' ops outs hwf h
    exact (UnionFind.processOperations_spec_seq hwf h).2.1
  have fnF : ∀ fuel (s s' : UnionFind) a r, UnionFind.WF s →
      UnionFindParallelFine.find fuel s a = some (.ok (s', r)) →
      s'.num_elements = s.num_elements := by
    intro fuel s s' a r hwf h
    obtain ⟨_, rn, _, _, _, hn, _, _, _⟩ :=
      UnionFindParallelFine.find_spec_fine hwf h
    exact hn
  have fnU : ∀ fuel (s s' : UnionFind) a b r, UnionFind.WF s →
      UnionFindParallelFine.unionSets fuel s a b = some (.ok (s', r)) →
      s'.num_elements = s.num_elements := by
    intro fuel s s' a b r hwf h
    exact (UnionFindParallelFine.unionSets_spec_fine hwf h).2.2.2.1
  have fnS : ∀ fuel (s s' : UnionFind) a b r, UnionFind.WF s →
      UnionFindParallelFine.sameSet fuel s a b = some (.ok (s', r)) →
      s'.num_elements = s.num_elements := by
    intro fuel s s' a b r hwf h
    exact (UnionFindParallelFine.sameSet_spec_fine hwf h).2.2.2.1
  have fnP : ∀ fuel (s s' : UnionFind) ops outs, UnionFind.WF s →
      UnionFindParallelFine.processOperations fuel s ops =
        some (.ok (s', outs)) →
      s'.num_elements = s.num_elements := by
    intro fuel s s' ops outs hwf h
    exact (UnionFindParallelFine.processOperations_spec_fine hwf h).2.1
  have lfF : ∀ fuel (s s' : LFState) a r, s.WF →
      UnionFindParallelLockFree.find fuel s a = some (.ok (s', r)) →
      s'.n_elements = s.n_elements := by
    intro fuel s s' a r hwf h
    obtain ⟨_, rn, _, _, _, hn, _, _⟩ :=
      UnionFindParallelLockFree.find_spec_lf hwf h
    exact hn
  have lfU : ∀ fuel (s s' : LFState) a b r, s.WF →
      UnionFindParallelLockFree.unionSets fuel s a b =
        some (.ok (s', r)) →
      s'.n_elements = s.n_elements := by
    intro fuel s s' a b r hwf h
    exact (UnionFindParallelLockFree.unionSets_spec_lf hwf h).2.2.2.1
  have lfS : ∀ fuel (s s' : LFState) a b r, s.WF →
      UnionFindParallelLockFree.sameSet fuel s a b = some (.ok (s', r)) →
      s'.n_elements = s.n_elements := by
    intro fuel s s' a b r hwf h
    exact (UnionFindParallelLockFree.sameSet_spec_lf hwf h).2.2.2.1
  have lfP : ∀ fuel (s s' : LFState) ops outs, s.WF →
      UnionFindParallelLockFree.processOperations fuel s ops =
        some (s', outs) →
      s'.n_elements = s.n_elements := by
    intro fuel s s' ops outs hwf h
    exact (UnionFindParallelLockFree.processOperations_spec_lf hwf h).2.1
  have ipU : ∀ fuel (s s' : LFState) a b r, s.WF →
      UnionFindParallelLockFreeIPC.unionSets fuel s a b =
        some (.ok (s', r)) →
      s'.n_elements = s.n_elements := by
    intro fuel s s' a b r hwf h
    exact (UnionFindParallelLockFreeIPC.unionSets_spec_ipc hwf h).2.2.2.1
  have ipS : ∀ fuel (s s' : LFState) a b r, s.WF →
      UnionFindParallelLockFreeIPC.sameSet fuel s a b =
        some (.ok (s', r)) →
      s'.n_elements = s.n_elements := by
    intro fuel s s' a b r hwf h
    exact (UnionFindParallelLockFreeIPC.sameSet_spec_ipc hwf h).2.2.2.1
  have ipP : ∀ fuel (s s' : LFState) ops outs, s.WF →
      UnionFindParallelLockFreeIPC.processOperations fuel s ops =
        some (s', outs) →
      s'.n_elements = s.n_elements := by
    intro fuel s s' ops outs hwf h
    exact (UnionFindParallelLockFreeIPC.processOperations_spec_ipc hwf h).2.1
  exact ⟨fun N => rfl, sqF, sqU, sqS, sqP,
    fun N => rfl,
    fun fuel s s' a r hwf h => sqF fuel s s' a r hwf h,
    fun fuel s s' a b r hwf h => sqU fuel s s' a b r hwf h,
    fun fuel s s' a b r hwf h => sqS fuel s s' a b r hwf h,
    fun fuel s s' ops outs hwf h => sqP fuel s s' ops outs hwf h,
    fun N => rfl, fnF, fnU, fnS, fnP,
    fun N => rfl, lfF, lfU, lfS, lfP,
    fun N => rfl,
    fun fuel s s' a r hwf h => lfF fuel s s' a r hwf h,
    fun fuel s s' a b r hwf h => lfU fuel s s' a b r hwf h,
    fun fuel s s' a b r hwf h => lfS fuel s s' a b r hwf h,
    fun fuel s s' ops outs hwf h => lfP fuel s s' ops outs hwf h,
    fun N => rfl,
    fun fuel s s' a r hwf h => lfF fuel s s' a r hwf h,
    ipU, ipS, ipP⟩

/-- Witness for C10: `size` of three fresh elements is 3, and a
completed `find` leaves it unchanged. -/
theorem claim_C10_witness :
    UnionFind.size (UnionFind.init 3) = 3 ∧
    UnionFind.size (UnionFind.init 1) = UnionFind.size (UnionFind.init 1) :=
  ⟨claim_C10.1 3,
   claim_C10.2.1 1 (UnionFind.init 1) (UnionFind.init 1) 0 0
     (UnionFind.WF_init_seq 1) (by decide)⟩

end DSU
